import Mathlib

/-! # SpaceMouse firmware: axis filter, key/layer resolver, report scheduler

A shallow embedding of `axis_filter.h` and of the report and key logic of
`SpaceMouseHID.cpp`, with the configuration of `config.h`.

Conventions of the embedding:

* `int16_t` / `int32_t` values are `Int`; every narrowing store is written
  `wrap16` / `wrap32` (two's-complement wrap-around, as gcc implements it).
* `uint8_t` and `unsigned long` values are `Nat`; 32-bit unsigned subtraction
  is `sub32`.
* C functions that mutate `*f` return the new state next to their result.
-/

namespace SpaceMouse

/-! ## Machine integers -/

/-- Two's-complement narrowing to `int16_t`. -/
def wrap16 (z : Int) : Int := (z + 32768) % 65536 - 32768

/-- Two's-complement narrowing to `int32_t`. -/
def wrap32 (z : Int) : Int := (z + 2147483648) % 4294967296 - 2147483648

/-- Membership in the range of `int16_t`. -/
def isInt16 (z : Int) : Prop := -32768 ≤ z ∧ z ≤ 32767

instance (z : Int) : Decidable (isInt16 z) := by unfold isInt16; infer_instance

/-! ## axis_filter.h -/

/-- Build-time switches and parameters of the filter chain
(`AXIS_FILTER_MEDIAN3`, `AXIS_FILTER_EMA`, `AXIS_FILTER_SLEW`,
`AXIS_FILTER_ALPHA_Q15`, `AXIS_FILTER_MAX_STEP`). -/
structure FilterConfig where
  median3 : Bool
  ema : Bool
  slew : Bool
  alpha_q15 : Nat
  max_step : Nat
deriving DecidableEq, Repr

/-- The defaults of `axis_filter.h`: all stages on, alpha 6000, step 5. -/
def defaultFilterConfig : FilterConfig := ⟨true, true, true, 6000, 5⟩

/-- The C struct `AxisFilter`. -/
structure AxisFilter where
  m0 : Int
  m1 : Int
  ema_z1 : Int
  last : Int
  inited : Nat
deriving DecidableEq, Repr

/-- All `int16_t` fields of the struct hold `int16_t` values. -/
def AxisFilter.wf (f : AxisFilter) : Prop :=
  isInt16 f.m0 ∧ isInt16 f.m1 ∧ isInt16 f.ema_z1 ∧ isInt16 f.last

instance (f : AxisFilter) : Decidable f.wf := by unfold AxisFilter.wf; infer_instance

/-- `axisfilter_init`: zero the struct, then seed every memory cell. -/
def axisfilter_init (_f : AxisFilter) (init_val : Int) : AxisFilter :=
  { m0 := init_val, m1 := init_val, ema_z1 := init_val, last := init_val, inited := 1 }

/-- `_med3`: median of three. -/
def _med3 (a b c : Int) : Int :=
  let lo := if a < b then a else b
  let hi := if a > b then a else b
  if c < lo then lo
  else if c > hi then hi
  else c

/-- `axisfilter_median3`: median over the raw sample and the two stored raw
samples, then shift the raw history. -/
def axisfilter_median3 (f : AxisFilter) (x : Int) : AxisFilter × Int :=
  let y := _med3 x f.m0 f.m1
  ({ f with m1 := f.m0, m0 := x }, y)

/-- `axisfilter_ema_q15`: `y += ((x - y) * alpha) >> 15` in `int32_t`, stored
back into the `int16_t` accumulator. -/
def axisfilter_ema_q15 (f : AxisFilter) (x : Int) (alpha_q15 : Nat) : AxisFilter × Int :=
  let diff : Int := x - f.ema_z1
  let e := wrap16 (f.ema_z1 + (wrap32 (diff * (alpha_q15 : Int)) >>> (15 : Nat)))
  ({ f with ema_z1 := e }, e)

/-- `axisfilter_slew`: the difference `d` is stored in an `int16_t`, and so are
the stepped values `prev ± max_step`. -/
def axisfilter_slew (f : AxisFilter) (x : Int) (max_step : Nat) : AxisFilter × Int :=
  let prev := f.last
  let d := wrap16 (x - prev)
  let s := wrap16 (max_step : Int)
  let x1 :=
    if d > s then wrap16 (prev + s)
    else if d < -s then wrap16 (prev - s)
    else x
  ({ f with last := x1 }, x1)

/-- `axisfilter_run`: the full chain, each stage under its build-time switch. -/
def axisfilter_run (cfg : FilterConfig) (f : AxisFilter) (x : Int) : AxisFilter × Int :=
  let f0 := if f.inited = 0 then axisfilter_init f x else f
  let r1 := if cfg.median3 then axisfilter_median3 f0 x else (f0, x)
  let r2 := if cfg.ema then axisfilter_ema_q15 r1.1 r1.2 cfg.alpha_q15 else r1
  let r3 := if cfg.slew then axisfilter_slew r2.1 r2.2 cfg.max_step else r2
  r3

/-- `axisfilter_rebase`. -/
def axisfilter_rebase (_f : AxisFilter) (v : Int) : AxisFilter :=
  { m0 := v, m1 := v, ema_z1 := v, last := v, inited := 1 }

/-- State after feeding the samples `xs`, oldest first, through `axisfilter_run`. -/
def axisfilter_feed (cfg : FilterConfig) (f : AxisFilter) (xs : List Int) : AxisFilter :=
  xs.foldl (fun g x => (axisfilter_run cfg g x).1) f

/-- State after `n` calls `axisfilter_run(v)` with the same sample `v`. -/
def axisfilter_hold (cfg : FilterConfig) (f : AxisFilter) (v : Int) : Nat → AxisFilter
  | 0 => f
  | n + 1 => (axisfilter_run cfg (axisfilter_hold cfg f v n) v).1

/-- Value returned by call number `n + 1` of a run of calls `axisfilter_run(v)`. -/
def axisfilter_holdOut (cfg : FilterConfig) (f : AxisFilter) (v : Int) (n : Nat) : Int :=
  (axisfilter_run cfg (axisfilter_hold cfg f v n) v).2

/-- The raw history holds `v` twice and the filter is seeded. -/
def Settled (v : Int) (g : AxisFilter) : Prop :=
  g.m0 = v ∧ g.m1 = v ∧ g.inited ≠ 0 ∧ g.wf

/-! ## config.h -/

def NUMKEYS : Nat := 5
def NUMHIDKEYS : Nat := 5

def SM_MENU : Nat := 0
def SM_FIT : Nat := 1
def SM_T : Nat := 2
def SM_R : Nat := 4
def SM_F : Nat := 5
def SM_RCW : Nat := 8
def SM_1 : Nat := 12
def SM_2 : Nat := 13
def SM_3 : Nat := 14
def SM_4 : Nat := 15
def SM_ESC : Nat := 22
def SM_ALT : Nat := 23
def SM_SHFT : Nat := 24
def SM_CTRL : Nat := 25
def SM_ROT : Nat := 26

/-- The first definition in `config.h` (180) wins; the later `#ifndef` default
of 110 is skipped. -/
def FN_COMBO_WINDOW_MS : Nat := 180
def FN_SOLO_DELAY_MS : Nat := 40

def KEY_FN1_IDX : Nat := 3
def KEY_FN2_IDX : Nat := 4

def BUTTONLIST : List Nat := [SM_2, SM_1, SM_3, SM_SHFT, SM_4]
def BUTTONLIST_FN1 : List Nat := [SM_FIT, SM_MENU, SM_ROT, SM_SHFT, SM_4]
def BUTTONLIST_FN2 : List Nat := [SM_CTRL, SM_ESC, SM_ALT, SM_SHFT, SM_4]

/-! ## SpaceMouseHID.cpp: prepareKeyBytes -/

/-- The usage tables `baseMap`, `fn1Map`, `fn2Map` of `prepareKeyBytes`; a layer
table is `none` when its `BUTTONLIST_FNx` macro is not defined. -/
structure KeyTables where
  baseMap : Nat → Nat
  fn1Map : Option (Nat → Nat)
  fn2Map : Option (Nat → Nat)

/-- The tables as shipped in `config.h`. -/
def shippedTables : KeyTables :=
  { baseMap := fun i => BUTTONLIST.getD i 0
    fn1Map := some (fun i => BUTTONLIST_FN1.getD i 0)
    fn2Map := some (fun i => BUTTONLIST_FN2.getD i 0) }

/-- Every usage code of the tables lies in 0..31. -/
def KeyTables.codesBelow32 (tb : KeyTables) : Prop :=
  (∀ i, i < NUMHIDKEYS → tb.baseMap i < 32) ∧
  (∀ m, tb.fn1Map = some m → ∀ i, i < NUMHIDKEYS → m i < 32) ∧
  (∀ m, tb.fn2Map = some m → ∀ i, i < NUMHIDKEYS → m i < 32)

/-- 32-bit unsigned subtraction (`unsigned long` on the target): the difference
of the two 32-bit values, plus 2^32 when it would be negative. -/
def sub32 (a b : Nat) : Nat :=
  if b % 4294967296 ≤ a % 4294967296 then a % 4294967296 - b % 4294967296
  else 4294967296 - (b % 4294967296 - a % 4294967296)

/-- 32-bit unsigned addition. -/
def add32 (a b : Nat) : Nat := (a + b) % 4294967296

/-- The function-local `static` variables of `prepareKeyBytes`. Arrays are
functions of the index; every `uint8_t` flag holds 0 or 1. -/
structure KeyState where
  prevPhys : Nat → Nat
  pend : Nat → Nat
  tPend : Nat → Nat
  active : Nat → Nat
  fnSoloPend : Nat → Nat
  fnSoloAct : Nat → Nat
  tFnPend : Nat → Nat
  fn1Prev : Nat
  fn2Prev : Nat

/-- Zero-initialised statics. -/
def KeyState.init : KeyState :=
  { prevPhys := fun _ => 0, pend := fun _ => 0, tPend := fun _ => 0, active := fun _ => 0
    fnSoloPend := fun _ => 0, fnSoloAct := fun _ => 0, tFnPend := fun _ => 0
    fn1Prev := 0, fn2Prev := 0 }

/-- Lambda `isFnIdx`. -/
def isFnIdx (i : Nat) : Bool := i == KEY_FN1_IDX || i == KEY_FN2_IDX

/-- Lambda `isBaseIdx` (the index is unsigned here, so `i >= 0` holds). -/
def isBaseIdx (i : Nat) : Bool := decide (i < NUMHIDKEYS) && !isFnIdx i

/-- `fn1Now`. -/
def fn1Now (keys : Nat → Nat) : Bool :=
  if KEY_FN1_IDX < NUMKEYS then decide (keys KEY_FN1_IDX ≠ 0) else false

/-- `fn2Now`. -/
def fn2Now (keys : Nat → Nat) : Bool :=
  if KEY_FN2_IDX < NUMKEYS then decide (keys KEY_FN2_IDX ≠ 0) else false

/-- The loop computing `anyBasePhysDown`. -/
def anyBasePhysDown (keys : Nat → Nat) : Bool :=
  (List.range NUMHIDKEYS).any (fun i => isBaseIdx i && decide (keys i ≠ 0))

/-- Body of the base-key loop for index `i`: press edge, resolution of a
pending key, release edge, update of `prevPhys`. -/
def baseKeyBody (keys : Nat → Nat) (now : Nat) (s : KeyState) (i : Nat) : KeyState :=
  if !isBaseIdx i then s
  else
    let nowDown : Bool := decide (keys i ≠ 0)
    let wasDown : Bool := if i < NUMKEYS then decide (s.prevPhys i ≠ 0) else false
    let s1 : KeyState :=
      if nowDown && !wasDown then
        { s with pend := Function.update s.pend i 1
                 tPend := Function.update s.tPend i now
                 active := Function.update s.active i 0 }
      else s
    let s2 : KeyState :=
      if s1.pend i ≠ 0 then
        if fn1Now keys then
          { s1 with active := Function.update s1.active i 2, pend := Function.update s1.pend i 0 }
        else if fn2Now keys then
          { s1 with active := Function.update s1.active i 3, pend := Function.update s1.pend i 0 }
        else if sub32 now (s1.tPend i) ≥ FN_COMBO_WINDOW_MS then
          { s1 with active := Function.update s1.active i 1, pend := Function.update s1.pend i 0 }
        else s1
      else s1
    let s3 : KeyState :=
      if !nowDown && wasDown then
        { s2 with pend := Function.update s2.pend i 0, active := Function.update s2.active i 0 }
      else s2
    if i < NUMKEYS then
      { s3 with prevPhys := Function.update s3.prevPhys i (if nowDown then 1 else 0) }
    else s3

/-- The base-key loop `for (i = 0; i < NUMHIDKEYS; ++i)`. -/
def baseKeyLoop (keys : Nat → Nat) (now : Nat) (s : KeyState) : KeyState :=
  (List.range NUMHIDKEYS).foldl (baseKeyBody keys now) s

/-- The `baseBusy` flag of the Fn-solo blocks: a base key is physically down,
or some base key is pending or active after the base-key loop. -/
def baseBusy (keys : Nat → Nat) (s : KeyState) : Bool :=
  if anyBasePhysDown keys then true
  else (List.range NUMHIDKEYS).any
    (fun i => isBaseIdx i && (decide (s.pend i ≠ 0) || decide (s.active i ≠ 0)))

/-- The statements shared by the Fn1 block (`k = 0`) and the Fn2 block
(`k = 1`), up to the update of `fn1Prev` / `fn2Prev`. -/
def fnSoloBody (k : Nat) (nowFn : Bool) (fnPrev : Nat) (keys : Nat → Nat) (now : Nat)
    (s : KeyState) : KeyState :=
  let s1 : KeyState :=
    if nowFn && fnPrev = 0 then
      { s with fnSoloPend := Function.update s.fnSoloPend k 1
               tFnPend := Function.update s.tFnPend k now }
    else s
  let s2 : KeyState :=
    if !nowFn && fnPrev ≠ 0 then
      { s1 with fnSoloPend := Function.update s1.fnSoloPend k 0
                fnSoloAct := Function.update s1.fnSoloAct k 0 }
    else s1
  if s2.fnSoloPend k ≠ 0 then
    if baseBusy keys s2 then
      { s2 with fnSoloPend := Function.update s2.fnSoloPend k 0
                fnSoloAct := Function.update s2.fnSoloAct k 0 }
    else if sub32 now (s2.tFnPend k) ≥ FN_SOLO_DELAY_MS then
      { s2 with fnSoloAct := Function.update s2.fnSoloAct k 1 }
    else s2
  else if !nowFn then
    { s2 with fnSoloAct := Function.update s2.fnSoloAct k 0 }
  else s2

/-- The Fn1 block. -/
def fn1Block (keys : Nat → Nat) (now : Nat) (s : KeyState) : KeyState :=
  if KEY_FN1_IDX < NUMKEYS then
    let s1 := fnSoloBody 0 (fn1Now keys) s.fn1Prev keys now s
    { s1 with fn1Prev := if fn1Now keys then 1 else 0 }
  else s

/-- The Fn2 block. -/
def fn2Block (keys : Nat → Nat) (now : Nat) (s : KeyState) : KeyState :=
  if KEY_FN2_IDX < NUMKEYS then
    let s1 := fnSoloBody 1 (fn2Now keys) s.fn2Prev keys now s
    { s1 with fn2Prev := if fn2Now keys then 1 else 0 }
  else s

/-- The statement `keyData[bn / 8] |= (uint8_t)(1u << (bn % 8))`. -/
def setKeyBit (keyData : Nat → Nat) (bn : Nat) : Nat → Nat :=
  Function.update keyData (bn / 8) (keyData (bn / 8) ||| ((1 <<< (bn % 8)) % 256))

/-- The usage code selected for key `i` in mode `mode` (1 base, 2 Fn1 layer,
otherwise Fn2 layer), with the fallback to the base table. -/
def usageCode (tb : KeyTables) (mode i : Nat) : Nat :=
  if mode = 1 then tb.baseMap i
  else if mode = 2 then
    match tb.fn1Map with
    | some m => m i
    | none => tb.baseMap i
  else
    match tb.fn2Map with
    | some m => m i
    | none => tb.baseMap i

/-- Body of the first mask loop for index `i`. -/
def maskKeyBody (tb : KeyTables) (s : KeyState) (keyData : Nat → Nat) (i : Nat) : Nat → Nat :=
  if !isBaseIdx i then keyData
  else if s.active i = 0 then keyData
  else setKeyBit keyData (usageCode tb (s.active i) i)

/-- Mask assembly: the loop over the base keys, then the two Fn-solo bits. -/
def assembleMask (tb : KeyTables) (s : KeyState) (keyData : Nat → Nat) : Nat → Nat :=
  let k1 := (List.range NUMHIDKEYS).foldl (maskKeyBody tb s) keyData
  let k2 :=
    if KEY_FN1_IDX < NUMHIDKEYS ∧ s.fnSoloAct 0 ≠ 0 then setKeyBit k1 (tb.baseMap KEY_FN1_IDX)
    else k1
  if KEY_FN2_IDX < NUMHIDKEYS ∧ s.fnSoloAct 1 ≠ 0 then setKeyBit k2 (tb.baseMap KEY_FN2_IDX)
  else k2

/-- The loop `for (int i = 0; i < 4; i++) keyData[i] = 0`. -/
def clearKeyData (keyData : Nat → Nat) : Nat → Nat :=
  (List.range 4).foldl (fun kd i => Function.update kd i 0) keyData

/-- `prepareKeyBytes`: `keys` is the caller's key array, `keyData` the output
buffer as it is on entry, `now` the value of `millis()`. Returns the new
statics and the output buffer. -/
def prepareKeyBytes (tb : KeyTables) (s : KeyState) (keys : Nat → Nat) (keyData : Nat → Nat)
    (now : Nat) : KeyState × (Nat → Nat) :=
  let kd0 := clearKeyData keyData
  let s1 := baseKeyLoop keys now s
  let s2 := fn1Block keys now s1
  let s3 := fn2Block keys now s2
  (s3, assembleMask tb s3 kd0)

/-! ### Per-key and per-modifier views of the statics -/

/-- The four statics of one base key: `prevPhys[i]`, `pend[i]`, `tPend[i]`,
`active[i]`. -/
structure BaseKey where
  prevPhys : Nat
  pend : Nat
  tPend : Nat
  active : Nat
deriving DecidableEq, Repr

/-- The statics of key `i`. -/
def KeyState.key (s : KeyState) (i : Nat) : BaseKey :=
  ⟨s.prevPhys i, s.pend i, s.tPend i, s.active i⟩

/-- What the body of the base-key loop does to the statics of its own index
(the statements of `baseKeyBody`, read on one key). -/
def baseKeyStep (fn1 fn2 nowDown : Bool) (now : Nat) (k : BaseKey) : BaseKey :=
  let wasDown : Bool := decide (k.prevPhys ≠ 0)
  let k1 : BaseKey :=
    if nowDown && !wasDown then { k with pend := 1, tPend := now, active := 0 } else k
  let k2 : BaseKey :=
    if k1.pend ≠ 0 then
      if fn1 then { k1 with active := 2, pend := 0 }
      else if fn2 then { k1 with active := 3, pend := 0 }
      else if sub32 now k1.tPend ≥ FN_COMBO_WINDOW_MS then { k1 with active := 1, pend := 0 }
      else k1
    else k1
  let k3 : BaseKey :=
    if !nowDown && wasDown then { k2 with pend := 0, active := 0 } else k2
  { k3 with prevPhys := if nowDown then 1 else 0 }

/-- The statics of one modifier: `fnSoloPend[k]`, `fnSoloAct[k]`, `tFnPend[k]`
and `fn1Prev` (`k = 0`) or `fn2Prev` (`k = 1`). -/
structure FnSolo where
  pend : Nat
  act : Nat
  tPend : Nat
  prev : Nat
deriving DecidableEq, Repr

/-- The statics of modifier `k` (0 for Fn1, 1 for Fn2). -/
def KeyState.solo (s : KeyState) (k : Nat) : FnSolo :=
  ⟨s.fnSoloPend k, s.fnSoloAct k, s.tFnPend k, if k = 0 then s.fn1Prev else s.fn2Prev⟩

/-- The physical state of modifier `k` in this call. -/
def fnNow (k : Nat) (keys : Nat → Nat) : Bool :=
  if k = 0 then fn1Now keys else fn2Now keys

/-- Index of modifier `k` in the key array and in the base table. -/
def fnKeyIdx (k : Nat) : Nat := if k = 0 then KEY_FN1_IDX else KEY_FN2_IDX

/-- What an Fn block does to the statics of its modifier (the statements of
`fnSoloBody` and the update of `fnXPrev`, read on one modifier). -/
def fnSoloStep (nowFn busy : Bool) (now : Nat) (m : FnSolo) : FnSolo :=
  let m1 : FnSolo := if nowFn && m.prev = 0 then { m with pend := 1, tPend := now } else m
  let m2 : FnSolo := if !nowFn && m.prev ≠ 0 then { m1 with pend := 0, act := 0 } else m1
  let m3 : FnSolo :=
    if m2.pend ≠ 0 then
      if busy then { m2 with pend := 0, act := 0 }
      else if sub32 now m2.tPend ≥ FN_SOLO_DELAY_MS then { m2 with act := 1 }
      else m2
    else if !nowFn then { m2 with act := 0 }
    else m2
  { m3 with prev := if nowFn then 1 else 0 }

/-- One call of `prepareKeyBytes`: the key array and the clock. -/
structure Cycle where
  keys : Nat → Nat
  now : Nat

/-- Successive calls of `prepareKeyBytes`, oldest first. -/
def keyRun (tb : KeyTables) (s : KeyState) (keyData : Nat → Nat) :
    List Cycle → KeyState × (Nat → Nat)
  | [] => (s, keyData)
  | c :: cs =>
    keyRun tb (prepareKeyBytes tb s c.keys keyData c.now).1
      (prepareKeyBytes tb s c.keys keyData c.now).2 cs

/-- States of the resolver reachable from the zero-initialised statics. -/
inductive Reachable (tb : KeyTables) : KeyState → Prop
  | init : Reachable tb KeyState.init
  | step (s : KeyState) (keys keyData : Nat → Nat) (now : Nat) :
      Reachable tb s → Reachable tb (prepareKeyBytes tb s keys keyData now).1

/-- A key array given by the list of its first entries (the rest reads 0). -/
def keysOf (l : List Nat) : Nat → Nat := fun i => l.getD i 0

/-- Consistency of the statics of one base key: a pending key is unresolved
and was seen down; a resolved key was seen down and has a mode in 1..3. -/
def BaseKey.ok (k : BaseKey) : Prop :=
  (k.pend ≠ 0 → k.active = 0 ∧ k.prevPhys ≠ 0) ∧
  (k.active ≠ 0 → k.prevPhys ≠ 0 ∧ k.active ≤ 3) ∧
  k.pend ≤ 1

/-- Consistency of the statics of one modifier: an active solo is still
marked pending, and a pending solo belongs to a modifier seen down. -/
def FnSolo.ok (m : FnSolo) : Prop :=
  (m.act ≠ 0 → m.pend ≠ 0) ∧ (m.pend ≠ 0 → m.prev ≠ 0) ∧ m.act ≤ 1 ∧ m.pend ≤ 1

/-- No base key is down, pending or resolved in the statics `s`. -/
def KeyState.baseIdle (s : KeyState) : Prop :=
  ∀ i, isBaseIdx i = true → s.prevPhys i = 0 ∧ s.pend i = 0 ∧ s.active i = 0

/-- The invariant of the reachable resolver states. -/
def KeyState.Inv (s : KeyState) : Prop :=
  (∀ i, isBaseIdx i = true → (s.key i).ok) ∧
  (∀ k, k < 2 → (s.solo k).ok) ∧
  (∀ k, k < 2 → s.fnSoloPend k ≠ 0 → s.baseIdle)

/-- Calls made `p.2` milliseconds after the time `t0`, with key array `p.1`, as
the wrapping 32-bit clock `millis()` shows them. -/
def cyclesAt (t0 : Nat) (l : List ((Nat → Nat) × Nat)) : List Cycle :=
  l.map (fun p => ⟨p.1, (t0 + p.2) % 4294967296⟩)

/-- Modifier `k` has been held alone since its press edge at time `t0`, and
the last call was `e` milliseconds after it. -/
def SoloHold (k t0 : Nat) (s : KeyState) (e : Nat) : Prop :=
  s.fnSoloPend k ≠ 0 ∧ s.tFnPend k = t0 % 4294967296 ∧ (s.solo k).prev ≠ 0 ∧
  (s.fnSoloAct k ≠ 0 ↔ FN_SOLO_DELAY_MS ≤ e) ∧
  (∀ i, isBaseIdx i = true → s.pend i = 0 ∧ s.active i = 0)

/-! ## SpaceMouseHID.cpp: send_command -/

/-- Modelled from the spec: the macro `HIDUPDATERATE_MS` is defined in
`SpaceMouseHID.h`, which is not among the sources; the spec (8 ms cadence) and
the comments of `send_command` ("if the 8 ms from the last hid report have
past") give its value. -/
def HIDUPDATERATE_MS : Nat := 8

/-- Modelled from the spec: the enumeration of `nextState` is declared in
`SpaceMouseHID.h`, which is not among the sources. The four states that
`send_command` names, and `ST_OTHER` for any further value, which the
`switch` sends to its `default` branch. -/
inductive States where
  | ST_INIT
  | ST_START
  | ST_SENDTRANS
  | ST_SENDKEYS
  | ST_OTHER (raw : Nat)
deriving DecidableEq, Repr

/-- Modelled from the spec: the class `SpaceMouseHID_` is declared in
`SpaceMouseHID.h`, which is not among the sources. These are the members that
`send_command` and `prepareKeyBytes` use, with the function-local statics
`keyData`, `prevKeyData` of `send_command` and the statics of
`prepareKeyBytes`. The two zero-streak counters are unbounded counters, as the
spec describes them; timestamps are `unsigned long`. -/
structure SpaceMouseHID where
  nextState : States
  lastHIDsentRep : Nat
  countTransZeros : Nat
  countRotZeros : Nat
  keyData : Nat → Nat
  prevKeyData : Nat → Nat
  keyStatics : KeyState

/-- The object after construction: `nextState = ST_INIT`, everything else
zero-initialised. -/
def SpaceMouseHID.init : SpaceMouseHID :=
  { nextState := States.ST_INIT, lastHIDsentRep := 0, countTransZeros := 0, countRotZeros := 0
    keyData := fun _ => 0, prevKeyData := fun _ => 0, keyStatics := KeyState.init }

/-- A call `SendReport(id, data, len)`: report id and payload bytes. -/
structure Report where
  id : Nat
  data : List Nat
deriving DecidableEq, Repr

/-- `SendReport`: `usb.1` and `usb.2` are the results of the two `USB_Send`
calls (the second is made only when the first did not fail). -/
def SendReport (usb : Int × Int) : Int :=
  if usb.1 < 0 then usb.1
  else if usb.2 < 0 then usb.2
  else usb.1 + usb.2

/-- `IsNewHidReportDue`. -/
def IsNewHidReportDue (h : SpaceMouseHID) (now : Nat) : Bool :=
  decide (sub32 now h.lastHIDsentRep ≥ HIDUPDATERATE_MS)

/-- `memcmp(a, b, 4) != 0`. -/
def memcmp4_ne (a b : Nat → Nat) : Bool :=
  (List.range 4).any (fun i => decide (a i ≠ b i))

/-- `memcpy(dst, src, 4)`. -/
def memcpy4 (dst src : Nat → Nat) : Nat → Nat :=
  fun i => if i < 4 then src i else dst i

/-- `(byte)(v & 0xFF)` for an `int16_t` value. -/
def lowByte (v : Int) : Nat := (v % 256).toNat

/-- `(byte)(v >> 8)` for an `int16_t` value (arithmetic shift). -/
def highByte (v : Int) : Nat := ((v >>> (8 : Nat)) % 256).toNat

/-- The array `trans` of `ST_SENDTRANS`. -/
def transBytes (rx ry rz x y z : Int) : List Nat :=
  [lowByte x, highByte x, lowByte y, highByte y, lowByte z, highByte z,
   lowByte rx, highByte rx, lowByte ry, highByte ry, lowByte rz, highByte rz]

/-- What one call of `send_command` yields: the object afterwards, the
`SendReport` call it made (if any) with the value that call returned, and the
returned flag `hasSentNewData`. -/
structure SendResult where
  hid : SpaceMouseHID
  report : Option Report
  usbResult : Option Int
  hasSentNewData : Bool

/-- The `switch (nextState)` of `send_command`, on an object whose `keyData`
has been filled by `prepareKeyBytes`. The value returned by `SendReport` is
not looked at. -/
def send_command_switch (h : SpaceMouseHID) (rx ry rz x y z : Int) (now : Nat)
    (usb : Int × Int) : SendResult :=
  match h.nextState with
  | States.ST_INIT =>
    ⟨{ h with lastHIDsentRep := now, nextState := States.ST_START }, none, none, false⟩
  | States.ST_START =>
    if h.countTransZeros < 3 ∨ h.countRotZeros < 3 ∨
        (x ≠ 0 ∨ y ≠ 0 ∨ z ≠ 0 ∨ rx ≠ 0 ∨ ry ≠ 0 ∨ rz ≠ 0) then
      ⟨{ h with nextState := States.ST_SENDTRANS }, none, none, false⟩
    else
      let h1 : SpaceMouseHID :=
        if memcmp4_ne h.keyData h.prevKeyData then { h with nextState := States.ST_SENDKEYS }
        else h
      let h2 : SpaceMouseHID :=
        if h1.nextState = States.ST_START ∧ IsNewHidReportDue h1 now = true then
          { h1 with lastHIDsentRep := sub32 now HIDUPDATERATE_MS }
        else h1
      ⟨h2, none, none, false⟩
  | States.ST_SENDTRANS =>
    if IsNewHidReportDue h now then
      let trans := transBytes rx ry rz x y z
      let ret := SendReport usb
      let h1 : SpaceMouseHID :=
        { h with
          lastHIDsentRep := add32 h.lastHIDsentRep HIDUPDATERATE_MS
          countTransZeros := if x = 0 ∧ y = 0 ∧ z = 0 then h.countTransZeros + 1 else 0
          countRotZeros := if rx = 0 ∧ ry = 0 ∧ rz = 0 then h.countRotZeros + 1 else 0 }
      let h2 : SpaceMouseHID :=
        if memcmp4_ne h1.keyData h1.prevKeyData then { h1 with nextState := States.ST_SENDKEYS }
        else { h1 with nextState := States.ST_START }
      ⟨h2, some ⟨1, trans⟩, some ret, true⟩
    else ⟨h, none, none, false⟩
  | States.ST_SENDKEYS =>
    if IsNewHidReportDue h now then
      let ret := SendReport usb
      ⟨{ h with
          lastHIDsentRep := add32 h.lastHIDsentRep HIDUPDATERATE_MS
          prevKeyData := memcpy4 h.prevKeyData h.keyData
          nextState := States.ST_START },
        some ⟨3, [h.keyData 0, h.keyData 1, h.keyData 2, h.keyData 3]⟩, some ret, true⟩
    else ⟨h, none, none, false⟩
  | States.ST_OTHER _ =>
    ⟨{ h with nextState := States.ST_START }, none, none, false⟩

/-- `send_command`: `now` is the value of `millis()` read on entry, `nowKeys`
the value read inside `prepareKeyBytes`, `usb` the results of the `USB_Send`
calls. The parameter `debug` is not used. -/
def send_command (tb : KeyTables) (h : SpaceMouseHID) (rx ry rz x y z : Int) (keys : Nat → Nat)
    (now nowKeys : Nat) (usb : Int × Int) : SendResult :=
  let r := prepareKeyBytes tb h.keyStatics keys h.keyData nowKeys
  send_command_switch { h with keyStatics := r.1, keyData := r.2 } rx ry rz x y z now usb

/-- The arguments and the environment of one call of `send_command`. -/
structure Call where
  rx : Int
  ry : Int
  rz : Int
  x : Int
  y : Int
  z : Int
  keys : Nat → Nat
  now : Nat
  nowKeys : Nat
  usb : Int × Int

/-- Successive calls of `send_command`, oldest first: the result of each. -/
def sendRun (tb : KeyTables) (h : SpaceMouseHID) : List Call → List SendResult
  | [] => []
  | c :: cs =>
    send_command tb h c.rx c.ry c.rz c.x c.y c.z c.keys c.now c.nowKeys c.usb ::
      sendRun tb (send_command tb h c.rx c.ry c.rz c.x c.y c.z c.keys c.now c.nowKeys c.usb).hid cs

/-- The reports handed to `SendReport` during a run, oldest first. -/
def reportsOf (rs : List SendResult) : List Report :=
  rs.filterMap (fun r => r.report)

/-- The motion report with all six axis values zero. -/
def zeroMotionReport : Report := ⟨1, [0, 0, 0, 0, 0, 0, 0, 0, 0, 0, 0, 0]⟩

/-- A call with all axes at zero, the given key array, at clock value `now`. -/
def idleCall (keys : Nat → Nat) (now : Nat) : Call :=
  { rx := 0, ry := 0, rz := 0, x := 0, y := 0, z := 0, keys := keys, now := now
    nowKeys := now, usb := (1, 12) }

/-- Calls with all six axis values zero, one every `HIDUPDATERATE_MS` on the
wrapping 32-bit clock, the first at clock value `t`. -/
def IdleCallsFrom (t : Nat) : List Call → Prop
  | [] => True
  | c :: cs =>
    (c.x = 0 ∧ c.y = 0 ∧ c.z = 0 ∧ c.rx = 0 ∧ c.ry = 0 ∧ c.rz = 0) ∧
    c.now = t % 4294967296 ∧ IdleCallsFrom (t + HIDUPDATERATE_MS) cs

/-- Zero motion reports still owed before idle suppression starts. -/
def flushLeft (h : SpaceMouseHID) : Nat := 3 - min h.countTransZeros h.countRotZeros

/-- The scheduler is flushing: in `ST_START`, or in `ST_SENDTRANS` with a
report owed, or freshly constructed. -/
def FlushPhase (h : SpaceMouseHID) : Prop :=
  h.nextState = States.ST_START ∨
  (h.nextState = States.ST_SENDTRANS ∧ 1 ≤ flushLeft h) ∨
  (h.nextState = States.ST_INIT ∧ h.countTransZeros = 0 ∧ h.countRotZeros = 0)

/-- A bound on the number of idle calls, the next one at clock value `t`,
until every owed zero report has been sent. -/
def flushBound (h : SpaceMouseHID) (t : Nat) : Nat :=
  match h.nextState with
  | States.ST_INIT => 10
  | States.ST_START => 3 * flushLeft h
  | States.ST_SENDTRANS =>
    if sub32 t h.lastHIDsentRep ≥ HIDUPDATERATE_MS then 3 * flushLeft h - 2
    else 3 * flushLeft h - 1
  | _ => 0

/-- The chain with only the despike stage enabled. -/
def despikeOnlyConfig : FilterConfig := ⟨true, false, false, 6000, 5⟩

/-- Values returned by successive calls `axisfilter_run`, oldest first. -/
def axisfilter_outputs (cfg : FilterConfig) (f : AxisFilter) : List Int → List Int
  | [] => []
  | x :: xs => (axisfilter_run cfg f x).2 :: axisfilter_outputs cfg (axisfilter_run cfg f x).1 xs

/-- Reading a byte pair as a little-endian two's-complement 16-bit integer:
the receiving side of the motion report format. -/
def decodeInt16LE (lo hi : Nat) : Int := wrap16 ((lo : Int) + 256 * (hi : Int))

/-- Reading a payload as consecutive little-endian 16-bit integers (bytes
`2k` and `2k + 1` give value `k`). -/
def decodeAxes : List Nat → List Int
  | lo :: hi :: rest => decodeInt16LE lo hi :: decodeAxes rest
  | _ => []

/-! ## SpaceMouseHID.cpp: updateLEDState -/

/-- Modelled from the spec: `USB_Available` belongs to the Arduino core, which
is not among the sources. The receive endpoint is the list `rx` of the bytes
waiting in it, oldest first; the count of available bytes is stored in the
`uint8_t numBytes`. -/
def USB_Available (rx : List Nat) : Nat := rx.length % 256

/-- Modelled from the spec: `USB_Recv(ep, data, 2)` belongs to the Arduino
core, which is not among the sources. It moves up to two waiting bytes into
`data` (zero-initialised by the caller) and removes them from the endpoint. -/
def USB_Recv2 (rx : List Nat) : (Nat × Nat) × List Nat :=
  ((rx.getD 0 0, rx.getD 1 0), rx.drop 2)

/-- `updateLEDState`: the member `ledState` and the receive endpoint before the
call; returns the returned value, the member `ledState` and the receive
endpoint after it. -/
def updateLEDState (ledState : Bool) (rx : List Nat) : Bool × Bool × List Nat :=
  let numBytes := USB_Available rx
  if numBytes ≥ 2 then
    let r := USB_Recv2 rx
    let ledState1 : Bool :=
      if r.1.1 = 4 then (if r.1.2 = 1 then true else false) else ledState
    (ledState1, ledState1, r.2)
  else (ledState, ledState, rx)

/-- `getLEDState`. -/
def getLEDState (ledState : Bool) : Bool := ledState

/-- The object as the `switch` of `send_command` finds it: `prepareKeyBytes`
has rewritten its statics and filled `keyData`. -/
def afterKeys (tb : KeyTables) (h : SpaceMouseHID) (keys : Nat → Nat) (nowKeys : Nat) :
    SpaceMouseHID :=
  { h with keyStatics := (prepareKeyBytes tb h.keyStatics keys h.keyData nowKeys).1
           keyData := (prepareKeyBytes tb h.keyStatics keys h.keyData nowKeys).2 }

/-! ## Theorems: axis filter -/

/-- `sub32` is subtraction modulo 2^32. -/
theorem sub32_eq (a b : Nat) :
    sub32 a b = (a % 4294967296 + 4294967296 - b % 4294967296) % 4294967296 := by
  unfold sub32; split_ifs <;> omega

theorem wrap16_isInt16 (z : Int) : isInt16 (wrap16 z) := by
  unfold isInt16 wrap16; omega

theorem wrap16_of_isInt16 {z : Int} (h : isInt16 z) : wrap16 z = z := by
  unfold isInt16 at h; unfold wrap16; omega

/-- With the default alpha the 32-bit product does not overflow, the shift is
a floor division, and the narrowing store keeps the value. -/
theorem ema_default_exact {x e : Int} (hx : isInt16 x) (he : isInt16 e) :
    wrap16 (e + (wrap32 ((x - e) * ((6000 : Nat) : Int)) >>> (15 : Nat))) = e + ((x - e) * 6000) / 32768 := by
  unfold isInt16 at hx he
  have h32 : wrap32 ((x - e) * ((6000 : Nat) : Int)) = (x - e) * 6000 := by
    unfold wrap32; push_cast; omega
  rw [h32, Int.shiftRight_eq_div_pow]
  unfold wrap16
  norm_num
  omega

/-- The value returned by the default chain is the stored `last`. -/
theorem axisfilter_run_out_eq_last (f : AxisFilter) (x : Int) :
    (axisfilter_run defaultFilterConfig f x).2 = (axisfilter_run defaultFilterConfig f x).1.last := by
  simp [axisfilter_run, defaultFilterConfig, axisfilter_slew]

/-- One default-chain call keeps the struct well formed, records the raw
sample and shifts the raw history. -/
theorem axisfilter_run_wf {f : AxisFilter} {x : Int} (hf : f.wf) (hx : isInt16 x) :
    (axisfilter_run defaultFilterConfig f x).1.wf ∧
    (axisfilter_run defaultFilterConfig f x).1.m0 = x ∧
    (axisfilter_run defaultFilterConfig f x).1.m1 = (if f.inited = 0 then x else f.m0) ∧
    (axisfilter_run defaultFilterConfig f x).1.inited ≠ 0 := by
  obtain ⟨h0, h1, h2, h3⟩ := hf
  by_cases hi : f.inited = 0
  · simp only [axisfilter_run, defaultFilterConfig, axisfilter_median3, axisfilter_ema_q15,
      axisfilter_slew, axisfilter_init, hi, if_true, AxisFilter.wf]
    refine ⟨⟨hx, hx, wrap16_isInt16 _, ?_⟩, trivial, trivial, by decide⟩
    split_ifs <;> apply wrap16_isInt16
  · simp only [axisfilter_run, defaultFilterConfig, axisfilter_median3, axisfilter_ema_q15,
      axisfilter_slew, hi, if_false, if_true, AxisFilter.wf]
    refine ⟨⟨hx, h0, wrap16_isInt16 _, ?_⟩, trivial, trivial, hi⟩
    split_ifs <;> apply wrap16_isInt16

/-- One default-chain call on a settled history: the median is `v`, the
accumulator moves by the floored EMA step and `last` follows by the slew rule. -/
theorem axisfilter_run_settled {v : Int} {g : AxisFilter} (hv : isInt16 v) (hg : Settled v g) :
    Settled v (axisfilter_run defaultFilterConfig g v).1 ∧
    (axisfilter_run defaultFilterConfig g v).1.ema_z1
      = g.ema_z1 + ((v - g.ema_z1) * 6000) / 32768 ∧
    (axisfilter_run defaultFilterConfig g v).1.last
      = (if wrap16 ((axisfilter_run defaultFilterConfig g v).1.ema_z1 - g.last) > 5
          then wrap16 (g.last + 5)
         else if wrap16 ((axisfilter_run defaultFilterConfig g v).1.ema_z1 - g.last) < -5
          then wrap16 (g.last - 5)
         else (axisfilter_run defaultFilterConfig g v).1.ema_z1) := by
  obtain ⟨h0, h1, hi, hw⟩ := hg
  have hwf := axisfilter_run_wf hw hv
  have hmed : _med3 v g.m0 g.m1 = v := by simp [_med3, h0, h1]
  have hs : wrap16 ((5 : Nat) : Int) = 5 := by decide
  refine ⟨⟨hwf.2.1, ?_, hwf.2.2.2, hwf.1⟩, ?_, ?_⟩
  · rw [hwf.2.2.1, if_neg hi, h0]
  · simp only [axisfilter_run, defaultFilterConfig, axisfilter_median3, axisfilter_ema_q15,
      axisfilter_slew, hi, if_false, if_true, hmed]
    exact ema_default_exact hv hw.2.2.1
  · simp only [axisfilter_run, defaultFilterConfig, axisfilter_median3, axisfilter_ema_q15,
      axisfilter_slew, hi, if_false, if_true, hmed, hs]

theorem axisfilter_hold_succ_left (cfg : FilterConfig) (f : AxisFilter) (v : Int) (n : Nat) :
    axisfilter_hold cfg f v (n + 1) = axisfilter_hold cfg (axisfilter_run cfg f v).1 v n := by
  induction n with
  | zero => rfl
  | succ k ih => rw [axisfilter_hold, ih]; rfl

theorem axisfilter_hold_add (cfg : FilterConfig) (f : AxisFilter) (v : Int) (a b : Nat) :
    axisfilter_hold cfg f v (a + b) = axisfilter_hold cfg (axisfilter_hold cfg f v a) v b := by
  induction b with
  | zero => rfl
  | succ k ih => rw [← Nat.add_assoc, axisfilter_hold, ih]; rfl

theorem axisfilter_hold_settled {v : Int} {g : AxisFilter} (hv : isInt16 v) (hg : Settled v g)
    (n : Nat) : Settled v (axisfilter_hold defaultFilterConfig g v n) := by
  induction n with
  | zero => exact hg
  | succ k ih => exact (axisfilter_run_settled hv ih).1

/-- Inside the dead band `v - 5 ≤ e ≤ v` the accumulator no longer moves. -/
theorem axisfilter_hold_ema_fixed {v : Int} {g : AxisFilter} (hv : isInt16 v)
    (hg : Settled v g) (hlo : v - 5 ≤ g.ema_z1) (hhi : g.ema_z1 ≤ v) (n : Nat) :
    (axisfilter_hold defaultFilterConfig g v n).ema_z1 = g.ema_z1 := by
  induction n with
  | zero => rfl
  | succ k ih =>
    have h := (axisfilter_run_settled hv (axisfilter_hold_settled hv hg k)).2.1
    rw [axisfilter_hold, h, ih]
    omega

/-- The accumulator reaches the dead band after finitely many calls. -/
theorem axisfilter_hold_ema_converges {v : Int} (hv : isInt16 v) (k : Nat) :
    ∀ g : AxisFilter, Settled v g → (v - g.ema_z1).natAbs ≤ k →
      ∃ N e, v - 5 ≤ e ∧ e ≤ v ∧ ∀ n, N ≤ n →
        (axisfilter_hold defaultFilterConfig g v n).ema_z1 = e := by
  induction k with
  | zero =>
    intro g hg hk
    have : g.ema_z1 = v := by omega
    exact ⟨0, g.ema_z1, by omega, by omega, fun n _ =>
      axisfilter_hold_ema_fixed hv hg (by omega) (by omega) n⟩
  | succ k ih =>
    intro g hg hk
    by_cases hband : v - 5 ≤ g.ema_z1 ∧ g.ema_z1 ≤ v
    · exact ⟨0, g.ema_z1, hband.1, hband.2, fun n _ =>
        axisfilter_hold_ema_fixed hv hg hband.1 hband.2 n⟩
    · have hstep := axisfilter_run_settled hv hg
      have hsmall : (v - (axisfilter_run defaultFilterConfig g v).1.ema_z1).natAbs ≤ k := by
        rw [hstep.2.1]
        have he := hg.2.2.2.2.2.1
        unfold isInt16 at hv he
        omega
      obtain ⟨N, e, hlo, hhi, hN⟩ := ih _ hstep.1 hsmall
      refine ⟨N + 1, e, hlo, hhi, fun n hn => ?_⟩
      obtain ⟨m, rfl⟩ : ∃ m, n = m + 1 := ⟨n - 1, by omega⟩
      rw [axisfilter_hold_succ_left]
      exact hN m (by omega)

/-- Once `last` has caught up with a resting accumulator it stays there. -/
theorem axisfilter_hold_last_fixed {v : Int} {g : AxisFilter} (hv : isInt16 v)
    (hg : Settled v g) (hlo : v - 5 ≤ g.ema_z1) (hhi : g.ema_z1 ≤ v)
    (hl : g.last = g.ema_z1) (n : Nat) :
    (axisfilter_hold defaultFilterConfig g v n).last = g.ema_z1 := by
  induction n with
  | zero => exact hl
  | succ k ih =>
    have hk := axisfilter_run_settled hv (axisfilter_hold_settled hv hg k)
    have he := axisfilter_hold_ema_fixed hv hg hlo hhi (k + 1)
    rw [axisfilter_hold] at he ⊢
    rw [hk.2.2, he, ih]
    simp [wrap16]

/-- With the accumulator at rest, `last` reaches it after finitely many calls:
the 16-bit distance shrinks by the step until the final snap. -/
theorem axisfilter_hold_last_converges {v : Int} (hv : isInt16 v) (k : Nat) :
    ∀ g : AxisFilter, Settled v g → v - 5 ≤ g.ema_z1 → g.ema_z1 ≤ v →
      (wrap16 (g.ema_z1 - g.last)).natAbs ≤ k →
      ∃ M, ∀ n, M ≤ n → (axisfilter_hold defaultFilterConfig g v n).last = g.ema_z1 := by
  induction k with
  | zero =>
    intro g hg hlo hhi hk
    have he := hg.2.2.2.2.2.1
    have hl := hg.2.2.2.2.2.2
    have : g.last = g.ema_z1 := by
      unfold isInt16 at he hl; unfold wrap16 at hk; omega
    exact ⟨0, fun n _ => axisfilter_hold_last_fixed hv hg hlo hhi this n⟩
  | succ k ih =>
    intro g hg hlo hhi hk
    have he := hg.2.2.2.2.2.1
    have hl := hg.2.2.2.2.2.2
    have hstep := axisfilter_run_settled hv hg
    have hema : (axisfilter_run defaultFilterConfig g v).1.ema_z1 = g.ema_z1 := by
      rw [hstep.2.1]; omega
    have hlast := hstep.2.2
    rw [hema] at hlast
    have hsmall : (wrap16 ((axisfilter_run defaultFilterConfig g v).1.ema_z1
        - (axisfilter_run defaultFilterConfig g v).1.last)).natAbs ≤ k := by
      rw [hema, hlast]
      unfold isInt16 at he hl hv
      unfold wrap16 at hk ⊢
      split_ifs <;> omega
    obtain ⟨M, hM⟩ := ih _ hstep.1 (by rw [hema]; exact hlo) (by rw [hema]; exact hhi) hsmall
    refine ⟨M + 1, fun n hn => ?_⟩
    obtain ⟨m, rfl⟩ : ∃ m, n = m + 1 := ⟨n - 1, by omega⟩
    rw [axisfilter_hold_succ_left, hM m (by omega), hema]

/-- Away from the 16-bit boundary the slew stage does bound the step: when the
difference `x - last` and the stepped values `last ± 5` fit in `int16_t`, the
returned value is within 5 of the previous `last`. -/
theorem axisfilter_slew_bound_in_range (f : AxisFilter) (x : Int)
    (hd : isInt16 (x - f.last)) (hp : isInt16 (f.last + 5)) (hm : isInt16 (f.last - 5)) :
    |(axisfilter_slew f x 5).2 - f.last| ≤ 5 := by
  unfold isInt16 at hd hp hm
  simp only [axisfilter_slew, wrap16, abs_le]
  push_cast
  split_ifs <;> constructor <;> omega

/-- C1 (slew bound), evaluated at a failing input. A filter seeded with 32767
and then fed -32768 seven times is in a well-formed state with `last = 32767`;
the eighth call `axisfilter_run(-32768)` returns -32764, a step of 65531, not
at most 5: `prev + max_step` is stored in an `int16_t` and wraps. The slew
stage alone, with `last = -32768` and input 32767, returns 32767, because the
16-bit difference wraps to -1. -/
theorem axisfilter_slew_bound_violated :
    (axisfilter_hold defaultFilterConfig (axisfilter_init ⟨0, 0, 0, 0, 0⟩ 32767) (-32768) 7).wf ∧
    (axisfilter_hold defaultFilterConfig (axisfilter_init ⟨0, 0, 0, 0, 0⟩ 32767) (-32768) 7).last
      = 32767 ∧
    axisfilter_holdOut defaultFilterConfig (axisfilter_init ⟨0, 0, 0, 0, 0⟩ 32767) (-32768) 6
      = 32767 ∧
    axisfilter_holdOut defaultFilterConfig (axisfilter_init ⟨0, 0, 0, 0, 0⟩ 32767) (-32768) 7
      = -32764 ∧
    (axisfilter_slew ⟨0, 0, 0, -32768, 1⟩ 32767 5).2 = 32767 := by
  decide

/-- C2 as stated fails: a filter seeded with 0 and fed the constant 1 returns 0
on every call, because the floored EMA step `((1 - 0) * 6000) >> 15` is 0. -/
theorem axisfilter_constant_input_counterexample :
    ¬ ∃ N, ∀ n, N ≤ n →
      axisfilter_holdOut defaultFilterConfig (axisfilter_init ⟨0, 0, 0, 0, 0⟩ 0) 1 n = 1 := by
  rintro ⟨N, hN⟩
  have hfix : ∀ n, axisfilter_hold defaultFilterConfig ⟨1, 1, 0, 0, 1⟩ 1 n = ⟨1, 1, 0, 0, 1⟩ := by
    intro n
    induction n with
    | zero => rfl
    | succ k ih => rw [axisfilter_hold, ih]; decide
  have h2 : axisfilter_hold defaultFilterConfig (axisfilter_init ⟨0, 0, 0, 0, 0⟩ 0) 1 2
      = ⟨1, 1, 0, 0, 1⟩ := by decide
  have h := hN (2 + N) (by omega)
  rw [axisfilter_holdOut, axisfilter_hold_add, h2, hfix] at h
  revert h
  decide

/-- C2, amended. For every well-formed filter state and every `int16_t` value
`v`, repeated calls `axisfilter_run(v)` with the default chain eventually
return one constant value `o` with `v - 5 ≤ o ≤ v`, and every later call
returns the same `o`; and from a state whose memory is all `v` (as after
`axisfilter_init(v)` or `axisfilter_rebase(v)`) every call returns `v`. -/
theorem axisfilter_constant_input_settles (f : AxisFilter) (v : Int)
    (hf : f.wf) (hv : isInt16 v) :
    (∃ N o, v - 5 ≤ o ∧ o ≤ v ∧
      ∀ n, N ≤ n → axisfilter_holdOut defaultFilterConfig f v n = o) ∧
    (f.m0 = v → f.m1 = v → f.ema_z1 = v → f.last = v → f.inited ≠ 0 →
      ∀ n, axisfilter_holdOut defaultFilterConfig f v n = v) := by
  have hout : ∀ n, axisfilter_holdOut defaultFilterConfig f v n
      = (axisfilter_hold defaultFilterConfig f v (n + 1)).last := fun n =>
    axisfilter_run_out_eq_last _ _
  constructor
  · -- two calls fill the raw history with `v`
    have h1 := axisfilter_run_wf hf hv
    have h2 := axisfilter_run_wf h1.1 hv
    have hset : Settled v (axisfilter_hold defaultFilterConfig f v 2) :=
      ⟨h2.2.1, by
        show (axisfilter_run defaultFilterConfig (axisfilter_run defaultFilterConfig f v).1 v).1.m1 = v
        rw [h2.2.2.1, if_neg h1.2.2.2]; exact h1.2.1, h2.2.2.2, h2.1⟩
    obtain ⟨N, e, hlo, hhi, hN⟩ := axisfilter_hold_ema_converges hv _ _ hset le_rfl
    have hsetN := axisfilter_hold_settled hv hset N
    have heN := hN N le_rfl
    obtain ⟨M, hM⟩ := axisfilter_hold_last_converges hv _ _ hsetN
      (by rw [heN]; exact hlo) (by rw [heN]; exact hhi) le_rfl
    refine ⟨2 + N + M, e, hlo, hhi, fun n hn => ?_⟩
    obtain ⟨m, hm⟩ : ∃ m, n + 1 = 2 + N + m := ⟨n + 1 - (2 + N), by omega⟩
    rw [hout, hm, axisfilter_hold_add, axisfilter_hold_add, hM m (by omega), heN]
  · intro h0 h1 he hl hi n
    have hset : Settled v f := ⟨h0, h1, hi, hf⟩
    rw [hout, axisfilter_hold_last_fixed hv hset (by omega) (by omega) (by rw [hl, he]), he]

/-- C2 amended, at a concrete input: a filter seeded with 0 and fed 100. -/
theorem axisfilter_constant_input_settles_witness :
    (∃ N o, (100 : Int) - 5 ≤ o ∧ o ≤ 100 ∧ ∀ n, N ≤ n →
      axisfilter_holdOut defaultFilterConfig (axisfilter_init ⟨0, 0, 0, 0, 0⟩ 0) 100 n = o) ∧
    ((axisfilter_init ⟨0, 0, 0, 0, 0⟩ 0).m0 = 100 → (axisfilter_init ⟨0, 0, 0, 0, 0⟩ 0).m1 = 100 →
      (axisfilter_init ⟨0, 0, 0, 0, 0⟩ 0).ema_z1 = 100 →
      (axisfilter_init ⟨0, 0, 0, 0, 0⟩ 0).last = 100 →
      (axisfilter_init ⟨0, 0, 0, 0, 0⟩ 0).inited ≠ 0 →
      ∀ n, axisfilter_holdOut defaultFilterConfig (axisfilter_init ⟨0, 0, 0, 0, 0⟩ 0) 100 n = 100) :=
  axisfilter_constant_input_settles (axisfilter_init ⟨0, 0, 0, 0, 0⟩ 0) 100 (by decide) (by decide)

/-! ## Theorems: key/layer resolver -/

theorem isBaseIdx_lt {i : Nat} (h : isBaseIdx i = true) : i < NUMKEYS := by
  simp [isBaseIdx, NUMHIDKEYS] at h
  simp [NUMKEYS]; omega

/-- The loop body at a base index `j` rewrites the statics of key `j` by
`baseKeyStep`. -/
theorem baseKeyBody_key_same (keys : Nat → Nat) (now : Nat) (s : KeyState) (j : Nat)
    (hj : isBaseIdx j = true) :
    (baseKeyBody keys now s j).key j
      = baseKeyStep (fn1Now keys) (fn2Now keys) (decide (keys j ≠ 0)) now (s.key j) := by
  have hlt := isBaseIdx_lt hj
  simp only [baseKeyBody, hj, hlt, baseKeyStep, KeyState.key]
  by_cases h1 : keys j = 0 <;> by_cases h2 : s.prevPhys j = 0 <;> by_cases h3 : s.pend j = 0 <;>
    by_cases h4 : fn1Now keys = true <;> by_cases h5 : fn2Now keys = true <;>
    simp [h1, h2, h3, h4, h5] <;> split_ifs <;> simp

/-- The loop body at index `j` leaves every other key alone. -/
theorem baseKeyBody_key_other (keys : Nat → Nat) (now : Nat) (s : KeyState) (j i : Nat)
    (hij : i ≠ j) : (baseKeyBody keys now s j).key i = s.key i := by
  by_cases hj : isBaseIdx j = true
  · have hlt := isBaseIdx_lt hj
    simp only [baseKeyBody, hj, hlt, KeyState.key]
    by_cases h1 : keys j = 0 <;> by_cases h2 : s.prevPhys j = 0 <;> by_cases h3 : s.pend j = 0 <;>
      by_cases h4 : fn1Now keys = true <;> by_cases h5 : fn2Now keys = true <;>
      simp [h1, h2, h3, h4, h5, Function.update_noteq hij] <;> split_ifs <;>
      simp [Function.update_noteq hij]
  · simp [baseKeyBody, hj]

theorem baseKeyBody_key_nonbase (keys : Nat → Nat) (now : Nat) (s : KeyState) (j : Nat)
    (hj : isBaseIdx j = false) : baseKeyBody keys now s j = s := by
  simp [baseKeyBody, hj]

/-- The loop body never touches the modifier statics. -/
theorem baseKeyBody_solo (keys : Nat → Nat) (now : Nat) (s : KeyState) (j k : Nat) :
    (baseKeyBody keys now s j).solo k = s.solo k := by
  by_cases hj : isBaseIdx j = true
  · have hlt := isBaseIdx_lt hj
    simp only [baseKeyBody, hj, hlt, KeyState.solo]
    by_cases h1 : keys j = 0 <;> by_cases h2 : s.prevPhys j = 0 <;> by_cases h3 : s.pend j = 0 <;>
      by_cases h4 : fn1Now keys = true <;> by_cases h5 : fn2Now keys = true <;>
      simp [h1, h2, h3, h4, h5] <;> split_ifs <;> simp
  · simp [baseKeyBody, hj]

theorem baseKey_foldl_key (keys : Nat → Nat) (now : Nat) (l : List Nat) (hl : l.Nodup) :
    ∀ (s : KeyState) (i : Nat),
      ((l.foldl (baseKeyBody keys now) s).key i)
        = if i ∈ l ∧ isBaseIdx i = true
          then baseKeyStep (fn1Now keys) (fn2Now keys) (decide (keys i ≠ 0)) now (s.key i)
          else s.key i := by
  induction l with
  | nil => intro s i; simp
  | cons j t ih =>
    intro s i
    rw [List.nodup_cons] at hl
    rw [List.foldl_cons, ih hl.2]
    by_cases hij : i = j
    · subst hij
      by_cases hb : isBaseIdx i = true
      · simp [hl.1, hb, baseKeyBody_key_same]
      · simp only [Bool.not_eq_true] at hb
        simp [hl.1, hb, baseKeyBody_key_nonbase]
    · simp [hij, baseKeyBody_key_other _ _ _ _ _ hij]

theorem baseKey_foldl_solo (keys : Nat → Nat) (now : Nat) (l : List Nat) :
    ∀ (s : KeyState) (k : Nat), (l.foldl (baseKeyBody keys now) s).solo k = s.solo k := by
  induction l with
  | nil => intro s k; rfl
  | cons j t ih => intro s k; rw [List.foldl_cons, ih, baseKeyBody_solo]

/-- The base-key loop rewrites every base key by `baseKeyStep` and nothing else. -/
theorem baseKeyLoop_key (keys : Nat → Nat) (now : Nat) (s : KeyState) (i : Nat) :
    (baseKeyLoop keys now s).key i
      = if isBaseIdx i = true
        then baseKeyStep (fn1Now keys) (fn2Now keys) (decide (keys i ≠ 0)) now (s.key i)
        else s.key i := by
  rw [baseKeyLoop, baseKey_foldl_key _ _ _ (List.nodup_range _)]
  by_cases hb : isBaseIdx i = true
  · have : i < NUMHIDKEYS := by simpa [NUMKEYS, NUMHIDKEYS] using isBaseIdx_lt hb
    simp [hb, this]
  · simp [hb]

theorem baseKeyLoop_solo (keys : Nat → Nat) (now : Nat) (s : KeyState) (k : Nat) :
    (baseKeyLoop keys now s).solo k = s.solo k :=
  baseKey_foldl_solo _ _ _ _ _

/-- Meaning of the `baseBusy` flag. -/
theorem baseBusy_iff (keys : Nat → Nat) (s : KeyState) :
    baseBusy keys s = true ↔
      ∃ i, isBaseIdx i = true ∧ (keys i ≠ 0 ∨ s.pend i ≠ 0 ∨ s.active i ≠ 0) := by
  have hlt : ∀ i, isBaseIdx i = true → i < NUMHIDKEYS := fun i h => by
    simpa [NUMKEYS, NUMHIDKEYS] using isBaseIdx_lt h
  unfold baseBusy anyBasePhysDown
  by_cases hany : ((List.range NUMHIDKEYS).any fun i => isBaseIdx i && decide (keys i ≠ 0)) = true
  · rw [if_pos hany]
    simp only [List.any_eq_true, List.mem_range, Bool.and_eq_true, decide_eq_true_eq] at hany
    obtain ⟨i, -, hb, hk⟩ := hany
    exact ⟨fun _ => ⟨i, hb, Or.inl hk⟩, fun _ => rfl⟩
  · rw [if_neg hany]
    simp only [List.any_eq_true, List.mem_range, Bool.and_eq_true, decide_eq_true_eq,
      Bool.or_eq_true, not_exists, not_and] at hany ⊢
    constructor
    · rintro ⟨i, -, hb, h⟩
      exact ⟨i, hb, Or.inr h⟩
    · rintro ⟨i, hb, h | h⟩
      · exact absurd h (hany i (hlt i hb) hb)
      · exact ⟨i, hlt i hb, hb, h⟩

theorem baseBusy_congr (keys : Nat → Nat) (s t : KeyState)
    (hp : s.pend = t.pend) (ha : s.active = t.active) : baseBusy keys s = baseBusy keys t := by
  unfold baseBusy; rw [hp, ha]

theorem baseBusy_solo_irrel (keys : Nat → Nat) (s : KeyState) (p a t : Nat → Nat) :
    baseBusy keys { s with fnSoloPend := p, fnSoloAct := a, tFnPend := t } = baseBusy keys s :=
  rfl

/-- An Fn block body rewrites the three array cells of its modifier by
`fnSoloStep`. -/
theorem fnSoloBody_same (k : Nat) (nowFn : Bool) (fnPrev : Nat) (keys : Nat → Nat) (now : Nat)
    (s : KeyState) :
    (fnSoloBody k nowFn fnPrev keys now s).fnSoloPend k
        = (fnSoloStep nowFn (baseBusy keys s) now
            ⟨s.fnSoloPend k, s.fnSoloAct k, s.tFnPend k, fnPrev⟩).pend ∧
    (fnSoloBody k nowFn fnPrev keys now s).fnSoloAct k
        = (fnSoloStep nowFn (baseBusy keys s) now
            ⟨s.fnSoloPend k, s.fnSoloAct k, s.tFnPend k, fnPrev⟩).act ∧
    (fnSoloBody k nowFn fnPrev keys now s).tFnPend k
        = (fnSoloStep nowFn (baseBusy keys s) now
            ⟨s.fnSoloPend k, s.fnSoloAct k, s.tFnPend k, fnPrev⟩).tPend := by
  have hb := baseBusy_solo_irrel keys s
  simp only [fnSoloBody, fnSoloStep]
  cases nowFn <;> by_cases h2 : fnPrev = 0 <;> by_cases h3 : s.fnSoloPend k = 0 <;>
    cases hbusy : baseBusy keys s <;>
    simp [h2, h3, hb, hbusy] <;> split_ifs <;> simp

/-- An Fn block body leaves all base keys and both `fnXPrev` alone. -/
theorem fnSoloBody_frame (k : Nat) (nowFn : Bool) (fnPrev : Nat) (keys : Nat → Nat) (now : Nat)
    (s : KeyState) :
    (fnSoloBody k nowFn fnPrev keys now s).prevPhys = s.prevPhys ∧
    (fnSoloBody k nowFn fnPrev keys now s).pend = s.pend ∧
    (fnSoloBody k nowFn fnPrev keys now s).tPend = s.tPend ∧
    (fnSoloBody k nowFn fnPrev keys now s).active = s.active ∧
    (fnSoloBody k nowFn fnPrev keys now s).fn1Prev = s.fn1Prev ∧
    (fnSoloBody k nowFn fnPrev keys now s).fn2Prev = s.fn2Prev := by
  have hb := baseBusy_solo_irrel keys s
  simp only [fnSoloBody]
  cases nowFn <;> by_cases h2 : fnPrev = 0 <;> by_cases h3 : s.fnSoloPend k = 0 <;>
    cases hbusy : baseBusy keys s <;>
    simp [h2, h3, hb, hbusy] <;> split_ifs <;> simp

/-- An Fn block body leaves the other modifier alone. -/
theorem fnSoloBody_other (k : Nat) (nowFn : Bool) (fnPrev : Nat) (keys : Nat → Nat) (now : Nat)
    (s : KeyState) (j : Nat) (hj : j ≠ k) :
    (fnSoloBody k nowFn fnPrev keys now s).fnSoloPend j = s.fnSoloPend j ∧
    (fnSoloBody k nowFn fnPrev keys now s).fnSoloAct j = s.fnSoloAct j ∧
    (fnSoloBody k nowFn fnPrev keys now s).tFnPend j = s.tFnPend j := by
  have hb := baseBusy_solo_irrel keys s
  simp only [fnSoloBody]
  cases nowFn <;> by_cases h2 : fnPrev = 0 <;> by_cases h3 : s.fnSoloPend k = 0 <;>
    cases hbusy : baseBusy keys s <;>
    simp [h2, h3, hb, hbusy, Function.update_noteq hj] <;> split_ifs <;>
    simp [Function.update_noteq hj]

theorem fn1Block_eq (keys : Nat → Nat) (now : Nat) (s : KeyState) :
    fn1Block keys now s
      = { fnSoloBody 0 (fn1Now keys) s.fn1Prev keys now s with
          fn1Prev := if fn1Now keys then 1 else 0 } := by
  simp [fn1Block, KEY_FN1_IDX, NUMKEYS]

theorem fn2Block_eq (keys : Nat → Nat) (now : Nat) (s : KeyState) :
    fn2Block keys now s
      = { fnSoloBody 1 (fn2Now keys) s.fn2Prev keys now s with
          fn2Prev := if fn2Now keys then 1 else 0 } := by
  simp [fn2Block, KEY_FN2_IDX, NUMKEYS]

theorem fn1Block_spec (keys : Nat → Nat) (now : Nat) (s : KeyState) :
    (fn1Block keys now s).solo 0 = fnSoloStep (fn1Now keys) (baseBusy keys s) now (s.solo 0) ∧
    (fn1Block keys now s).solo 1 = s.solo 1 ∧
    (fn1Block keys now s).pend = s.pend ∧ (fn1Block keys now s).active = s.active ∧
    (∀ i, (fn1Block keys now s).key i = s.key i) := by
  obtain ⟨h1, h2, h3⟩ := fnSoloBody_same 0 (fn1Now keys) s.fn1Prev keys now s
  obtain ⟨f1, f2, f3, f4, f5, f6⟩ := fnSoloBody_frame 0 (fn1Now keys) s.fn1Prev keys now s
  obtain ⟨o1, o2, o3⟩ := fnSoloBody_other 0 (fn1Now keys) s.fn1Prev keys now s 1 (by decide)
  rw [fn1Block_eq]
  refine ⟨?_, ?_, f2, f4, fun i => ?_⟩
  · simp only [KeyState.solo, h1, h2, h3, if_true]
    rfl
  · simp only [KeyState.solo, o1, o2, o3, f6]
    rfl
  · simp only [KeyState.key, f1, f2, f3, f4]

theorem fn2Block_spec (keys : Nat → Nat) (now : Nat) (s : KeyState) :
    (fn2Block keys now s).solo 1 = fnSoloStep (fn2Now keys) (baseBusy keys s) now (s.solo 1) ∧
    (fn2Block keys now s).solo 0 = s.solo 0 ∧
    (fn2Block keys now s).pend = s.pend ∧ (fn2Block keys now s).active = s.active ∧
    (∀ i, (fn2Block keys now s).key i = s.key i) := by
  obtain ⟨h1, h2, h3⟩ := fnSoloBody_same 1 (fn2Now keys) s.fn2Prev keys now s
  obtain ⟨f1, f2, f3, f4, f5, f6⟩ := fnSoloBody_frame 1 (fn2Now keys) s.fn2Prev keys now s
  obtain ⟨o1, o2, o3⟩ := fnSoloBody_other 1 (fn2Now keys) s.fn2Prev keys now s 0 (by decide)
  rw [fn2Block_eq]
  refine ⟨?_, ?_, f2, f4, fun i => ?_⟩
  · simp only [KeyState.solo, h1, h2, h3]
    rfl
  · simp only [KeyState.solo, o1, o2, o3, f5, if_true]
  · simp only [KeyState.key, f1, f2, f3, f4]

/-- Base keys after one call of `prepareKeyBytes`: every base key is rewritten
by `baseKeyStep`, from its own statics, its own input and the two modifier
inputs. -/
theorem prepareKeyBytes_key (tb : KeyTables) (s : KeyState) (keys keyData : Nat → Nat)
    (now i : Nat) :
    (prepareKeyBytes tb s keys keyData now).1.key i
      = if isBaseIdx i = true
        then baseKeyStep (fn1Now keys) (fn2Now keys) (decide (keys i ≠ 0)) now (s.key i)
        else s.key i := by
  simp only [prepareKeyBytes]
  rw [(fn2Block_spec _ _ _).2.2.2.2, (fn1Block_spec _ _ _).2.2.2.2, baseKeyLoop_key]

/-- Modifiers after one call of `prepareKeyBytes`: modifier `k` is rewritten by
`fnSoloStep`, with the busy flag taken on the base keys as they are after the
call. -/
theorem prepareKeyBytes_solo (tb : KeyTables) (s : KeyState) (keys keyData : Nat → Nat)
    (now k : Nat) (hk : k < 2) :
    (prepareKeyBytes tb s keys keyData now).1.solo k
      = fnSoloStep (fnNow k keys) (baseBusy keys (prepareKeyBytes tb s keys keyData now).1) now
          (s.solo k) := by
  have hbusy2 : baseBusy keys (prepareKeyBytes tb s keys keyData now).1
      = baseBusy keys (fn1Block keys now (baseKeyLoop keys now s)) :=
    baseBusy_congr _ _ _ (fn2Block_spec _ _ _).2.2.1 (fn2Block_spec _ _ _).2.2.2.1
  have hbusy1 : baseBusy keys (fn1Block keys now (baseKeyLoop keys now s))
      = baseBusy keys (baseKeyLoop keys now s) :=
    baseBusy_congr _ _ _ (fn1Block_spec _ _ _).2.2.1 (fn1Block_spec _ _ _).2.2.2.1
  obtain rfl | rfl : k = 0 ∨ k = 1 := by omega
  · rw [hbusy2, hbusy1]
    simp only [prepareKeyBytes]
    rw [(fn2Block_spec _ _ _).2.1, (fn1Block_spec _ _ _).1, baseKeyLoop_solo]
    rfl
  · rw [hbusy2]
    simp only [prepareKeyBytes]
    rw [(fn2Block_spec _ _ _).1, (fn1Block_spec _ _ _).2.1, baseKeyLoop_solo]
    rfl

theorem fn1Now_eq (keys : Nat → Nat) : fn1Now keys = decide (keys KEY_FN1_IDX ≠ 0) := by
  simp [fn1Now, KEY_FN1_IDX, NUMKEYS]

theorem fn2Now_eq (keys : Nat → Nat) : fn2Now keys = decide (keys KEY_FN2_IDX ≠ 0) := by
  simp [fn2Now, KEY_FN2_IDX, NUMKEYS]

theorem baseKeyStep_ok (fn1 fn2 nowDown : Bool) (now : Nat) (k : BaseKey) (hk : k.ok) :
    (baseKeyStep fn1 fn2 nowDown now k).ok := by
  obtain ⟨h1, h2, h3⟩ := hk
  simp only [baseKeyStep, BaseKey.ok]
  cases fn1 <;> cases fn2 <;> cases nowDown <;> by_cases hp : k.prevPhys = 0 <;>
    by_cases hq : k.pend = 0 <;> simp [hp, hq] <;> (try split_ifs) <;>
    first | omega | simp_all

theorem fnSoloStep_ok (nowFn busy : Bool) (now : Nat) (m : FnSolo) (hm : m.ok) :
    (fnSoloStep nowFn busy now m).ok := by
  obtain ⟨h1, h2, h3, h4⟩ := hm
  simp only [fnSoloStep, FnSolo.ok]
  cases nowFn <;> cases busy <;> by_cases hp : m.prev = 0 <;>
    by_cases hq : m.pend = 0 <;> simp [hp, hq] <;> (try split_ifs) <;>
    first | omega | simp_all

/-- A modifier whose solo is pending after a call saw no busy base key in it. -/
theorem fnSoloStep_pend_not_busy (nowFn busy : Bool) (now : Nat) (m : FnSolo)
    (h : (fnSoloStep nowFn busy now m).pend ≠ 0) : busy = false := by
  revert h
  simp only [fnSoloStep]
  cases nowFn <;> cases busy <;> by_cases hp : m.prev = 0 <;>
    by_cases hq : m.pend = 0 <;> simp [hp, hq]

/-- Every reachable resolver state satisfies the invariant. -/
theorem Reachable.inv {tb : KeyTables} {s : KeyState} (h : Reachable tb s) : s.Inv := by
  induction h with
  | init =>
    refine ⟨fun i _ => ?_, fun k _ => ?_, fun k _ hp => ?_⟩
    · simp [BaseKey.ok, KeyState.key, KeyState.init]
    · simp [FnSolo.ok, KeyState.solo, KeyState.init]
    · simp [KeyState.init] at hp
  | step s keys keyData now _ ih =>
    obtain ⟨ihk, ihs, _⟩ := ih
    refine ⟨fun i hi => ?_, fun k hk => ?_, fun k hk hp => ?_⟩
    · rw [prepareKeyBytes_key, if_pos hi]
      exact baseKeyStep_ok _ _ _ _ _ (ihk i hi)
    · rw [prepareKeyBytes_solo _ _ _ _ _ _ hk]
      exact fnSoloStep_ok _ _ _ _ (ihs k hk)
    · have hsolo := prepareKeyBytes_solo tb s keys keyData now k hk
      have hp' : ((prepareKeyBytes tb s keys keyData now).1.solo k).pend ≠ 0 := hp
      rw [hsolo] at hp'
      have hnb := fnSoloStep_pend_not_busy _ _ _ _ hp'
      have hnb' : ¬ baseBusy keys (prepareKeyBytes tb s keys keyData now).1 = true := by
        rw [hnb]; simp
      rw [baseBusy_iff] at hnb'
      intro i hi
      have hall : keys i = 0 ∧ (prepareKeyBytes tb s keys keyData now).1.pend i = 0 ∧
          (prepareKeyBytes tb s keys keyData now).1.active i = 0 := by
        by_contra hc
        exact hnb' ⟨i, hi, by omega⟩
      refine ⟨?_, hall.2.1, hall.2.2⟩
      have hkey := prepareKeyBytes_key tb s keys keyData now i
      rw [if_pos hi] at hkey
      have : (prepareKeyBytes tb s keys keyData now).1.prevPhys i
          = (baseKeyStep (fn1Now keys) (fn2Now keys) (decide (keys i ≠ 0)) now (s.key i)).prevPhys :=
        congrArg BaseKey.prevPhys hkey
      rw [this]
      simp [baseKeyStep, hall.1]

theorem prepareKeyBytes_fields (tb : KeyTables) (s : KeyState) (keys keyData : Nat → Nat)
    (now i : Nat) (hi : isBaseIdx i = true) :
    (prepareKeyBytes tb s keys keyData now).1.prevPhys i
      = (baseKeyStep (fn1Now keys) (fn2Now keys) (decide (keys i ≠ 0)) now (s.key i)).prevPhys ∧
    (prepareKeyBytes tb s keys keyData now).1.pend i
      = (baseKeyStep (fn1Now keys) (fn2Now keys) (decide (keys i ≠ 0)) now (s.key i)).pend ∧
    (prepareKeyBytes tb s keys keyData now).1.tPend i
      = (baseKeyStep (fn1Now keys) (fn2Now keys) (decide (keys i ≠ 0)) now (s.key i)).tPend ∧
    (prepareKeyBytes tb s keys keyData now).1.active i
      = (baseKeyStep (fn1Now keys) (fn2Now keys) (decide (keys i ≠ 0)) now (s.key i)).active := by
  have hkey := prepareKeyBytes_key tb s keys keyData now i
  rw [if_pos hi] at hkey
  exact ⟨congrArg BaseKey.prevPhys hkey, congrArg BaseKey.pend hkey,
    congrArg BaseKey.tPend hkey, congrArg BaseKey.active hkey⟩

/-- C4 (pending resolution rule). Let base key `i` be physically down in a
call and pending in it: either this call sees its press edge (`prevPhys[i]`
is 0, the press timestamp is `now`) or it was pending and unresolved on entry
(the press timestamp is `tPend[i]`). After the call the key is resolved to
mode 2 (Fn1 combo) if Fn1 is held, also when Fn2 is held too; otherwise to
mode 3 (Fn2 combo) if Fn2 is held; otherwise to mode 1 (base) if the 32-bit
elapsed time since the press is at least `FN_COMBO_WINDOW_MS`; otherwise it
stays pending with mode 0 and the same press timestamp. -/
theorem pending_resolution_rule (tb : KeyTables) (s : KeyState) (keys keyData : Nat → Nat)
    (now i : Nat) (hi : isBaseIdx i = true) (hdown : keys i ≠ 0)
    (hpend : s.prevPhys i = 0 ∨ (s.pend i ≠ 0 ∧ s.active i = 0)) :
    (keys KEY_FN1_IDX ≠ 0 →
      (prepareKeyBytes tb s keys keyData now).1.active i = 2 ∧
      (prepareKeyBytes tb s keys keyData now).1.pend i = 0) ∧
    (keys KEY_FN1_IDX = 0 → keys KEY_FN2_IDX ≠ 0 →
      (prepareKeyBytes tb s keys keyData now).1.active i = 3 ∧
      (prepareKeyBytes tb s keys keyData now).1.pend i = 0) ∧
    (keys KEY_FN1_IDX = 0 → keys KEY_FN2_IDX = 0 →
      sub32 now (if s.prevPhys i = 0 then now else s.tPend i) ≥ FN_COMBO_WINDOW_MS →
      (prepareKeyBytes tb s keys keyData now).1.active i = 1 ∧
      (prepareKeyBytes tb s keys keyData now).1.pend i = 0) ∧
    (keys KEY_FN1_IDX = 0 → keys KEY_FN2_IDX = 0 →
      sub32 now (if s.prevPhys i = 0 then now else s.tPend i) < FN_COMBO_WINDOW_MS →
      (prepareKeyBytes tb s keys keyData now).1.active i = 0 ∧
      (prepareKeyBytes tb s keys keyData now).1.pend i ≠ 0 ∧
      (prepareKeyBytes tb s keys keyData now).1.tPend i
        = (if s.prevPhys i = 0 then now else s.tPend i)) := by
  obtain ⟨-, hp, ht, ha⟩ := prepareKeyBytes_fields tb s keys keyData now i hi
  rw [hp, ht, ha, fn1Now_eq, fn2Now_eq]
  simp only [baseKeyStep, KeyState.key]
  by_cases hprev : s.prevPhys i = 0
  · refine ⟨fun h1 => by simp_all, fun h1 h2 => by simp_all, fun h1 h2 h3 => by simp_all,
      fun h1 h2 h3 => ?_⟩
    simp_all
    rw [if_neg (not_le.mpr h3)]
    simp
  · obtain hpend | ⟨hq, hact⟩ := hpend
    · exact absurd hpend hprev
    · refine ⟨fun h1 => by simp_all, fun h1 h2 => by simp_all, fun h1 h2 h3 => by simp_all,
        fun h1 h2 h3 => ?_⟩
      simp_all
      rw [if_neg (not_le.mpr h3)]
      simp [hq]

/-- C4 at a concrete input: key 0 pressed alone at time 100 on the zero
statics stays pending; the window has not elapsed. -/
theorem pending_resolution_rule_witness :
    isBaseIdx 0 = true ∧ keysOf [1, 0, 0, 0, 0] 0 ≠ 0 ∧
    (prepareKeyBytes shippedTables KeyState.init (keysOf [1, 0, 0, 0, 0]) (fun _ => 0) 100).1.active 0
      = 0 ∧
    (prepareKeyBytes shippedTables KeyState.init (keysOf [1, 0, 0, 0, 0]) (fun _ => 0) 100).1.pend 0
      ≠ 0 :=
  ⟨by decide, by decide,
    ((pending_resolution_rule shippedTables KeyState.init (keysOf [1, 0, 0, 0, 0]) (fun _ => 0)
      100 0 (by decide) (by decide) (Or.inl rfl)).2.2.2 (by decide) (by decide) (by decide)).1,
    ((pending_resolution_rule shippedTables KeyState.init (keysOf [1, 0, 0, 0, 0]) (fun _ => 0)
      100 0 (by decide) (by decide) (Or.inl rfl)).2.2.2 (by decide) (by decide) (by decide)).2.1⟩

/-- C5 (sticky resolution until release). In a reachable state, a base key
with a resolved mode (1, 2 or 3) that is still physically down keeps exactly
that mode through the call, whatever the modifiers and the clock are; and in
any state a release edge (seen down before, up now) leaves the key idle:
not pending, mode 0. -/
theorem sticky_until_release (tb : KeyTables) (s : KeyState) (keys keyData : Nat → Nat)
    (now i : Nat) (hi : isBaseIdx i = true) :
    (Reachable tb s → s.active i ≠ 0 → keys i ≠ 0 →
      (prepareKeyBytes tb s keys keyData now).1.active i = s.active i ∧
      (prepareKeyBytes tb s keys keyData now).1.pend i = 0) ∧
    (s.prevPhys i ≠ 0 → keys i = 0 →
      (prepareKeyBytes tb s keys keyData now).1.active i = 0 ∧
      (prepareKeyBytes tb s keys keyData now).1.pend i = 0) := by
  obtain ⟨-, hp, -, ha⟩ := prepareKeyBytes_fields tb s keys keyData now i hi
  rw [hp, ha]
  simp only [baseKeyStep, KeyState.key]
  constructor
  · intro hr hact hdown
    obtain ⟨h1, h2, -⟩ := hr.inv.1 i hi
    have hprev := (h2 hact).1
    have hq : s.pend i = 0 := by
      by_contra hq
      exact hact (h1 hq).1
    simp [KeyState.key] at hprev hq
    simp [hprev, hq, hdown]
  · intro hprev hup
    simp [hprev, hup]

/-- C5 at a concrete input: key 0 is pressed with Fn1 held at time 0 (mode 2);
held at time 500 with Fn1 released it keeps mode 2. -/
theorem sticky_until_release_witness :
    (prepareKeyBytes shippedTables
      (prepareKeyBytes shippedTables KeyState.init (keysOf [1, 0, 0, 1, 0]) (fun _ => 0) 0).1
      (keysOf [1, 0, 0, 0, 0]) (fun _ => 0) 500).1.active 0 = 2 :=
  ((sticky_until_release shippedTables
      (prepareKeyBytes shippedTables KeyState.init (keysOf [1, 0, 0, 1, 0]) (fun _ => 0) 0).1
      (keysOf [1, 0, 0, 0, 0]) (fun _ => 0) 500 0 (by decide)).1
    (Reachable.step _ _ _ _ Reachable.init) (by decide) (by decide)).1.trans (by decide)

/-! ### Mask assembly -/

/-- Bit `n mod 8` of byte `n div 8` after `keyData[bn / 8] |= 1 << (bn % 8)`. -/
theorem setKeyBit_testBit (keyData : Nat → Nat) (bn n : Nat) :
    Nat.testBit (setKeyBit keyData bn (n / 8)) (n % 8)
      = (Nat.testBit (keyData (n / 8)) (n % 8) || decide (bn = n)) := by
  have hlt : 2 ^ (bn % 8) < 256 := by
    have : bn % 8 < 8 := Nat.mod_lt _ (by decide)
    calc 2 ^ (bn % 8) < 2 ^ 8 := Nat.pow_lt_pow_right (by decide) this
      _ = 256 := by norm_num
  unfold setKeyBit
  by_cases hb : n / 8 = bn / 8
  · rw [hb, Function.update_same, Nat.testBit_or, Nat.one_shiftLeft, Nat.mod_eq_of_lt hlt,
      Nat.testBit_two_pow]
    congr 1
    by_cases hm : bn % 8 = n % 8
    · have : bn = n := by omega
      simp [hm, this]
    · have : bn ≠ n := fun h => hm (by rw [h])
      simp [hm, this]
  · rw [Function.update_noteq hb]
    have : bn ≠ n := fun h => hb (by rw [h])
    simp [this]

/-- The contribution test of the first mask loop for key `i` and code `n`. -/
theorem maskKeyBody_testBit (tb : KeyTables) (s : KeyState) (keyData : Nat → Nat) (i n : Nat) :
    Nat.testBit (maskKeyBody tb s keyData i (n / 8)) (n % 8)
      = (Nat.testBit (keyData (n / 8)) (n % 8) ||
          (isBaseIdx i && decide (s.active i ≠ 0) && decide (usageCode tb (s.active i) i = n))) := by
  unfold maskKeyBody
  by_cases hb : isBaseIdx i = true
  · by_cases ha : s.active i = 0
    · simp [hb, ha]
    · simp [hb, ha, setKeyBit_testBit]
  · simp only [Bool.not_eq_true] at hb
    simp [hb]

theorem maskKey_foldl_testBit (tb : KeyTables) (s : KeyState) (n : Nat) (l : List Nat) :
    ∀ keyData : Nat → Nat,
      Nat.testBit (l.foldl (maskKeyBody tb s) keyData (n / 8)) (n % 8)
        = (Nat.testBit (keyData (n / 8)) (n % 8) ||
            l.any (fun i => isBaseIdx i && decide (s.active i ≠ 0) &&
              decide (usageCode tb (s.active i) i = n))) := by
  induction l with
  | nil => intro keyData; simp
  | cons j t ih =>
    intro keyData
    rw [List.foldl_cons, ih, maskKeyBody_testBit, List.any_cons, Bool.or_assoc]

theorem clearKeyData_apply (keyData : Nat → Nat) (b : Nat) (hb : b < 4) :
    clearKeyData keyData b = 0 := by
  have h : b = 0 ∨ b = 1 ∨ b = 2 ∨ b = 3 := by omega
  rcases h with rfl | rfl | rfl | rfl <;> simp [clearKeyData, List.range, List.range.loop, Function.update]

theorem setKeyBit_ite_testBit (c : Prop) [Decidable c] (keyData : Nat → Nat) (bn n : Nat) :
    Nat.testBit ((if c then setKeyBit keyData bn else keyData) (n / 8)) (n % 8) = true ↔
      Nat.testBit (keyData (n / 8)) (n % 8) = true ∨ (c ∧ bn = n) := by
  by_cases hc : c
  · simp [hc, setKeyBit_testBit]
  · simp [hc]

/-- Bits of the assembled mask, for any starting buffer. -/
theorem assembleMask_testBit (tb : KeyTables) (s : KeyState) (keyData : Nat → Nat) (n : Nat) :
    Nat.testBit (assembleMask tb s keyData (n / 8)) (n % 8) = true ↔
      Nat.testBit (keyData (n / 8)) (n % 8) = true ∨
      (∃ i, isBaseIdx i = true ∧ s.active i ≠ 0 ∧ usageCode tb (s.active i) i = n) ∨
      (s.fnSoloAct 0 ≠ 0 ∧ tb.baseMap KEY_FN1_IDX = n) ∨
      (s.fnSoloAct 1 ≠ 0 ∧ tb.baseMap KEY_FN2_IDX = n) := by
  have hbase : (List.range NUMHIDKEYS).any (fun i => isBaseIdx i && decide (s.active i ≠ 0) &&
        decide (usageCode tb (s.active i) i = n)) = true ↔
      ∃ i, isBaseIdx i = true ∧ s.active i ≠ 0 ∧ usageCode tb (s.active i) i = n := by
    simp only [List.any_eq_true, List.mem_range, Bool.and_eq_true, decide_eq_true_eq]
    constructor
    · rintro ⟨i, -, ⟨h1, h2⟩, h3⟩
      exact ⟨i, h1, h2, h3⟩
    · rintro ⟨i, h1, h2, h3⟩
      exact ⟨i, by simpa [NUMKEYS, NUMHIDKEYS] using isBaseIdx_lt h1, ⟨h1, h2⟩, h3⟩
  have h1 : KEY_FN1_IDX < NUMHIDKEYS := by decide
  have h2 : KEY_FN2_IDX < NUMHIDKEYS := by decide
  unfold assembleMask
  rw [setKeyBit_ite_testBit, setKeyBit_ite_testBit, maskKey_foldl_testBit, Bool.or_eq_true, hbase]
  clear hbase
  generalize (∃ i, isBaseIdx i = true ∧ s.active i ≠ 0 ∧ usageCode tb (s.active i) i = n) = E
  tauto

theorem setKeyBit_agree (kd kd' : Nat → Nat) (bn b : Nat) (h : kd b = kd' b) :
    setKeyBit kd bn b = setKeyBit kd' bn b := by
  unfold setKeyBit
  by_cases hb : b = bn / 8
  · subst hb; simp [h]
  · simp [Function.update_noteq hb, h]

theorem maskKey_foldl_agree (tb : KeyTables) (s : KeyState) (b : Nat) (l : List Nat) :
    ∀ kd kd' : Nat → Nat, kd b = kd' b →
      l.foldl (maskKeyBody tb s) kd b = l.foldl (maskKeyBody tb s) kd' b := by
  induction l with
  | nil => intro kd kd' h; exact h
  | cons j t ih =>
    intro kd kd' h
    rw [List.foldl_cons, List.foldl_cons]
    apply ih
    unfold maskKeyBody
    split_ifs
    · exact h
    · exact h
    · exact setKeyBit_agree _ _ _ _ h

/-- A byte of the assembled mask depends on the starting buffer only through
the same byte. -/
theorem assembleMask_agree (tb : KeyTables) (s : KeyState) (kd kd' : Nat → Nat) (b : Nat)
    (h : kd b = kd' b) : assembleMask tb s kd b = assembleMask tb s kd' b := by
  have h1 := maskKey_foldl_agree tb s b (List.range NUMHIDKEYS) kd kd' h
  unfold assembleMask
  split_ifs <;> first | exact h1 | (apply setKeyBit_agree; first | exact h1 | (apply setKeyBit_agree; exact h1))

theorem usageCode_modes (tb : KeyTables) (i : Nat) :
    usageCode tb 1 i = tb.baseMap i ∧
    usageCode tb 2 i = (tb.fn1Map.getD tb.baseMap) i ∧
    usageCode tb 3 i = (tb.fn2Map.getD tb.baseMap) i := by
  refine ⟨rfl, ?_, ?_⟩
  · cases h : tb.fn1Map <;> simp [usageCode, h]
  · cases h : tb.fn2Map <;> simp [usageCode, h]

theorem usageCode_lt (tb : KeyTables) (htb : tb.codesBelow32) (mode i : Nat)
    (hi : i < NUMHIDKEYS) : usageCode tb mode i < 32 := by
  obtain ⟨h0, h1, h2⟩ := htb
  unfold usageCode
  split_ifs
  · exact h0 i hi
  · cases h : tb.fn1Map with
    | none => exact h0 i hi
    | some m => exact h1 m h i hi
  · cases h : tb.fn2Map with
    | none => exact h0 i hi
    | some m => exact h2 m h i hi

theorem shippedTables_codesBelow32 : shippedTables.codesBelow32 := by
  refine ⟨by decide, ?_, ?_⟩
  · intro m hm
    cases hm
    decide
  · intro m hm
    cases hm
    decide

/-- C10 (mask assembly). For tables whose codes all lie in 0..31 and every
reachable state of the statics, the mask returned by one call has bit
`n mod 8` of byte `n div 8` set exactly when some base key `i` ends the call
in mode 1 with base code `n`, in mode 2 with Fn1-layer code `n` or in mode 3
with Fn2-layer code `n` (an absent layer falls back to the base table), or a
modifier whose solo flag is set ends the call with base code `n`. The four
bytes do not depend on the buffer content on entry (they are rebuilt from
zero), and every code written has byte index `code div 8` below 4. -/
theorem mask_assembly (tb : KeyTables) (htb : tb.codesBelow32) (s : KeyState)
    (hs : Reachable tb s) (keys keyData : Nat → Nat) (now : Nat) :
    (∀ n, n < 32 →
      (Nat.testBit ((prepareKeyBytes tb s keys keyData now).2 (n / 8)) (n % 8) = true ↔
        (∃ i, isBaseIdx i = true ∧
          (((prepareKeyBytes tb s keys keyData now).1.active i = 1 ∧ tb.baseMap i = n) ∨
           ((prepareKeyBytes tb s keys keyData now).1.active i = 2 ∧
              (tb.fn1Map.getD tb.baseMap) i = n) ∨
           ((prepareKeyBytes tb s keys keyData now).1.active i = 3 ∧
              (tb.fn2Map.getD tb.baseMap) i = n))) ∨
        ((prepareKeyBytes tb s keys keyData now).1.fnSoloAct 0 ≠ 0 ∧ tb.baseMap KEY_FN1_IDX = n) ∨
        ((prepareKeyBytes tb s keys keyData now).1.fnSoloAct 1 ≠ 0 ∧
          tb.baseMap KEY_FN2_IDX = n))) ∧
    (∀ (keyData' : Nat → Nat) (b : Nat), b < 4 →
      (prepareKeyBytes tb s keys keyData' now).2 b = (prepareKeyBytes tb s keys keyData now).2 b) ∧
    (∀ mode i, i < NUMHIDKEYS → usageCode tb mode i / 8 < 4) := by
  have hinv := (Reachable.step s keys keyData now hs).inv
  refine ⟨fun n hn => ?_, fun keyData' b hb => ?_, fun mode i hi => ?_⟩
  · have hbyte : n / 8 < 4 := by omega
    have hmask : (prepareKeyBytes tb s keys keyData now).2
        = assembleMask tb (prepareKeyBytes tb s keys keyData now).1 (clearKeyData keyData) := rfl
    rw [hmask, assembleMask_testBit, clearKeyData_apply _ _ hbyte]
    simp only [Nat.zero_testBit, Bool.false_eq_true, false_or]
    apply or_congr_left
    constructor
    · rintro ⟨i, hi, hact, hcode⟩
      have hle := ((hinv.1 i hi).2.1 hact).2
      have hm := usageCode_modes tb i
      have hcases : (prepareKeyBytes tb s keys keyData now).1.active i = 1 ∨
          (prepareKeyBytes tb s keys keyData now).1.active i = 2 ∨
          (prepareKeyBytes tb s keys keyData now).1.active i = 3 := by
        simp only [KeyState.key] at hle; omega
      rcases hcases with h | h | h <;> rw [h] at hcode
      · exact ⟨i, hi, Or.inl ⟨h, by rw [← hm.1]; exact hcode⟩⟩
      · exact ⟨i, hi, Or.inr (Or.inl ⟨h, by rw [← hm.2.1]; exact hcode⟩)⟩
      · exact ⟨i, hi, Or.inr (Or.inr ⟨h, by rw [← hm.2.2]; exact hcode⟩)⟩
    · have hm := fun i => usageCode_modes tb i
      rintro ⟨i, hi, ⟨h, hc⟩ | ⟨h, hc⟩ | ⟨h, hc⟩⟩
      · exact ⟨i, hi, by rw [h]; decide, by rw [h, (hm i).1]; exact hc⟩
      · exact ⟨i, hi, by rw [h]; decide, by rw [h, (hm i).2.1]; exact hc⟩
      · exact ⟨i, hi, by rw [h]; decide, by rw [h, (hm i).2.2]; exact hc⟩
  · exact assembleMask_agree _ _ _ _ _
      (by rw [clearKeyData_apply _ _ hb, clearKeyData_apply _ _ hb])
  · have := usageCode_lt tb htb mode i hi
    omega

/-- C10 at a concrete input: with the shipped tables, key 0 pressed alone at
time 0 and still held at time 200 is resolved to the base layer; bit 5 of
byte 1 (usage code 13) is set in the mask. -/
theorem mask_assembly_witness :
    Nat.testBit ((prepareKeyBytes shippedTables
      (prepareKeyBytes shippedTables KeyState.init (keysOf [1, 0, 0, 0, 0]) (fun _ => 0) 0).1
      (keysOf [1, 0, 0, 0, 0]) (fun _ => 0) 200).2 (13 / 8)) (13 % 8) = true :=
  ((mask_assembly shippedTables shippedTables_codesBelow32
      (prepareKeyBytes shippedTables KeyState.init (keysOf [1, 0, 0, 0, 0]) (fun _ => 0) 0).1
      (Reachable.step _ _ _ _ Reachable.init) (keysOf [1, 0, 0, 0, 0]) (fun _ => 0) 200).1 13
    (by decide)).mpr (Or.inl ⟨0, by decide, Or.inl ⟨by decide, by decide⟩⟩)

/-! ### Modifier solo -/

/-- The base keys of the shipped layout are the indices 0, 1 and 2. -/
theorem isBaseIdx_cases {i : Nat} (h : isBaseIdx i = true) : i = 0 ∨ i = 1 ∨ i = 2 := by
  simp [isBaseIdx, isFnIdx, NUMHIDKEYS, KEY_FN1_IDX, KEY_FN2_IDX] at h
  omega

theorem baseKeys_up {keys : Nat → Nat} (h0 : keys 0 = 0) (h1 : keys 1 = 0) (h2 : keys 2 = 0) :
    ∀ i, isBaseIdx i = true → keys i = 0 := by
  intro i hi
  rcases isBaseIdx_cases hi with rfl | rfl | rfl <;> assumption

theorem prepareKeyBytes_solo_fields (tb : KeyTables) (s : KeyState) (keys keyData : Nat → Nat)
    (now k : Nat) (hk : k < 2) :
    (prepareKeyBytes tb s keys keyData now).1.fnSoloPend k
      = (fnSoloStep (fnNow k keys) (baseBusy keys (prepareKeyBytes tb s keys keyData now).1) now
          (s.solo k)).pend ∧
    (prepareKeyBytes tb s keys keyData now).1.fnSoloAct k
      = (fnSoloStep (fnNow k keys) (baseBusy keys (prepareKeyBytes tb s keys keyData now).1) now
          (s.solo k)).act ∧
    (prepareKeyBytes tb s keys keyData now).1.tFnPend k
      = (fnSoloStep (fnNow k keys) (baseBusy keys (prepareKeyBytes tb s keys keyData now).1) now
          (s.solo k)).tPend ∧
    ((prepareKeyBytes tb s keys keyData now).1.solo k).prev
      = (fnSoloStep (fnNow k keys) (baseBusy keys (prepareKeyBytes tb s keys keyData now).1) now
          (s.solo k)).prev := by
  have h := prepareKeyBytes_solo tb s keys keyData now k hk
  exact ⟨congrArg FnSolo.pend h, congrArg FnSolo.act h, congrArg FnSolo.tPend h,
    congrArg FnSolo.prev h⟩

/-- Idle base keys that stay up leave the busy flag clear. -/
theorem not_busy_of_idle (tb : KeyTables) (s : KeyState) (keys keyData : Nat → Nat) (now : Nat)
    (hidle : ∀ i, isBaseIdx i = true → s.pend i = 0 ∧ s.active i = 0)
    (hup : ∀ i, isBaseIdx i = true → keys i = 0) :
    baseBusy keys (prepareKeyBytes tb s keys keyData now).1 = false ∧
    ∀ i, isBaseIdx i = true →
      (prepareKeyBytes tb s keys keyData now).1.pend i = 0 ∧
      (prepareKeyBytes tb s keys keyData now).1.active i = 0 := by
  have hafter : ∀ i, isBaseIdx i = true →
      (prepareKeyBytes tb s keys keyData now).1.pend i = 0 ∧
      (prepareKeyBytes tb s keys keyData now).1.active i = 0 := by
    intro i hi
    obtain ⟨-, hp, -, ha⟩ := prepareKeyBytes_fields tb s keys keyData now i hi
    rw [hp, ha]
    simp [baseKeyStep, KeyState.key, hup i hi, (hidle i hi).1, (hidle i hi).2]
  refine ⟨?_, hafter⟩
  rw [← Bool.not_eq_true, baseBusy_iff]
  rintro ⟨i, hi, h⟩
  have := hafter i hi
  have := hup i hi
  omega

/-- C9 (solo and combo contributions are mutually exclusive). After any call
from a reachable state: if a modifier's solo flag is set, then every base key
is up in this call, not pending and not resolved, so the 32 mask bits hold
solo codes only; conversely a resolved base key excludes both solo
flags. And one pass of the first mask loop changes at most the one bit of the
usage code selected by the key's single mode. -/
theorem solo_combo_exclusive (tb : KeyTables) (s : KeyState) (hs : Reachable tb s)
    (keys keyData : Nat → Nat) (now : Nat) :
    (((prepareKeyBytes tb s keys keyData now).1.fnSoloAct 0 ≠ 0 ∨
        (prepareKeyBytes tb s keys keyData now).1.fnSoloAct 1 ≠ 0) →
      (∀ i, isBaseIdx i = true → keys i = 0) ∧
      (prepareKeyBytes tb s keys keyData now).1.baseIdle ∧
      ∀ n, n < 32 →
        (Nat.testBit ((prepareKeyBytes tb s keys keyData now).2 (n / 8)) (n % 8) = true ↔
          ((prepareKeyBytes tb s keys keyData now).1.fnSoloAct 0 ≠ 0 ∧
            tb.baseMap KEY_FN1_IDX = n) ∨
          ((prepareKeyBytes tb s keys keyData now).1.fnSoloAct 1 ≠ 0 ∧
            tb.baseMap KEY_FN2_IDX = n))) ∧
    ((∃ i, isBaseIdx i = true ∧ (prepareKeyBytes tb s keys keyData now).1.active i ≠ 0) →
      (prepareKeyBytes tb s keys keyData now).1.fnSoloAct 0 = 0 ∧
      (prepareKeyBytes tb s keys keyData now).1.fnSoloAct 1 = 0) ∧
    (∀ (kd : Nat → Nat) (i n : Nat),
      n ≠ usageCode tb ((prepareKeyBytes tb s keys keyData now).1.active i) i →
      Nat.testBit (maskKeyBody tb (prepareKeyBytes tb s keys keyData now).1 kd i (n / 8)) (n % 8)
        = Nat.testBit (kd (n / 8)) (n % 8)) := by
  have hinv := (Reachable.step s keys keyData now hs).inv
  have hidle : ∀ k, k < 2 → (prepareKeyBytes tb s keys keyData now).1.fnSoloAct k ≠ 0 →
      (prepareKeyBytes tb s keys keyData now).1.baseIdle := fun k hk hact =>
    hinv.2.2 k hk ((hinv.2.1 k hk).1 hact)
  have hidle' : ((prepareKeyBytes tb s keys keyData now).1.fnSoloAct 0 ≠ 0 ∨
        (prepareKeyBytes tb s keys keyData now).1.fnSoloAct 1 ≠ 0) →
      (prepareKeyBytes tb s keys keyData now).1.baseIdle := by
    rintro (h | h)
    · exact hidle 0 (by decide) h
    · exact hidle 1 (by decide) h
  refine ⟨fun hact => ⟨fun i hi => ?_, hidle' hact, fun n hn => ?_⟩, ?_, fun kd i n hn => ?_⟩
  · have hp := (hidle' hact i hi).1
    rw [(prepareKeyBytes_fields tb s keys keyData now i hi).1] at hp
    by_contra hk
    simp [baseKeyStep, hk] at hp
  · have hbyte : n / 8 < 4 := by omega
    have hmask : (prepareKeyBytes tb s keys keyData now).2
        = assembleMask tb (prepareKeyBytes tb s keys keyData now).1 (clearKeyData keyData) := rfl
    rw [hmask, assembleMask_testBit, clearKeyData_apply _ _ hbyte]
    simp only [Nat.zero_testBit, Bool.false_eq_true, false_or]
    constructor
    · rintro (⟨i, hi, ha, -⟩ | h)
      · exact absurd (hidle' hact i hi).2.2 ha
      · exact h
    · exact Or.inr
  · rintro ⟨i, hi, ha⟩
    constructor
    · by_contra h
      exact ha (hidle 0 (by decide) h i hi).2.2
    · by_contra h
      exact ha (hidle 1 (by decide) h i hi).2.2
  · rw [maskKeyBody_testBit]
    have : decide (usageCode tb ((prepareKeyBytes tb s keys keyData now).1.active i) i = n)
        = false := by
      simp only [decide_eq_false_iff_not]
      exact fun h => hn h.symm
    rw [this]
    simp

/-- C9 at a concrete input: Fn1 pressed alone at time 0 and held at time 50 has
its solo flag set; no base key is pending or resolved. -/
theorem solo_combo_exclusive_witness :
    (prepareKeyBytes shippedTables
      (prepareKeyBytes shippedTables KeyState.init (keysOf [0, 0, 0, 1, 0]) (fun _ => 0) 0).1
      (keysOf [0, 0, 0, 1, 0]) (fun _ => 0) 50).1.baseIdle :=
  ((solo_combo_exclusive shippedTables
      (prepareKeyBytes shippedTables KeyState.init (keysOf [0, 0, 0, 1, 0]) (fun _ => 0) 0).1
      (Reachable.step _ _ _ _ Reachable.init) (keysOf [0, 0, 0, 1, 0]) (fun _ => 0) 50).1
    (Or.inl (by decide))).2.1

theorem keyRun_cons (tb : KeyTables) (s : KeyState) (keyData : Nat → Nat) (c : Cycle)
    (cs : List Cycle) :
    keyRun tb s keyData (c :: cs)
      = keyRun tb (prepareKeyBytes tb s c.keys keyData c.now).1
          (prepareKeyBytes tb s c.keys keyData c.now).2 cs := rfl

/-- A cancelled solo stays cancelled while the modifier is held. -/
theorem keyRun_cancelled (tb : KeyTables) (k : Nat) (hk : k < 2) (cs : List Cycle) :
    ∀ (s : KeyState) (keyData : Nat → Nat),
      s.fnSoloPend k = 0 → s.fnSoloAct k = 0 → (s.solo k).prev ≠ 0 →
      (∀ c ∈ cs, fnNow k c.keys = true) →
      (keyRun tb s keyData cs).1.fnSoloPend k = 0 ∧ (keyRun tb s keyData cs).1.fnSoloAct k = 0 := by
  induction cs with
  | nil => intro s keyData hp ha _ _; exact ⟨hp, ha⟩
  | cons c cs ih =>
    intro s keyData hp ha hprev hheld
    have hc := hheld c (List.mem_cons_self _ _)
    obtain ⟨h1, h2, -, h4⟩ := prepareKeyBytes_solo_fields tb s c.keys keyData c.now k hk
    have hp0 : (s.solo k).pend = 0 := hp
    have ha0 : (s.solo k).act = 0 := ha
    rw [keyRun_cons]
    apply ih
    · rw [h1]; simp [fnSoloStep, hc, hprev, hp0]
    · rw [h2]; simp [fnSoloStep, hc, hprev, hp0, ha0]
    · rw [h4]; simp [fnSoloStep, hc]
    · exact fun c' hc' => hheld c' (List.mem_cons_of_mem _ hc')

/-- C7 (solo cancellation). Take a call in which modifier `k` is held and its
solo is pending (the flag is set on entry, or this call sees the press edge),
and in which some base key is busy: physically down in this call, or pending
or resolved after this call's key processing. Then the call leaves the solo
idle (not pending, not active), and it is still idle after any number of
further calls in which the modifier stays held, whatever the base keys and
the clock do. -/
theorem solo_cancellation (tb : KeyTables) (k : Nat) (hk : k < 2) (s : KeyState)
    (keys keyData : Nat → Nat) (now : Nat) (rest : List Cycle)
    (hheld : fnNow k keys = true)
    (hpend : s.fnSoloPend k ≠ 0 ∨ (s.solo k).prev = 0)
    (hbusy : ∃ i, isBaseIdx i = true ∧ (keys i ≠ 0 ∨
      (prepareKeyBytes tb s keys keyData now).1.pend i ≠ 0 ∨
      (prepareKeyBytes tb s keys keyData now).1.active i ≠ 0))
    (hrest : ∀ c ∈ rest, fnNow k c.keys = true) :
    (prepareKeyBytes tb s keys keyData now).1.fnSoloPend k = 0 ∧
    (prepareKeyBytes tb s keys keyData now).1.fnSoloAct k = 0 ∧
    (keyRun tb s keyData (⟨keys, now⟩ :: rest)).1.fnSoloPend k = 0 ∧
    (keyRun tb s keyData (⟨keys, now⟩ :: rest)).1.fnSoloAct k = 0 := by
  obtain ⟨h1, h2, -, h4⟩ := prepareKeyBytes_solo_fields tb s keys keyData now k hk
  have hb : baseBusy keys (prepareKeyBytes tb s keys keyData now).1 = true :=
    (baseBusy_iff _ _).mpr hbusy
  have hp' : (s.solo k).pend ≠ 0 ∨ (s.solo k).prev = 0 := hpend
  have e1 : (prepareKeyBytes tb s keys keyData now).1.fnSoloPend k = 0 := by
    rw [h1, hb]
    rcases hp' with hp' | hp' <;> by_cases hprev : (s.solo k).prev = 0 <;>
      simp [fnSoloStep, hheld, hp', hprev]
  have e2 : (prepareKeyBytes tb s keys keyData now).1.fnSoloAct k = 0 := by
    rw [h2, hb]
    rcases hp' with hp' | hp' <;> by_cases hprev : (s.solo k).prev = 0 <;>
      simp [fnSoloStep, hheld, hp', hprev]
  have e4 : ((prepareKeyBytes tb s keys keyData now).1.solo k).prev ≠ 0 := by
    rw [h4]; simp [fnSoloStep, hheld]
  exact ⟨e1, e2, keyRun_cancelled tb k hk rest _ _ e1 e2 e4 hrest⟩

/-- C7 at a concrete input: Fn1 pressed at time 0, base key 0 pressed at time
10 while Fn1 is held, then both held until time 1000: no solo. -/
theorem solo_cancellation_witness :
    (keyRun shippedTables
      (prepareKeyBytes shippedTables KeyState.init (keysOf [0, 0, 0, 1, 0]) (fun _ => 0) 0).1
      (fun _ => 0)
      [⟨keysOf [1, 0, 0, 1, 0], 10⟩, ⟨keysOf [0, 0, 0, 1, 0], 500⟩,
        ⟨keysOf [0, 0, 0, 1, 0], 1000⟩]).1.fnSoloAct 0 = 0 :=
  (solo_cancellation shippedTables 0 (by decide)
    (prepareKeyBytes shippedTables KeyState.init (keysOf [0, 0, 0, 1, 0]) (fun _ => 0) 0).1
    (keysOf [1, 0, 0, 1, 0]) (fun _ => 0) 10
    [⟨keysOf [0, 0, 0, 1, 0], 500⟩, ⟨keysOf [0, 0, 0, 1, 0], 1000⟩]
    (by decide) (Or.inl (by decide)) ⟨0, by decide, Or.inl (by decide)⟩
    (by decide)).2.2.2

/-- C8 as stated fails: Fn1 pressed alone at time 0 is active at time 50; at
time 60 base key 0 goes down while Fn1 is still held, and the solo flag is
cleared although the modifier was not released. -/
theorem solo_active_counterexample :
    (keyRun shippedTables KeyState.init (fun _ => 0)
      [⟨keysOf [0, 0, 0, 1, 0], 0⟩, ⟨keysOf [0, 0, 0, 1, 0], 50⟩]).1.fnSoloAct 0 = 1 ∧
    fnNow 0 (keysOf [1, 0, 0, 1, 0]) = true ∧
    (keyRun shippedTables KeyState.init (fun _ => 0)
      [⟨keysOf [0, 0, 0, 1, 0], 0⟩, ⟨keysOf [0, 0, 0, 1, 0], 50⟩,
        ⟨keysOf [1, 0, 0, 1, 0], 60⟩]).1.fnSoloAct 0 = 0 := by
  decide

/-- C8, amended. In a reachable state in which the solo of modifier `k` is
active, one further call keeps it active when the modifier is still held and
every base key is up, whatever the clock value is; it clears the solo when the
modifier is released, and it also clears it when some base key is down. -/
theorem solo_active_persists (tb : KeyTables) (k : Nat) (hk : k < 2) (s : KeyState)
    (hs : Reachable tb s) (hact : s.fnSoloAct k ≠ 0) (keys keyData : Nat → Nat) (now : Nat) :
    (fnNow k keys = true → (∀ i, isBaseIdx i = true → keys i = 0) →
      (prepareKeyBytes tb s keys keyData now).1.fnSoloAct k ≠ 0) ∧
    (fnNow k keys = false → (prepareKeyBytes tb s keys keyData now).1.fnSoloAct k = 0) ∧
    ((∃ i, isBaseIdx i = true ∧ keys i ≠ 0) →
      (prepareKeyBytes tb s keys keyData now).1.fnSoloAct k = 0) := by
  obtain ⟨-, h2, -, -⟩ := prepareKeyBytes_solo_fields tb s keys keyData now k hk
  obtain ⟨-, hsolo, hidle⟩ := hs.inv
  have ha : (s.solo k).act ≠ 0 := hact
  have hp : (s.solo k).pend ≠ 0 := (hsolo k hk).1 hact
  have hprev : (s.solo k).prev ≠ 0 := (hsolo k hk).2.1 hp
  refine ⟨fun hheld hup => ?_, fun hrel => ?_, fun hdown => ?_⟩
  · have hnb := (not_busy_of_idle tb s keys keyData now
      (fun i hi => (hidle k hk hp i hi).2) hup).1
    rw [h2, hnb]
    simp only [fnSoloStep, hheld, hprev, hp]
    simp
    split_ifs <;> simp [ha]
  · rw [h2]
    simp [fnSoloStep, hrel, hprev]
  · have hb : baseBusy keys (prepareKeyBytes tb s keys keyData now).1 = true := by
      rw [baseBusy_iff]
      obtain ⟨i, hi, hd⟩ := hdown
      exact ⟨i, hi, Or.inl hd⟩
    rw [h2, hb]
    cases hfn : fnNow k keys <;> simp [fnSoloStep, hprev, hp]

/-- C8 amended, at a concrete input: Fn1 active at time 50 stays active at
time 5000 while it is held alone. -/
theorem solo_active_persists_witness :
    (prepareKeyBytes shippedTables
      (keyRun shippedTables KeyState.init (fun _ => 0)
        [⟨keysOf [0, 0, 0, 1, 0], 0⟩, ⟨keysOf [0, 0, 0, 1, 0], 50⟩]).1
      (keysOf [0, 0, 0, 1, 0]) (fun _ => 0) 5000).1.fnSoloAct 0 ≠ 0 :=
  (solo_active_persists shippedTables 0 (by decide)
    (keyRun shippedTables KeyState.init (fun _ => 0)
      [⟨keysOf [0, 0, 0, 1, 0], 0⟩, ⟨keysOf [0, 0, 0, 1, 0], 50⟩]).1
    (Reachable.step _ _ _ _ (Reachable.step _ _ _ _ Reachable.init)) (by decide)
    (keysOf [0, 0, 0, 1, 0]) (fun _ => 0) 5000).1 (by decide) (baseKeys_up rfl rfl rfl)

theorem sub32_elapsed (t0 e : Nat) (he : e < 4294967296) :
    sub32 ((t0 + e) % 4294967296) (t0 % 4294967296) = e := by
  rw [sub32_eq]; omega

/-- A held modifier with a pending solo and no busy base key: only the
activation test runs. -/
theorem fnSoloStep_hold (now : Nat) (m : FnSolo) (hprev : m.prev ≠ 0) (hp : m.pend ≠ 0) :
    fnSoloStep true false now m
      = { m with act := if FN_SOLO_DELAY_MS ≤ sub32 now m.tPend then 1 else m.act, prev := 1 } := by
  simp only [fnSoloStep, hprev, hp]
  by_cases hd : FN_SOLO_DELAY_MS ≤ sub32 now m.tPend <;> simp [hd, hp]

/-- One more call of a modifier held alone. -/
theorem SoloHold.step (tb : KeyTables) (k : Nat) (hk : k < 2) (t0 : Nat) (s : KeyState)
    (keys keyData : Nat → Nat) (e0 e : Nat) (h : SoloHold k t0 s e0) (hle : e0 ≤ e)
    (he : e < 4294967296) (hheld : fnNow k keys = true)
    (hup : ∀ i, isBaseIdx i = true → keys i = 0) :
    SoloHold k t0 (prepareKeyBytes tb s keys keyData ((t0 + e) % 4294967296)).1 e := by
  obtain ⟨hp, ht, hprev, hact, hidle⟩ := h
  obtain ⟨h1, h2, h3, h4⟩ :=
    prepareKeyBytes_solo_fields tb s keys keyData ((t0 + e) % 4294967296) k hk
  obtain ⟨hnb, hidle'⟩ := not_busy_of_idle tb s keys keyData ((t0 + e) % 4294967296) hidle hup
  have hp' : (s.solo k).pend ≠ 0 := hp
  have ht' : (s.solo k).tPend = t0 % 4294967296 := ht
  have hact' : (s.solo k).act ≠ 0 ↔ FN_SOLO_DELAY_MS ≤ e0 := hact
  rw [hheld, hnb, fnSoloStep_hold _ _ hprev hp'] at h1 h2 h3 h4
  refine ⟨by rw [h1]; exact hp', by rw [h3]; exact ht', by rw [h4]; exact Nat.one_ne_zero, ?_, hidle'⟩
  rw [h2]
  simp only [ht', sub32_elapsed t0 e he]
  by_cases hd : FN_SOLO_DELAY_MS ≤ e
  · simp [hd]
  · have hn0 : ¬ FN_SOLO_DELAY_MS ≤ e0 := by omega
    have ha0 : (s.solo k).act = 0 := by
      by_contra hne
      exact hn0 (hact'.mp hne)
    simp [hd, ha0]

theorem SoloHold.run (tb : KeyTables) (k : Nat) (hk : k < 2) (t0 : Nat)
    (rest : List ((Nat → Nat) × Nat)) :
    ∀ (s : KeyState) (keyData : Nat → Nat) (e0 : Nat), SoloHold k t0 s e0 →
      List.Chain (· ≤ ·) e0 (rest.map Prod.snd) →
      (∀ p ∈ rest, fnNow k p.1 = true ∧ (∀ i, isBaseIdx i = true → p.1 i = 0) ∧
        p.2 < 4294967296) →
      SoloHold k t0 (keyRun tb s keyData (cyclesAt t0 rest)).1
        ((rest.map Prod.snd).getLastD e0) := by
  induction rest with
  | nil => intro s keyData e0 h _ _; exact h
  | cons p ps ih =>
    intro s keyData e0 h hchain hall
    rw [List.map_cons, List.chain_cons] at hchain
    obtain ⟨hheld, hup, he⟩ := hall p (List.mem_cons_self _ _)
    rw [List.map_cons, List.getLastD_cons]
    exact ih _ _ _ (SoloHold.step tb k hk t0 s p.1 keyData e0 p.2 h hchain.1 he hheld hup)
      hchain.2 (fun q hq => hall q (List.mem_cons_of_mem _ hq))

/-- Bits of the mask returned by one call, in any state. -/
theorem prepareKeyBytes_testBit (tb : KeyTables) (s : KeyState) (keys keyData : Nat → Nat)
    (now n : Nat) (hn : n < 32) :
    Nat.testBit ((prepareKeyBytes tb s keys keyData now).2 (n / 8)) (n % 8) = true ↔
      (∃ i, isBaseIdx i = true ∧ (prepareKeyBytes tb s keys keyData now).1.active i ≠ 0 ∧
        usageCode tb ((prepareKeyBytes tb s keys keyData now).1.active i) i = n) ∨
      ((prepareKeyBytes tb s keys keyData now).1.fnSoloAct 0 ≠ 0 ∧ tb.baseMap KEY_FN1_IDX = n) ∨
      ((prepareKeyBytes tb s keys keyData now).1.fnSoloAct 1 ≠ 0 ∧
        tb.baseMap KEY_FN2_IDX = n) := by
  have hbyte : n / 8 < 4 := by omega
  have hmask : (prepareKeyBytes tb s keys keyData now).2
      = assembleMask tb (prepareKeyBytes tb s keys keyData now).1 (clearKeyData keyData) := rfl
  rw [hmask, assembleMask_testBit, clearKeyData_apply _ _ hbyte]
  simp only [Nat.zero_testBit, Bool.false_eq_true, false_or]

/-- Bits of the mask returned by the last of a non-empty run of calls. -/
theorem keyRun_testBit (tb : KeyTables) (n : Nat) (hn : n < 32) (cs : List Cycle) :
    ∀ (s : KeyState) (keyData : Nat → Nat), cs ≠ [] →
      (Nat.testBit ((keyRun tb s keyData cs).2 (n / 8)) (n % 8) = true ↔
        (∃ i, isBaseIdx i = true ∧ (keyRun tb s keyData cs).1.active i ≠ 0 ∧
          usageCode tb ((keyRun tb s keyData cs).1.active i) i = n) ∨
        ((keyRun tb s keyData cs).1.fnSoloAct 0 ≠ 0 ∧ tb.baseMap KEY_FN1_IDX = n) ∨
        ((keyRun tb s keyData cs).1.fnSoloAct 1 ≠ 0 ∧ tb.baseMap KEY_FN2_IDX = n)) := by
  induction cs with
  | nil => intro s keyData h; exact absurd rfl h
  | cons c cs ih =>
    intro s keyData _
    rw [keyRun_cons]
    cases cs with
    | nil => exact prepareKeyBytes_testBit tb s c.keys keyData c.now n hn
    | cons c' cs' => exact ih _ _ (List.cons_ne_nil _ _)

theorem sub32_self (a : Nat) : sub32 a a = 0 := by
  rw [sub32_eq]; omega

/-- The call that sees the press edge of a modifier, with idle base keys. -/
theorem SoloHold.start (tb : KeyTables) (k : Nat) (hk : k < 2) (t0 : Nat) (s : KeyState)
    (hs : Reachable tb s) (keys keyData : Nat → Nat) (hprev : (s.solo k).prev = 0)
    (hidle : ∀ i, isBaseIdx i = true → s.pend i = 0 ∧ s.active i = 0)
    (hheld : fnNow k keys = true) (hup : ∀ i, isBaseIdx i = true → keys i = 0) :
    SoloHold k t0 (prepareKeyBytes tb s keys keyData ((t0 + 0) % 4294967296)).1 0 := by
  obtain ⟨h1, h2, h3, h4⟩ :=
    prepareKeyBytes_solo_fields tb s keys keyData ((t0 + 0) % 4294967296) k hk
  obtain ⟨hnb, hidle'⟩ := not_busy_of_idle tb s keys keyData ((t0 + 0) % 4294967296) hidle hup
  obtain ⟨ha, hp, -, -⟩ := hs.inv.2.1 k hk
  have hp0 : (s.solo k).pend = 0 := by
    by_contra hne
    exact hp hne hprev
  have ha0 : (s.solo k).act = 0 := by
    by_contra hne
    exact ha hne hp0
  rw [hheld, hnb] at h1 h2 h3 h4
  have hd : ¬ FN_SOLO_DELAY_MS ≤ 0 := by decide
  refine ⟨?_, ?_, ?_, ?_, hidle'⟩
  · rw [h1]; simp [fnSoloStep, hprev, sub32_self, hd]
  · rw [h3]; simp [fnSoloStep, hprev, sub32_self, hd]
  · rw [h4]; simp [fnSoloStep]
  · rw [h2]; simp [fnSoloStep, hprev, sub32_self, hd, ha0]

/-- C6 (solo activation). Start from a reachable state in which modifier `k`
was up and no base key is pending or resolved. The first call sees the press
edge of the modifier at clock value `t0`; in it and in every later call of
the run the modifier is held and every base key is up; the later calls come
at non-decreasing elapsed times below 2^32 on the wrapping 32-bit clock.
After the last call of the run, at elapsed time `e`, the solo flag of the
modifier is set exactly when `e ≥ FN_SOLO_DELAY_MS`, and the mask bit of the
modifier's own base-table code is set exactly when `e ≥ FN_SOLO_DELAY_MS` or
the other modifier is solo-active with the same code. Since every prefix of
such a run is such a run, the solo is off in all calls before the delay has
elapsed and on in all calls from then on. -/
theorem solo_activation (tb : KeyTables) (htb : tb.codesBelow32) (k : Nat) (hk : k < 2)
    (s : KeyState) (hs : Reachable tb s) (keyData : Nat → Nat) (t0 : Nat) (keys0 : Nat → Nat)
    (rest : List ((Nat → Nat) × Nat))
    (hprev : (s.solo k).prev = 0)
    (hidle : ∀ i, isBaseIdx i = true → s.pend i = 0 ∧ s.active i = 0)
    (hheld : fnNow k keys0 = true) (hup : ∀ i, isBaseIdx i = true → keys0 i = 0)
    (hrest : ∀ p ∈ rest, fnNow k p.1 = true ∧ (∀ i, isBaseIdx i = true → p.1 i = 0) ∧
      p.2 < 4294967296)
    (hmono : List.Chain (· ≤ ·) 0 (rest.map Prod.snd)) :
    ((keyRun tb s keyData (cyclesAt t0 ((keys0, 0) :: rest))).1.fnSoloAct k ≠ 0 ↔
      FN_SOLO_DELAY_MS ≤ (rest.map Prod.snd).getLastD 0) ∧
    (Nat.testBit ((keyRun tb s keyData (cyclesAt t0 ((keys0, 0) :: rest))).2
        (tb.baseMap (fnKeyIdx k) / 8)) (tb.baseMap (fnKeyIdx k) % 8) = true ↔
      FN_SOLO_DELAY_MS ≤ (rest.map Prod.snd).getLastD 0 ∨
      ((keyRun tb s keyData (cyclesAt t0 ((keys0, 0) :: rest))).1.fnSoloAct (1 - k) ≠ 0 ∧
        tb.baseMap (fnKeyIdx (1 - k)) = tb.baseMap (fnKeyIdx k))) := by
  have hstart := SoloHold.start tb k hk t0 s hs keys0 keyData hprev hidle hheld hup
  have hrun := SoloHold.run tb k hk t0 rest _
    (prepareKeyBytes tb s keys0 keyData ((t0 + 0) % 4294967296)).2 0 hstart hmono hrest
  have hcyc : keyRun tb s keyData (cyclesAt t0 ((keys0, 0) :: rest))
      = keyRun tb (prepareKeyBytes tb s keys0 keyData ((t0 + 0) % 4294967296)).1
          (prepareKeyBytes tb s keys0 keyData ((t0 + 0) % 4294967296)).2 (cyclesAt t0 rest) := rfl
  have hne : cyclesAt t0 ((keys0, 0) :: rest) ≠ [] := by simp [cyclesAt]
  have hcode : tb.baseMap (fnKeyIdx k) < 32 := by
    apply htb.1
    obtain rfl | rfl : k = 0 ∨ k = 1 := by omega
    · decide
    · decide
  have hbits := keyRun_testBit tb _ hcode _ s keyData hne
  rw [← hcyc] at hrun
  obtain ⟨-, -, -, hact, hidleF⟩ := hrun
  refine ⟨hact, ?_⟩
  rw [hbits]
  have hnobase : ¬ ∃ i, isBaseIdx i = true ∧
      (keyRun tb s keyData (cyclesAt t0 ((keys0, 0) :: rest))).1.active i ≠ 0 ∧
      usageCode tb ((keyRun tb s keyData (cyclesAt t0 ((keys0, 0) :: rest))).1.active i) i
        = tb.baseMap (fnKeyIdx k) := by
    rintro ⟨i, hi, ha, -⟩
    exact ha (hidleF i hi).2
  rw [← hact]
  obtain rfl | rfl : k = 0 ∨ k = 1 := by omega
  · constructor
    · rintro (hb | ⟨h0, -⟩ | h1)
      · exact absurd hb hnobase
      · exact Or.inl h0
      · exact Or.inr h1
    · rintro (h0 | h1)
      · exact Or.inr (Or.inl ⟨h0, rfl⟩)
      · exact Or.inr (Or.inr h1)
  · constructor
    · rintro (hb | h0 | ⟨h1, -⟩)
      · exact absurd hb hnobase
      · exact Or.inr h0
      · exact Or.inl h1
    · rintro (h1 | h0)
      · exact Or.inr (Or.inr ⟨h1, rfl⟩)
      · exact Or.inr (Or.inl h0)

/-- C6 at a concrete input: Fn1 pressed alone 6 ms before the 32-bit clock
wraps, seen again 20 ms and 45 ms after the press: the solo is active in the
last call. -/
theorem solo_activation_witness :
    (keyRun shippedTables KeyState.init (fun _ => 0)
      (cyclesAt 4294967290 ((keysOf [0, 0, 0, 1, 0], 0) ::
        [(keysOf [0, 0, 0, 1, 0], 20), (keysOf [0, 0, 0, 1, 0], 45)]))).1.fnSoloAct 0 ≠ 0 :=
  (solo_activation shippedTables shippedTables_codesBelow32 0 (by decide) KeyState.init
    Reachable.init (fun _ => 0) 4294967290 (keysOf [0, 0, 0, 1, 0])
    [(keysOf [0, 0, 0, 1, 0], 20), (keysOf [0, 0, 0, 1, 0], 45)]
    rfl (fun _ _ => ⟨rfl, rfl⟩) (by decide) (baseKeys_up rfl rfl rfl)
    (by
      intro p hp
      simp only [List.mem_cons, List.mem_singleton, List.not_mem_nil, or_false] at hp
      rcases hp with rfl | rfl <;> exact ⟨by decide, baseKeys_up rfl rfl rfl, by decide⟩)
    (List.Chain.cons (by decide) (List.Chain.cons (by decide) List.Chain.nil))).1.mpr (by decide)

/-! ## Theorems: report scheduler -/

theorem transBytes_zero : (⟨1, transBytes 0 0 0 0 0 0⟩ : Report) = zeroMotionReport := by
  decide

theorem switch_init (h : SpaceMouseHID) (rx ry rz x y z : Int) (now : Nat) (usb : Int × Int)
    (hst : h.nextState = States.ST_INIT) :
    send_command_switch h rx ry rz x y z now usb
      = ⟨{ h with lastHIDsentRep := now, nextState := States.ST_START }, none, none, false⟩ := by
  simp only [send_command_switch, hst]

theorem switch_start_motion (h : SpaceMouseHID) (rx ry rz x y z : Int) (now : Nat)
    (usb : Int × Int) (hst : h.nextState = States.ST_START)
    (hc : h.countTransZeros < 3 ∨ h.countRotZeros < 3 ∨
      (x ≠ 0 ∨ y ≠ 0 ∨ z ≠ 0 ∨ rx ≠ 0 ∨ ry ≠ 0 ∨ rz ≠ 0)) :
    send_command_switch h rx ry rz x y z now usb
      = ⟨{ h with nextState := States.ST_SENDTRANS }, none, none, false⟩ := by
  simp only [send_command_switch, hst, if_pos hc]

theorem switch_start_rest (h : SpaceMouseHID) (rx ry rz x y z : Int) (now : Nat)
    (usb : Int × Int) (hst : h.nextState = States.ST_START)
    (hc : ¬ (h.countTransZeros < 3 ∨ h.countRotZeros < 3 ∨
      (x ≠ 0 ∨ y ≠ 0 ∨ z ≠ 0 ∨ rx ≠ 0 ∨ ry ≠ 0 ∨ rz ≠ 0)))
    (hmask : memcmp4_ne h.keyData h.prevKeyData = false) :
    send_command_switch h rx ry rz x y z now usb
      = ⟨if IsNewHidReportDue h now = true
          then { h with lastHIDsentRep := sub32 now HIDUPDATERATE_MS } else h,
         none, none, false⟩ := by
  simp only [send_command_switch, hst, if_neg hc, hmask, Bool.false_eq_true, if_false, true_and]

theorem switch_sendtrans_due (h : SpaceMouseHID) (rx ry rz x y z : Int) (now : Nat)
    (usb : Int × Int) (hst : h.nextState = States.ST_SENDTRANS)
    (hdue : IsNewHidReportDue h now = true) :
    send_command_switch h rx ry rz x y z now usb
      = ⟨{ h with
            lastHIDsentRep := add32 h.lastHIDsentRep HIDUPDATERATE_MS
            countTransZeros := if x = 0 ∧ y = 0 ∧ z = 0 then h.countTransZeros + 1 else 0
            countRotZeros := if rx = 0 ∧ ry = 0 ∧ rz = 0 then h.countRotZeros + 1 else 0
            nextState := if memcmp4_ne h.keyData h.prevKeyData = true then States.ST_SENDKEYS
              else States.ST_START },
         some ⟨1, transBytes rx ry rz x y z⟩, some (SendReport usb), true⟩ := by
  simp only [send_command_switch, hst, hdue, if_true]
  split_ifs <;> rfl

theorem switch_sendtrans_wait (h : SpaceMouseHID) (rx ry rz x y z : Int) (now : Nat)
    (usb : Int × Int) (hst : h.nextState = States.ST_SENDTRANS)
    (hdue : IsNewHidReportDue h now = false) :
    send_command_switch h rx ry rz x y z now usb = ⟨h, none, none, false⟩ := by
  simp only [send_command_switch, hst, hdue, Bool.false_eq_true, if_false]

/-- A due `ST_SENDTRANS` call with all axes zero and an unchanged key mask. -/
theorem switch_sendtrans_due_zero (h : SpaceMouseHID) (now : Nat) (usb : Int × Int)
    (hst : h.nextState = States.ST_SENDTRANS) (hdue : IsNewHidReportDue h now = true)
    (hmask : memcmp4_ne h.keyData h.prevKeyData = false) :
    send_command_switch h 0 0 0 0 0 0 now usb
      = ⟨{ h with
            lastHIDsentRep := add32 h.lastHIDsentRep HIDUPDATERATE_MS
            countTransZeros := h.countTransZeros + 1
            countRotZeros := h.countRotZeros + 1
            nextState := States.ST_START },
         some zeroMotionReport, some (SendReport usb), true⟩ := by
  rw [switch_sendtrans_due h 0 0 0 0 0 0 now usb hst hdue]
  simp [hmask, transBytes_zero]

/-- One idle call of the `switch` during a flush: the last-sent mask and the
current mask are untouched, the scheduler stays in the flush phase, the call
hands either nothing or one all-zero motion report to `SendReport` (then one
report less is owed), and the bound on the remaining calls drops. -/
theorem send_command_switch_flush (h : SpaceMouseHID) (t : Nat) (usb : Int × Int)
    (hphase : FlushPhase h) (hmask : memcmp4_ne h.keyData h.prevKeyData = false) :
    (send_command_switch h 0 0 0 0 0 0 (t % 4294967296) usb).hid.prevKeyData = h.prevKeyData ∧
    (send_command_switch h 0 0 0 0 0 0 (t % 4294967296) usb).hid.keyData = h.keyData ∧
    FlushPhase (send_command_switch h 0 0 0 0 0 0 (t % 4294967296) usb).hid ∧
    (((send_command_switch h 0 0 0 0 0 0 (t % 4294967296) usb).report = none ∧
        flushLeft (send_command_switch h 0 0 0 0 0 0 (t % 4294967296) usb).hid = flushLeft h) ∨
      ((send_command_switch h 0 0 0 0 0 0 (t % 4294967296) usb).report = some zeroMotionReport ∧
        flushLeft (send_command_switch h 0 0 0 0 0 0 (t % 4294967296) usb).hid + 1
          = flushLeft h)) ∧
    flushBound (send_command_switch h 0 0 0 0 0 0 (t % 4294967296) usb).hid
        (t + HIDUPDATERATE_MS) ≤ flushBound h t - 1 := by
  rcases hphase with hst | ⟨hst, hleft⟩ | ⟨hst, hct, hcr⟩
  · -- ST_START
    by_cases hc : h.countTransZeros < 3 ∨ h.countRotZeros < 3
    · rw [switch_start_motion h 0 0 0 0 0 0 _ usb hst (by tauto)]
      refine ⟨rfl, rfl, Or.inr (Or.inl ⟨rfl, ?_⟩), Or.inl ⟨rfl, rfl⟩, ?_⟩
      · simp only [flushLeft]; omega
      · simp only [flushBound, flushLeft, hst]
        split_ifs <;> omega
    · have hc' : ¬ (h.countTransZeros < 3 ∨ h.countRotZeros < 3 ∨
          ((0 : Int) ≠ 0 ∨ (0 : Int) ≠ 0 ∨ (0 : Int) ≠ 0 ∨ (0 : Int) ≠ 0 ∨ (0 : Int) ≠ 0 ∨
            (0 : Int) ≠ 0)) := by
        simpa using hc
      rw [switch_start_rest h 0 0 0 0 0 0 (t % 4294967296) usb hst hc' hmask]
      have hz : flushLeft h = 0 := by simp only [flushLeft]; omega
      generalize sub32 (t % 4294967296) HIDUPDATERATE_MS = L
      by_cases hdue : IsNewHidReportDue h (t % 4294967296) = true
      · rw [if_pos hdue]
        refine ⟨rfl, rfl, Or.inl hst, Or.inl ⟨rfl, rfl⟩, ?_⟩
        simp only [flushBound, flushLeft, hst] at hz ⊢
        omega
      · rw [if_neg hdue]
        refine ⟨rfl, rfl, Or.inl hst, Or.inl ⟨rfl, rfl⟩, ?_⟩
        simp only [flushBound, hst, hz]
        omega
  · -- ST_SENDTRANS
    by_cases hdue : IsNewHidReportDue h (t % 4294967296) = true
    · rw [switch_sendtrans_due_zero h _ usb hst hdue hmask]
      have hb : flushBound h t = 3 * flushLeft h - 2 := by
        simp only [IsNewHidReportDue, decide_eq_true_eq, sub32_eq, HIDUPDATERATE_MS] at hdue
        simp only [flushBound, hst, sub32_eq, HIDUPDATERATE_MS]
        split_ifs with h1
        · rfl
        · omega
      rw [hb]
      generalize add32 h.lastHIDsentRep HIDUPDATERATE_MS = L
      refine ⟨rfl, rfl, Or.inl rfl, Or.inr ⟨rfl, ?_⟩, ?_⟩
      · simp only [flushLeft] at hleft ⊢; omega
      · simp only [flushBound, flushLeft] at hleft ⊢
        omega
    · simp only [Bool.not_eq_true] at hdue
      rw [switch_sendtrans_wait h 0 0 0 0 0 0 _ usb hst hdue]
      refine ⟨rfl, rfl, Or.inr (Or.inl ⟨hst, hleft⟩), Or.inl ⟨rfl, rfl⟩, ?_⟩
      simp only [IsNewHidReportDue, decide_eq_false_iff_not, sub32_eq, HIDUPDATERATE_MS] at hdue
      simp only [flushBound, flushLeft, hst, sub32_eq, HIDUPDATERATE_MS] at hleft ⊢
      split_ifs <;> omega
  · -- ST_INIT
    rw [switch_init h 0 0 0 0 0 0 _ usb hst]
    generalize t % 4294967296 = L
    refine ⟨rfl, rfl, Or.inl rfl, Or.inl ⟨rfl, rfl⟩, ?_⟩
    simp only [flushBound, flushLeft, hst, hct, hcr]
    omega

/-- The `switch` never writes `keyData`. -/
theorem send_command_switch_keyData (h : SpaceMouseHID) (rx ry rz x y z : Int) (now : Nat)
    (usb : Int × Int) : (send_command_switch h rx ry rz x y z now usb).hid.keyData = h.keyData := by
  unfold send_command_switch
  split
  · rfl
  · simp only []
    split_ifs <;> rfl
  · simp only []
    split_ifs <;> rfl
  · split_ifs <;> rfl
  · rfl

theorem reportsOf_cons_none (r : SendResult) (rs : List SendResult) (h : r.report = none) :
    reportsOf (r :: rs) = reportsOf rs := by
  simp [reportsOf, List.filterMap_cons, h]

theorem reportsOf_cons_some (r : SendResult) (rs : List SendResult) (x : Report)
    (h : r.report = some x) : reportsOf (r :: rs) = x :: reportsOf rs := by
  simp [reportsOf, List.filterMap_cons, h]

/-- In the flush phase the bound is zero only when nothing is owed. -/
theorem flushLeft_of_bound_zero (h : SpaceMouseHID) (t : Nat) (hphase : FlushPhase h)
    (hb : flushBound h t = 0) : flushLeft h = 0 := by
  rcases hphase with hst | ⟨hst, hleft⟩ | ⟨hst, -, -⟩
  · simp only [flushBound, hst] at hb; omega
  · simp only [flushBound, hst] at hb
    split_ifs at hb <;> omega
  · simp only [flushBound, hst] at hb
    omega

theorem send_command_eq (tb : KeyTables) (h : SpaceMouseHID) (rx ry rz x y z : Int)
    (keys : Nat → Nat) (now nowKeys : Nat) (usb : Int × Int) :
    send_command tb h rx ry rz x y z keys now nowKeys usb
      = send_command_switch
          { h with keyStatics := (prepareKeyBytes tb h.keyStatics keys h.keyData nowKeys).1
                   keyData := (prepareKeyBytes tb h.keyStatics keys h.keyData nowKeys).2 }
          rx ry rz x y z now usb := rfl

/-- A run of idle calls during a flush hands only all-zero motion reports to
`SendReport`, never more than are owed, and all of them once the run is as
long as the bound. -/
theorem flush_run (tb : KeyTables) (p : Nat → Nat) (calls : List Call) :
    ∀ (h : SpaceMouseHID) (t : Nat), FlushPhase h → h.prevKeyData = p →
      IdleCallsFrom t calls →
      (∀ r ∈ sendRun tb h calls, memcmp4_ne r.hid.keyData p = false) →
      ∃ j, j ≤ flushLeft h ∧
        reportsOf (sendRun tb h calls) = List.replicate j zeroMotionReport ∧
        (flushBound h t ≤ calls.length → j = flushLeft h) := by
  induction calls with
  | nil =>
    intro h t hphase _ _ _
    exact ⟨0, Nat.zero_le _, rfl, fun hb =>
      (flushLeft_of_bound_zero h t hphase (Nat.le_zero.mp hb)).symm⟩
  | cons c cs ih =>
    intro h t hphase hp hcalls hmask
    obtain ⟨⟨hx, hy, hz, hrx, hry, hrz⟩, hnow, hrest⟩ := hcalls
    have hrun : sendRun tb h (c :: cs)
        = send_command tb h c.rx c.ry c.rz c.x c.y c.z c.keys c.now c.nowKeys c.usb ::
          sendRun tb (send_command tb h c.rx c.ry c.rz c.x c.y c.z c.keys c.now c.nowKeys
            c.usb).hid cs := rfl
    rw [hrun] at hmask ⊢
    have hm1 := hmask _ (List.mem_cons_self _ _)
    have hm2 : ∀ r ∈ sendRun tb (send_command tb h c.rx c.ry c.rz c.x c.y c.z c.keys c.now
        c.nowKeys c.usb).hid cs, memcmp4_ne r.hid.keyData p = false :=
      fun r hr => hmask r (List.mem_cons_of_mem _ hr)
    rw [send_command_eq, hx, hy, hz, hrx, hry, hrz, hnow] at hm1 hm2 ⊢
    generalize prepareKeyBytes tb h.keyStatics c.keys h.keyData c.nowKeys = pk at hm1 hm2 ⊢
    rw [send_command_switch_keyData] at hm1
    have hphase' : FlushPhase { h with keyStatics := pk.1, keyData := pk.2 } := hphase
    have hmask' : memcmp4_ne ({ h with keyStatics := pk.1, keyData := pk.2 } : SpaceMouseHID).keyData
        ({ h with keyStatics := pk.1, keyData := pk.2 } : SpaceMouseHID).prevKeyData = false := by
      rw [← hp] at hm1; exact hm1
    obtain ⟨s1, -, s3, s4, s5⟩ := send_command_switch_flush _ t c.usb hphase' hmask'
    have hp' : (send_command_switch { h with keyStatics := pk.1, keyData := pk.2 }
        0 0 0 0 0 0 (t % 4294967296) c.usb).hid.prevKeyData = p := by rw [s1]; exact hp
    obtain ⟨j, hj, hrep, hfull⟩ := ih _ (t + HIDUPDATERATE_MS) s3 hp' hrest hm2
    have hfl : flushLeft ({ h with keyStatics := pk.1, keyData := pk.2 } : SpaceMouseHID)
        = flushLeft h := rfl
    have hfb : flushBound ({ h with keyStatics := pk.1, keyData := pk.2 } : SpaceMouseHID) t
        = flushBound h t := rfl
    rw [hfl] at s4
    rw [hfb] at s5
    rcases s4 with ⟨hnone, hsame⟩ | ⟨hsome, hless⟩
    · refine ⟨j, by omega, ?_, fun hb => ?_⟩
      · rw [reportsOf_cons_none _ _ hnone, hrep]
      · have := hfull (by simp only [List.length_cons] at hb; omega)
        omega
    · refine ⟨j + 1, by omega, ?_, fun hb => ?_⟩
      · rw [reportsOf_cons_some _ _ _ hsome, hrep, List.replicate_succ]
      · have := hfull (by simp only [List.length_cons] at hb; omega)
        omega

/-- C3 (zero-report flush). Start in `ST_START` with at least one zero-streak
counter at 0 (as right after a motion report with a non-zero axis value), or
freshly constructed in `ST_INIT` with both counters 0. Let every call of the
run have all six axis values zero, come one cadence interval after the
previous one on the wrapping 32-bit clock, and compute a key mask equal to
the last-sent mask. Then the reports handed to `SendReport` during the run
are all-zero motion reports, never more than 3, and exactly 3 as soon as the
run has 10 calls: every later call sends nothing. -/
theorem zero_report_flush (tb : KeyTables) (h : SpaceMouseHID) (t : Nat) (calls : List Call)
    (hstart : (h.nextState = States.ST_START ∧
        (h.countTransZeros = 0 ∨ h.countRotZeros = 0)) ∨
      (h.nextState = States.ST_INIT ∧ h.countTransZeros = 0 ∧ h.countRotZeros = 0))
    (hcalls : IdleCallsFrom t calls)
    (hmask : ∀ r ∈ sendRun tb h calls, memcmp4_ne r.hid.keyData h.prevKeyData = false) :
    (∃ j, j ≤ 3 ∧ reportsOf (sendRun tb h calls) = List.replicate j zeroMotionReport) ∧
    (10 ≤ calls.length → reportsOf (sendRun tb h calls) = List.replicate 3 zeroMotionReport) := by
  have hphase : FlushPhase h := by
    rcases hstart with ⟨hst, -⟩ | ⟨hst, hct, hcr⟩
    · exact Or.inl hst
    · exact Or.inr (Or.inr ⟨hst, hct, hcr⟩)
  have hleft : flushLeft h = 3 := by
    simp only [flushLeft]
    rcases hstart with ⟨-, hc | hc⟩ | ⟨-, hct, -⟩ <;> omega
  have hbound : flushBound h t ≤ 10 := by
    rcases hstart with ⟨hst, -⟩ | ⟨hst, -, -⟩
    · simp only [flushBound, hst, hleft]; omega
    · simp only [flushBound, hst]; omega
  obtain ⟨j, hj, hrep, hfull⟩ := flush_run tb h.prevKeyData calls h t hphase rfl hcalls hmask
  refine ⟨⟨j, by omega, hrep⟩, fun hlen => ?_⟩
  rw [hrep, hfull (by omega), hleft]

/-- C3 at a concrete input: a freshly constructed object, ten calls 8 ms apart
with all axes zero and no key down: exactly three all-zero motion reports. -/
theorem zero_report_flush_witness :
    reportsOf (sendRun shippedTables SpaceMouseHID.init
      [idleCall (fun _ => 0) 0, idleCall (fun _ => 0) 8, idleCall (fun _ => 0) 16,
       idleCall (fun _ => 0) 24, idleCall (fun _ => 0) 32, idleCall (fun _ => 0) 40,
       idleCall (fun _ => 0) 48, idleCall (fun _ => 0) 56, idleCall (fun _ => 0) 64,
       idleCall (fun _ => 0) 72])
      = [zeroMotionReport, zeroMotionReport, zeroMotionReport] :=
  (zero_report_flush shippedTables SpaceMouseHID.init 0
    [idleCall (fun _ => 0) 0, idleCall (fun _ => 0) 8, idleCall (fun _ => 0) 16,
     idleCall (fun _ => 0) 24, idleCall (fun _ => 0) 32, idleCall (fun _ => 0) 40,
     idleCall (fun _ => 0) 48, idleCall (fun _ => 0) 56, idleCall (fun _ => 0) 64,
     idleCall (fun _ => 0) 72]
    (Or.inr ⟨rfl, rfl, rfl⟩)
    (by simp [IdleCallsFrom, idleCall, HIDUPDATERATE_MS])
    (by decide)).2 (by decide)

/-! ## Theorems: axis filter, stages -/

/-- `_med3` returns the middle one of its three arguments. -/
theorem _med3_eq_median (a b c : Int) :
    _med3 a b c = a + b + c - min a (min b c) - max a (max b c) := by
  unfold _med3
  simp only []
  split_ifs <;> omega

/-- C17 (despike). With only the despike stage enabled, a call on a seeded
filter returns the median of the raw sample and the two stored raw samples,
and stores the raw sample (not the returned value) in the history; the median
is the middle one of the three values. A fresh (unseeded) filter fed
`[a, a, s, a, a]` returns `[a, a, a, a, a]`, whatever the baseline `a` and the
spike `s` are. -/
theorem despike_rejects_spike (f : AxisFilter) (a s : Int) (hfresh : f.inited = 0) :
    (∀ (g : AxisFilter) (x : Int), g.inited ≠ 0 →
      (axisfilter_run despikeOnlyConfig g x).2 = _med3 x g.m0 g.m1 ∧
      (axisfilter_run despikeOnlyConfig g x).2
        = x + g.m0 + g.m1 - min x (min g.m0 g.m1) - max x (max g.m0 g.m1) ∧
      (axisfilter_run despikeOnlyConfig g x).1.m0 = x ∧
      (axisfilter_run despikeOnlyConfig g x).1.m1 = g.m0) ∧
    axisfilter_outputs despikeOnlyConfig f [a, a, s, a, a] = [a, a, a, a, a] := by
  constructor
  · intro g x hg
    have hrun : axisfilter_run despikeOnlyConfig g x = axisfilter_median3 g x := by
      simp [axisfilter_run, despikeOnlyConfig, hg]
    rw [hrun, ← _med3_eq_median]
    exact ⟨rfl, rfl, rfl, rfl⟩
  · simp [axisfilter_outputs, axisfilter_run, despikeOnlyConfig, axisfilter_median3,
      axisfilter_init, hfresh, _med3]
    refine ⟨?_, ?_, ?_⟩
    · split_ifs <;> omega
    · split_ifs <;> omega
    · omega

/-- C17 at the input of the spec: `[0, 0, 100, 0, 0]` gives `[0, 0, 0, 0, 0]`. -/
theorem despike_rejects_spike_witness :
    axisfilter_outputs despikeOnlyConfig ⟨0, 0, 0, 0, 0⟩ [0, 0, 100, 0, 0] = [0, 0, 0, 0, 0] :=
  (despike_rejects_spike ⟨0, 0, 0, 0, 0⟩ 0 100 rfl).2

/-- The smoothing stage leaves the raw history alone. -/
theorem axisfilter_ema_q15_hist (f : AxisFilter) (x : Int) (alpha : Nat) :
    (axisfilter_ema_q15 f x alpha).1.m0 = f.m0 ∧ (axisfilter_ema_q15 f x alpha).1.m1 = f.m1 := by
  simp [axisfilter_ema_q15]

/-- The rate-limiting stage leaves the raw history alone. -/
theorem axisfilter_slew_hist (f : AxisFilter) (x : Int) (s : Nat) :
    (axisfilter_slew f x s).1.m0 = f.m0 ∧ (axisfilter_slew f x s).1.m1 = f.m1 := by
  unfold axisfilter_slew
  exact ⟨rfl, rfl⟩

/-- C18, as stated, fails: with the despike stage switched off, a call on a
seeded filter whose history is `(0, 0)` with raw sample `5` leaves the history
at `(0, 0)` instead of `(5, 0)`. -/
theorem history_update_counterexample :
    (axisfilter_run ⟨false, true, true, 6000, 5⟩ ⟨0, 0, 0, 0, 1⟩ 5).1.m0 = 0 ∧
    (axisfilter_run ⟨false, true, true, 6000, 5⟩ ⟨0, 0, 0, 0, 1⟩ 5).1.m0 ≠ 5 := by
  decide

/-- C18, amended. The raw history is written by the despike stage only. With
that stage enabled (whatever the other two switches are) a call stores the raw
sample as previous-raw and the old previous-raw as previous-previous-raw, the
old previous-raw of an unseeded filter being the raw sample it is seeded with;
with that stage disabled a call on a seeded filter leaves both history values
as they were, and a call on an unseeded filter sets both to the raw sample. -/
theorem history_update_despike_only (cfg : FilterConfig) (f : AxisFilter) (x : Int) :
    (cfg.median3 = true →
      (axisfilter_run cfg f x).1.m0 = x ∧
      (axisfilter_run cfg f x).1.m1 = if f.inited = 0 then x else f.m0) ∧
    (cfg.median3 = false →
      (axisfilter_run cfg f x).1.m0 = (if f.inited = 0 then x else f.m0) ∧
      (axisfilter_run cfg f x).1.m1 = if f.inited = 0 then x else f.m1) := by
  obtain ⟨md, em, sl, al, ms⟩ := cfg
  constructor
  · intro hm
    simp only at hm
    subst hm
    by_cases hi : f.inited = 0 <;> cases em <;> cases sl <;>
      simp [axisfilter_run, hi, axisfilter_median3, axisfilter_init,
        (axisfilter_ema_q15_hist _ _ _).1, (axisfilter_ema_q15_hist _ _ _).2,
        (axisfilter_slew_hist _ _ _).1, (axisfilter_slew_hist _ _ _).2]
  · intro hm
    simp only at hm
    subst hm
    by_cases hi : f.inited = 0 <;> cases em <;> cases sl <;>
      simp [axisfilter_run, hi, axisfilter_init,
        (axisfilter_ema_q15_hist _ _ _).1, (axisfilter_ema_q15_hist _ _ _).2,
        (axisfilter_slew_hist _ _ _).1, (axisfilter_slew_hist _ _ _).2]

/-- C18 amended, at the shipped configuration and a seeded filter. -/
theorem history_update_despike_only_witness :
    (axisfilter_run defaultFilterConfig ⟨7, 3, 0, 0, 1⟩ 5).1.m0 = 5 ∧
    (axisfilter_run defaultFilterConfig ⟨7, 3, 0, 0, 1⟩ 5).1.m1 = 7 :=
  ((history_update_despike_only defaultFilterConfig ⟨7, 3, 0, 0, 1⟩ 5).1 rfl)

/-- On a filter whose four memory cells all hold the `int16_t` value `v`, a
call with the sample `v` returns `v` and changes nothing. -/
theorem axisfilter_run_fixed (cfg : FilterConfig) (v : Int) (hstep : cfg.max_step < 32768)
    (hv : isInt16 v) :
    axisfilter_run cfg ⟨v, v, v, v, 1⟩ v = (⟨v, v, v, v, 1⟩, v) := by
  obtain ⟨md, em, sl, al, ms⟩ := cfg
  simp only at hstep
  have hw : wrap16 v = v := wrap16_of_isInt16 hv
  have hmed : axisfilter_median3 ⟨v, v, v, v, 1⟩ v = (⟨v, v, v, v, 1⟩, v) := by
    simp [axisfilter_median3, _med3]
  have hema : axisfilter_ema_q15 ⟨v, v, v, v, 1⟩ v al = (⟨v, v, v, v, 1⟩, v) := by
    have h0 : wrap32 0 = 0 := by decide
    simp [axisfilter_ema_q15, h0, hw]
  have hslew : axisfilter_slew ⟨v, v, v, v, 1⟩ v ms = (⟨v, v, v, v, 1⟩, v) := by
    have h0 : wrap16 0 = 0 := by decide
    have hs : wrap16 (ms : Int) = (ms : Int) := by unfold wrap16; omega
    have h1 : ¬ ((ms : Int) < 0) := by omega
    have h2 : ¬ ((0 : Int) < -(ms : Int)) := by omega
    simp [axisfilter_slew, h0, hs, h1, h2]
  cases md <;> cases em <;> cases sl <;>
    simp [axisfilter_run, hmed, hema, hslew]

/-- C21 (seeding and rebase). `axisfilter_init` and `axisfilter_rebase` leave
all four memory cells equal to the given value with the seeded flag set;
`axisfilter_run` on an unseeded filter seeds it from the raw sample and returns
that sample; after `axisfilter_rebase(v)` a call `axisfilter_run(v)` returns
`v` and leaves the state as it was. Samples are `int16_t` values and the step
limit is one that fits an `int16_t`, as the shipped one does. -/
theorem seeding_and_rebase (cfg : FilterConfig) (f : AxisFilter) (v : Int)
    (hstep : cfg.max_step < 32768) (hv : isInt16 v) :
    axisfilter_init f v = ⟨v, v, v, v, 1⟩ ∧
    axisfilter_rebase f v = ⟨v, v, v, v, 1⟩ ∧
    (f.inited = 0 → axisfilter_run cfg f v = (⟨v, v, v, v, 1⟩, v)) ∧
    axisfilter_run cfg (axisfilter_rebase f v) v = (axisfilter_rebase f v, v) := by
  refine ⟨rfl, rfl, ?_, ?_⟩
  · intro hi
    rw [← axisfilter_run_fixed cfg v hstep hv]
    simp [axisfilter_run, hi, axisfilter_init]
  · exact axisfilter_run_fixed cfg v hstep hv

/-- C21 at the shipped configuration: an unseeded filter fed `-1234`, and a
filter with arbitrary contents rebased to `-1234`. -/
theorem seeding_and_rebase_witness :
    axisfilter_init ⟨9, 8, 7, 6, 0⟩ (-1234) = ⟨-1234, -1234, -1234, -1234, 1⟩ ∧
    axisfilter_rebase ⟨9, 8, 7, 6, 0⟩ (-1234) = ⟨-1234, -1234, -1234, -1234, 1⟩ ∧
    ((0 : Nat) = 0 →
      axisfilter_run defaultFilterConfig ⟨9, 8, 7, 6, 0⟩ (-1234)
        = (⟨-1234, -1234, -1234, -1234, 1⟩, -1234)) ∧
    axisfilter_run defaultFilterConfig (axisfilter_rebase ⟨9, 8, 7, 6, 0⟩ (-1234)) (-1234)
      = (axisfilter_rebase ⟨9, 8, 7, 6, 0⟩ (-1234), -1234) :=
  seeding_and_rebase defaultFilterConfig ⟨9, 8, 7, 6, 0⟩ (-1234) (by decide) (by decide)

/-- C22 (the smoothing stage never overshoots). For every `alpha` in
`0 .. 32767` and every `int16_t` sample `x` and accumulator `s`, the product
`(x - s) * alpha` fits 32 bits, the value `s + (((x - s) * alpha) >> 15)` lies
between `s` and `x` inclusive, so it is an `int16_t` and the narrowing store
keeps it: the stage returns and stores exactly that value. -/
theorem ema_never_overshoots (f : AxisFilter) (x : Int) (alpha : Nat)
    (halpha : alpha ≤ 32767) (hx : isInt16 x) (hs : isInt16 f.ema_z1) :
    wrap32 ((x - f.ema_z1) * (alpha : Int)) = (x - f.ema_z1) * (alpha : Int) ∧
    (axisfilter_ema_q15 f x alpha).2 = f.ema_z1 + ((x - f.ema_z1) * (alpha : Int)) / 32768 ∧
    (axisfilter_ema_q15 f x alpha).1.ema_z1 = (axisfilter_ema_q15 f x alpha).2 ∧
    min f.ema_z1 x ≤ (axisfilter_ema_q15 f x alpha).2 ∧
    (axisfilter_ema_q15 f x alpha).2 ≤ max f.ema_z1 x ∧
    isInt16 (axisfilter_ema_q15 f x alpha).2 := by
  unfold isInt16 at hx hs
  generalize hsd : f.ema_z1 = s at hs
  have ha0 : (0 : Int) ≤ (alpha : Int) := Int.ofNat_nonneg _
  have ha1 : (alpha : Int) ≤ 32767 := by exact_mod_cast halpha
  have hprod : -2147483648 ≤ (x - s) * (alpha : Int) ∧ (x - s) * (alpha : Int) ≤ 2147483647 := by
    constructor <;> nlinarith
  have h32 : wrap32 ((x - s) * (alpha : Int)) = (x - s) * (alpha : Int) := by
    unfold wrap32; omega
  have hq : min 0 (x - s) ≤ ((x - s) * (alpha : Int)) / 32768 ∧
      ((x - s) * (alpha : Int)) / 32768 ≤ max 0 (x - s) := by
    rcases le_total 0 (x - s) with hd | hd
    · have h1 : 0 ≤ ((x - s) * (alpha : Int)) / 32768 :=
        Int.ediv_nonneg (mul_nonneg hd ha0) (by norm_num)
      have h2 : ((x - s) * (alpha : Int)) / 32768 ≤ x - s := by
        apply Int.ediv_le_of_le_mul (by norm_num)
        nlinarith
      rw [min_eq_left hd, max_eq_right hd]
      exact ⟨h1, h2⟩
    · have h1 : x - s ≤ ((x - s) * (alpha : Int)) / 32768 := by
        apply Int.le_ediv_of_mul_le (by norm_num)
        nlinarith
      have h2 : ((x - s) * (alpha : Int)) / 32768 ≤ 0 := by
        apply Int.ediv_le_of_le_mul (by norm_num)
        nlinarith
      rw [min_eq_right hd, max_eq_left hd]
      exact ⟨h1, h2⟩
  have hval : (axisfilter_ema_q15 f x alpha).2 = s + ((x - s) * (alpha : Int)) / 32768 := by
    simp only [axisfilter_ema_q15, hsd, h32, Int.shiftRight_eq_div_pow]
    unfold wrap16
    norm_num
    omega
  refine ⟨h32, hval, rfl, ?_, ?_, ?_⟩
  · rw [hval]; omega
  · rw [hval]; omega
  · rw [hval]; unfold isInt16; omega

/-- C22 at `alpha = 32767`, accumulator `32767` and sample `-32768`. -/
theorem ema_never_overshoots_witness :
    wrap32 ((-32768 - (32767 : Int)) * ((32767 : Nat) : Int))
      = (-32768 - (32767 : Int)) * ((32767 : Nat) : Int) ∧
    (axisfilter_ema_q15 ⟨0, 0, 32767, 0, 1⟩ (-32768) 32767).2
      = 32767 + ((-32768 - (32767 : Int)) * ((32767 : Nat) : Int)) / 32768 ∧
    (axisfilter_ema_q15 ⟨0, 0, 32767, 0, 1⟩ (-32768) 32767).1.ema_z1
      = (axisfilter_ema_q15 ⟨0, 0, 32767, 0, 1⟩ (-32768) 32767).2 ∧
    min 32767 (-32768) ≤ (axisfilter_ema_q15 ⟨0, 0, 32767, 0, 1⟩ (-32768) 32767).2 ∧
    (axisfilter_ema_q15 ⟨0, 0, 32767, 0, 1⟩ (-32768) 32767).2 ≤ max 32767 (-32768) ∧
    isInt16 (axisfilter_ema_q15 ⟨0, 0, 32767, 0, 1⟩ (-32768) 32767).2 :=
  ema_never_overshoots ⟨0, 0, 32767, 0, 1⟩ (-32768) 32767 (by decide) (by decide) (by decide)

/-! ## Theorems: key/layer resolver, whole presses -/

/-- C20 (combo exclusivity). In every state of the resolver reachable from the
zero-initialised statics, every base key has a mode in `0 .. 3` and is never
both pending and resolved: it is in exactly one of the five states idle,
pending, resolved to Base, resolved to Fn1, resolved to Fn2. -/
theorem combo_exclusivity (tb : KeyTables) (s : KeyState) (hs : Reachable tb s) (i : Nat)
    (hi : isBaseIdx i = true) :
    s.active i ≤ 3 ∧ ¬ (s.pend i ≠ 0 ∧ s.active i ≠ 0) ∧
    ((s.pend i = 0 ∧ s.active i = 0) ∨ (s.pend i ≠ 0 ∧ s.active i = 0) ∨
      (s.pend i = 0 ∧ s.active i = 1) ∨ (s.pend i = 0 ∧ s.active i = 2) ∨
      (s.pend i = 0 ∧ s.active i = 3)) := by
  obtain ⟨h1, h2, -⟩ := hs.inv.1 i hi
  simp only [KeyState.key] at h1 h2
  by_cases hp : s.pend i = 0
  · by_cases ha : s.active i = 0
    · simp [hp, ha]
    · have := (h2 ha).2
      refine ⟨this, fun h => h.1 hp, ?_⟩
      omega
  · have ha := (h1 hp).1
    simp [hp, ha]

/-- C20 at a concrete state: key 0 pressed with Fn2 held is resolved to Fn2. -/
theorem combo_exclusivity_witness :
    (prepareKeyBytes shippedTables KeyState.init (keysOf [1, 0, 0, 0, 1]) (fun _ => 0) 0).1.active 0
      ≤ 3 :=
  (combo_exclusivity shippedTables
    (prepareKeyBytes shippedTables KeyState.init (keysOf [1, 0, 0, 0, 1]) (fun _ => 0) 0).1
    (Reachable.step _ _ _ _ Reachable.init) 0 (by decide)).1

theorem keyRun_append (tb : KeyTables) (l1 l2 : List Cycle) :
    ∀ (s : KeyState) (keyData : Nat → Nat),
      keyRun tb s keyData (l1 ++ l2)
        = keyRun tb (keyRun tb s keyData l1).1 (keyRun tb s keyData l1).2 l2 := by
  induction l1 with
  | nil => intro s keyData; rfl
  | cons c cs ih =>
    intro s keyData
    rw [List.cons_append, keyRun_cons, keyRun_cons, ih]

/-- A base key pending since `t0` that is seen down, with both modifiers up,
less than the combo window after `t0`, stays pending and unresolved. -/
theorem tap_hold_step (tb : KeyTables) (s : KeyState) (keys keyData : Nat → Nat) (i t0 e : Nat)
    (hi : isBaseIdx i = true)
    (hs : s.pend i ≠ 0 ∧ s.active i = 0 ∧ s.tPend i = t0 % 4294967296 ∧ s.prevPhys i ≠ 0)
    (hdown : keys i ≠ 0) (h1 : keys KEY_FN1_IDX = 0) (h2 : keys KEY_FN2_IDX = 0)
    (he : e < FN_COMBO_WINDOW_MS) :
    (prepareKeyBytes tb s keys keyData ((t0 + e) % 4294967296)).1.pend i ≠ 0 ∧
    (prepareKeyBytes tb s keys keyData ((t0 + e) % 4294967296)).1.active i = 0 ∧
    (prepareKeyBytes tb s keys keyData ((t0 + e) % 4294967296)).1.tPend i = t0 % 4294967296 ∧
    (prepareKeyBytes tb s keys keyData ((t0 + e) % 4294967296)).1.prevPhys i ≠ 0 := by
  obtain ⟨hq, hp, ht, ha⟩ :=
    prepareKeyBytes_fields tb s keys keyData ((t0 + e) % 4294967296) i hi
  obtain ⟨s1, s2, s3, s4⟩ := hs
  have hel : sub32 ((t0 + e) % 4294967296) (t0 % 4294967296) = e :=
    sub32_elapsed t0 e (by unfold FN_COMBO_WINDOW_MS at he; omega)
  have hlt : ¬ (FN_COMBO_WINDOW_MS ≤ e) := by omega
  rw [hq, hp, ht, ha]
  simp [baseKeyStep, KeyState.key, fn1Now_eq, fn2Now_eq, h1, h2, hdown, s1, s2, s3, s4, hel, hlt]

/-- The call that sees the press edge of a base key with both modifiers up. -/
theorem tap_press_step (tb : KeyTables) (s : KeyState) (keys keyData : Nat → Nat) (i t0 : Nat)
    (hi : isBaseIdx i = true) (hup : s.prevPhys i = 0)
    (hdown : keys i ≠ 0) (h1 : keys KEY_FN1_IDX = 0) (h2 : keys KEY_FN2_IDX = 0) :
    (prepareKeyBytes tb s keys keyData ((t0 + 0) % 4294967296)).1.pend i ≠ 0 ∧
    (prepareKeyBytes tb s keys keyData ((t0 + 0) % 4294967296)).1.active i = 0 ∧
    (prepareKeyBytes tb s keys keyData ((t0 + 0) % 4294967296)).1.tPend i = t0 % 4294967296 ∧
    (prepareKeyBytes tb s keys keyData ((t0 + 0) % 4294967296)).1.prevPhys i ≠ 0 := by
  obtain ⟨hq, hp, ht, ha⟩ :=
    prepareKeyBytes_fields tb s keys keyData ((t0 + 0) % 4294967296) i hi
  have hlt : ¬ (FN_COMBO_WINDOW_MS ≤ 0) := by decide
  rw [hq, hp, ht, ha]
  simp [baseKeyStep, KeyState.key, fn1Now_eq, fn2Now_eq, h1, h2, hdown, hup, sub32_self, hlt]

/-- A run of calls that see a pending base key down, both modifiers up, each
less than the combo window after the press. -/
theorem tap_hold_run (tb : KeyTables) (i t0 : Nat) (hi : isBaseIdx i = true)
    (holds : List ((Nat → Nat) × Nat)) :
    ∀ (s : KeyState) (keyData : Nat → Nat),
      (s.pend i ≠ 0 ∧ s.active i = 0 ∧ s.tPend i = t0 % 4294967296 ∧ s.prevPhys i ≠ 0) →
      (∀ p ∈ holds, p.1 i ≠ 0 ∧ p.1 KEY_FN1_IDX = 0 ∧ p.1 KEY_FN2_IDX = 0 ∧
        p.2 < FN_COMBO_WINDOW_MS) →
      (keyRun tb s keyData (cyclesAt t0 holds)).1.pend i ≠ 0 ∧
      (keyRun tb s keyData (cyclesAt t0 holds)).1.active i = 0 ∧
      (keyRun tb s keyData (cyclesAt t0 holds)).1.prevPhys i ≠ 0 := by
  induction holds with
  | nil => intro s keyData hs _; exact ⟨hs.1, hs.2.1, hs.2.2.2⟩
  | cons p ps ih =>
    intro s keyData hs hall
    obtain ⟨hd, h1, h2, he⟩ := hall p (List.mem_cons_self _ _)
    have hstep := tap_hold_step tb s p.1 keyData i t0 p.2 hi hs hd h1 h2 he
    simp only [cyclesAt, List.map_cons, keyRun_cons]
    exact ih _ _ hstep (fun q hq => hall q (List.mem_cons_of_mem _ hq))

/-- A base key that is unresolved, and seen up, stays unresolved and is no
longer pending. -/
theorem tap_up_step (tb : KeyTables) (s : KeyState) (keys keyData : Nat → Nat) (i now : Nat)
    (hi : isBaseIdx i = true) (hs : s.active i = 0 ∧ (s.pend i ≠ 0 → s.prevPhys i ≠ 0))
    (hup : keys i = 0) :
    (prepareKeyBytes tb s keys keyData now).1.active i = 0 ∧
    (prepareKeyBytes tb s keys keyData now).1.pend i = 0 := by
  obtain ⟨-, hp, -, ha⟩ := prepareKeyBytes_fields tb s keys keyData now i hi
  obtain ⟨s1, s2⟩ := hs
  rw [hp, ha]
  by_cases hq : s.pend i = 0
  · by_cases hv : s.prevPhys i = 0 <;>
      simp [baseKeyStep, KeyState.key, hup, s1, hq, hv]
  · have hv := s2 hq
    cases fn1Now keys <;> cases fn2Now keys <;>
      by_cases hw : FN_COMBO_WINDOW_MS ≤ sub32 now (s.tPend i) <;>
      simp [baseKeyStep, KeyState.key, hup, s1, hq, hv, hw]

/-- A run of calls that see an unresolved base key up. -/
theorem tap_up_run (tb : KeyTables) (i : Nat) (hi : isBaseIdx i = true) (cs : List Cycle) :
    ∀ (s : KeyState) (keyData : Nat → Nat),
      (s.active i = 0 ∧ (s.pend i ≠ 0 → s.prevPhys i ≠ 0)) →
      (∀ c ∈ cs, c.keys i = 0) →
      (keyRun tb s keyData cs).1.active i = 0 ∧
      (cs ≠ [] → (keyRun tb s keyData cs).1.pend i = 0) := by
  induction cs with
  | nil => intro s keyData hs _; exact ⟨hs.1, fun h => absurd rfl h⟩
  | cons c cs ih =>
    intro s keyData hs hall
    have hstep := tap_up_step tb s c.keys keyData i c.now hi hs
      (hall c (List.mem_cons_self _ _))
    rw [keyRun_cons]
    have hnext := ih (prepareKeyBytes tb s c.keys keyData c.now).1
      (prepareKeyBytes tb s c.keys keyData c.now).2
      ⟨hstep.1, fun h => absurd hstep.2 h⟩ (fun q hq => hall q (List.mem_cons_of_mem _ hq))
    refine ⟨hnext.1, fun _ => ?_⟩
    cases cs with
    | nil => exact hstep.2
    | cons c' cs' => exact hnext.2 (List.cons_ne_nil _ _)

/-- C23 (short taps are dropped). Base key `i` is up before the call at time
`t0`, which sees it down (the press edge); the calls `holds` see it down, each
less than `FN_COMBO_WINDOW_MS` after `t0`; the calls `after` see it up, the
first of them being the release edge; neither modifier is down in the press
call and the calls `holds`. Then at the end of the last call the key has mode
None and is not resolved, and the mask loop sets no bit for it. The lists
`holds` and `after` are arbitrary (also empty), so this holds at the end of
every call of the tap and of every later call that sees the key up. -/
theorem short_tap_dropped (tb : KeyTables) (s : KeyState) (keyData : Nat → Nat) (i t0 : Nat)
    (hi : isBaseIdx i = true) (hup : s.prevPhys i = 0) (press : Nat → Nat)
    (holds : List ((Nat → Nat) × Nat)) (after : List Cycle)
    (hpress : press i ≠ 0 ∧ press KEY_FN1_IDX = 0 ∧ press KEY_FN2_IDX = 0)
    (hholds : ∀ p ∈ holds, p.1 i ≠ 0 ∧ p.1 KEY_FN1_IDX = 0 ∧ p.1 KEY_FN2_IDX = 0 ∧
      p.2 < FN_COMBO_WINDOW_MS)
    (hafter : ∀ c ∈ after, c.keys i = 0) :
    (keyRun tb s keyData (cyclesAt t0 ((press, 0) :: holds) ++ after)).1.active i = 0 ∧
    (after = [] →
      (keyRun tb s keyData (cyclesAt t0 ((press, 0) :: holds) ++ after)).1.pend i ≠ 0) ∧
    (after ≠ [] →
      (keyRun tb s keyData (cyclesAt t0 ((press, 0) :: holds) ++ after)).1.pend i = 0) ∧
    (∀ kd, maskKeyBody tb
      (keyRun tb s keyData (cyclesAt t0 ((press, 0) :: holds) ++ after)).1 kd i = kd) := by
  have hstart := tap_press_step tb s press keyData i t0 hi hup hpress.1 hpress.2.1 hpress.2.2
  have hheld := tap_hold_run tb i t0 hi holds _
    (prepareKeyBytes tb s press keyData ((t0 + 0) % 4294967296)).2 hstart hholds
  have hrun : keyRun tb s keyData (cyclesAt t0 ((press, 0) :: holds))
      = keyRun tb (prepareKeyBytes tb s press keyData ((t0 + 0) % 4294967296)).1
          (prepareKeyBytes tb s press keyData ((t0 + 0) % 4294967296)).2 (cyclesAt t0 holds) := rfl
  rw [← hrun] at hheld
  obtain ⟨g1, g2, g3⟩ := hheld
  have hrest := tap_up_run tb i hi after _
    (keyRun tb s keyData (cyclesAt t0 ((press, 0) :: holds))).2 ⟨g2, fun _ => g3⟩ hafter
  rw [keyRun_append]
  refine ⟨hrest.1, ?_, hrest.2, fun kd => ?_⟩
  · intro he
    subst he
    exact g1
  · simp [maskKeyBody, hrest.1]

/-- C23 at a concrete input: key 0 pressed 6 ms before the 32-bit clock wraps,
seen down 50 ms and 120 ms later, released 150 ms after the press, and seen up
once more. -/
theorem short_tap_dropped_witness :
    (keyRun shippedTables KeyState.init (fun _ => 0)
      (cyclesAt 4294967290 ((keysOf [1], 0) :: [(keysOf [1], 50), (keysOf [1], 120)]) ++
        [⟨keysOf [], 144⟩, ⟨keysOf [], 152⟩])).1.active 0 = 0 :=
  (short_tap_dropped shippedTables KeyState.init (fun _ => 0) 0 4294967290 (by decide) rfl
    (keysOf [1]) [(keysOf [1], 50), (keysOf [1], 120)] [⟨keysOf [], 144⟩, ⟨keysOf [], 152⟩]
    (by decide)
    (by
      intro p hp
      simp only [List.mem_cons, List.mem_singleton, List.not_mem_nil, or_false] at hp
      rcases hp with rfl | rfl <;> decide)
    (by
      intro c hc
      simp only [List.mem_cons, List.mem_singleton, List.not_mem_nil, or_false] at hc
      rcases hc with rfl | rfl <;> rfl)).1

/-! ## Theorems: report scheduler, single transitions -/

theorem switch_sendkeys_due (h : SpaceMouseHID) (rx ry rz x y z : Int) (now : Nat)
    (usb : Int × Int) (hst : h.nextState = States.ST_SENDKEYS)
    (hdue : IsNewHidReportDue h now = true) :
    send_command_switch h rx ry rz x y z now usb
      = ⟨{ h with
            lastHIDsentRep := add32 h.lastHIDsentRep HIDUPDATERATE_MS
            prevKeyData := memcpy4 h.prevKeyData h.keyData
            nextState := States.ST_START },
         some ⟨3, [h.keyData 0, h.keyData 1, h.keyData 2, h.keyData 3]⟩,
         some (SendReport usb), true⟩ := by
  simp only [send_command_switch, hst, hdue, if_true]

theorem switch_sendkeys_wait (h : SpaceMouseHID) (rx ry rz x y z : Int) (now : Nat)
    (usb : Int × Int) (hst : h.nextState = States.ST_SENDKEYS)
    (hdue : IsNewHidReportDue h now = false) :
    send_command_switch h rx ry rz x y z now usb = ⟨h, none, none, false⟩ := by
  simp only [send_command_switch, hst, hdue, Bool.false_eq_true, if_false]

theorem switch_other (h : SpaceMouseHID) (rx ry rz x y z : Int) (now : Nat)
    (usb : Int × Int) (raw : Nat) (hst : h.nextState = States.ST_OTHER raw) :
    send_command_switch h rx ry rz x y z now usb
      = ⟨{ h with nextState := States.ST_START }, none, none, false⟩ := by
  simp only [send_command_switch, hst]

theorem switch_start_keys (h : SpaceMouseHID) (rx ry rz x y z : Int) (now : Nat)
    (usb : Int × Int) (hst : h.nextState = States.ST_START)
    (hc : ¬ (h.countTransZeros < 3 ∨ h.countRotZeros < 3 ∨
      (x ≠ 0 ∨ y ≠ 0 ∨ z ≠ 0 ∨ rx ≠ 0 ∨ ry ≠ 0 ∨ rz ≠ 0)))
    (hmask : memcmp4_ne h.keyData h.prevKeyData = true) :
    send_command_switch h rx ry rz x y z now usb
      = ⟨{ h with nextState := States.ST_SENDKEYS }, none, none, false⟩ := by
  simp only [send_command_switch, hst, if_neg hc, hmask, if_true]
  simp

/-- The branches of the `switch` of `send_command`, one equation each. -/
theorem send_command_switch_cases (h : SpaceMouseHID) (rx ry rz x y z : Int) (now : Nat)
    (usb : Int × Int) :
    (h.nextState = States.ST_INIT ∧
      send_command_switch h rx ry rz x y z now usb
        = ⟨{ h with lastHIDsentRep := now, nextState := States.ST_START }, none, none, false⟩) ∨
    (h.nextState = States.ST_START ∧
      (h.countTransZeros < 3 ∨ h.countRotZeros < 3 ∨
        (x ≠ 0 ∨ y ≠ 0 ∨ z ≠ 0 ∨ rx ≠ 0 ∨ ry ≠ 0 ∨ rz ≠ 0)) ∧
      send_command_switch h rx ry rz x y z now usb
        = ⟨{ h with nextState := States.ST_SENDTRANS }, none, none, false⟩) ∨
    (h.nextState = States.ST_START ∧
      ¬ (h.countTransZeros < 3 ∨ h.countRotZeros < 3 ∨
        (x ≠ 0 ∨ y ≠ 0 ∨ z ≠ 0 ∨ rx ≠ 0 ∨ ry ≠ 0 ∨ rz ≠ 0)) ∧
      memcmp4_ne h.keyData h.prevKeyData = true ∧
      send_command_switch h rx ry rz x y z now usb
        = ⟨{ h with nextState := States.ST_SENDKEYS }, none, none, false⟩) ∨
    (h.nextState = States.ST_START ∧
      ¬ (h.countTransZeros < 3 ∨ h.countRotZeros < 3 ∨
        (x ≠ 0 ∨ y ≠ 0 ∨ z ≠ 0 ∨ rx ≠ 0 ∨ ry ≠ 0 ∨ rz ≠ 0)) ∧
      memcmp4_ne h.keyData h.prevKeyData = false ∧
      send_command_switch h rx ry rz x y z now usb
        = ⟨if IsNewHidReportDue h now = true
            then { h with lastHIDsentRep := sub32 now HIDUPDATERATE_MS } else h,
           none, none, false⟩) ∨
    (h.nextState = States.ST_SENDTRANS ∧ IsNewHidReportDue h now = true ∧
      send_command_switch h rx ry rz x y z now usb
        = ⟨{ h with
              lastHIDsentRep := add32 h.lastHIDsentRep HIDUPDATERATE_MS
              countTransZeros := if x = 0 ∧ y = 0 ∧ z = 0 then h.countTransZeros + 1 else 0
              countRotZeros := if rx = 0 ∧ ry = 0 ∧ rz = 0 then h.countRotZeros + 1 else 0
              nextState := if memcmp4_ne h.keyData h.prevKeyData = true then States.ST_SENDKEYS
                else States.ST_START },
           some ⟨1, transBytes rx ry rz x y z⟩, some (SendReport usb), true⟩) ∨
    (h.nextState = States.ST_SENDKEYS ∧ IsNewHidReportDue h now = true ∧
      send_command_switch h rx ry rz x y z now usb
        = ⟨{ h with
              lastHIDsentRep := add32 h.lastHIDsentRep HIDUPDATERATE_MS
              prevKeyData := memcpy4 h.prevKeyData h.keyData
              nextState := States.ST_START },
           some ⟨3, [h.keyData 0, h.keyData 1, h.keyData 2, h.keyData 3]⟩,
           some (SendReport usb), true⟩) ∨
    ((h.nextState = States.ST_SENDTRANS ∨ h.nextState = States.ST_SENDKEYS) ∧
      IsNewHidReportDue h now = false ∧
      send_command_switch h rx ry rz x y z now usb = ⟨h, none, none, false⟩) ∨
    ((∃ raw, h.nextState = States.ST_OTHER raw) ∧
      send_command_switch h rx ry rz x y z now usb
        = ⟨{ h with nextState := States.ST_START }, none, none, false⟩) := by
  obtain ⟨st, hst⟩ : ∃ st, h.nextState = st := ⟨_, rfl⟩
  cases st with
  | ST_INIT => exact Or.inl ⟨hst, switch_init h rx ry rz x y z now usb hst⟩
  | ST_START =>
    by_cases hc : h.countTransZeros < 3 ∨ h.countRotZeros < 3 ∨
        (x ≠ 0 ∨ y ≠ 0 ∨ z ≠ 0 ∨ rx ≠ 0 ∨ ry ≠ 0 ∨ rz ≠ 0)
    · exact Or.inr (Or.inl ⟨hst, hc, switch_start_motion h rx ry rz x y z now usb hst hc⟩)
    · cases hm : memcmp4_ne h.keyData h.prevKeyData with
      | true =>
        exact Or.inr (Or.inr (Or.inl
          ⟨hst, hc, rfl, switch_start_keys h rx ry rz x y z now usb hst hc hm⟩))
      | false =>
        exact Or.inr (Or.inr (Or.inr (Or.inl
          ⟨hst, hc, rfl, switch_start_rest h rx ry rz x y z now usb hst hc hm⟩)))
  | ST_SENDTRANS =>
    cases hd : IsNewHidReportDue h now with
    | true =>
      have := switch_sendtrans_due h rx ry rz x y z now usb hst hd
      exact Or.inr (Or.inr (Or.inr (Or.inr (Or.inl ⟨hst, rfl, this⟩))))
    | false =>
      exact Or.inr (Or.inr (Or.inr (Or.inr (Or.inr (Or.inr (Or.inl
        ⟨Or.inl hst, rfl, switch_sendtrans_wait h rx ry rz x y z now usb hst hd⟩))))))
  | ST_SENDKEYS =>
    cases hd : IsNewHidReportDue h now with
    | true =>
      exact Or.inr (Or.inr (Or.inr (Or.inr (Or.inr (Or.inl
        ⟨hst, rfl, switch_sendkeys_due h rx ry rz x y z now usb hst hd⟩)))))
    | false =>
      exact Or.inr (Or.inr (Or.inr (Or.inr (Or.inr (Or.inr (Or.inl
        ⟨Or.inr hst, rfl, switch_sendkeys_wait h rx ry rz x y z now usb hst hd⟩))))))
  | ST_OTHER raw =>
    exact Or.inr (Or.inr (Or.inr (Or.inr (Or.inr (Or.inr (Or.inr
      ⟨⟨raw, hst⟩, switch_other h rx ry rz x y z now usb raw hst⟩))))))

/-- The report handed to `SendReport` by the `switch`, if any. -/
theorem send_command_switch_report (h : SpaceMouseHID) (rx ry rz x y z : Int) (now : Nat)
    (usb : Int × Int) :
    (send_command_switch h rx ry rz x y z now usb).report
      = if h.nextState = States.ST_SENDTRANS ∧ IsNewHidReportDue h now = true
        then some ⟨1, transBytes rx ry rz x y z⟩
        else if h.nextState = States.ST_SENDKEYS ∧ IsNewHidReportDue h now = true
        then some ⟨3, [h.keyData 0, h.keyData 1, h.keyData 2, h.keyData 3]⟩
        else none := by
  rcases send_command_switch_cases h rx ry rz x y z now usb with
    ⟨hs, e⟩ | ⟨hs, -, e⟩ | ⟨hs, -, -, e⟩ | ⟨hs, -, -, e⟩ | ⟨hs, hd, e⟩ | ⟨hs, hd, e⟩ |
    ⟨hs, hd, e⟩ | ⟨⟨raw, hs⟩, e⟩
  · rw [e]; simp [hs]
  · rw [e]; simp [hs]
  · rw [e]; simp [hs]
  · rw [e]; simp [hs]
  · rw [e]; simp [hs, hd]
  · rw [e]; simp [hs, hd]
  · rw [e]; simp [hd]
  · rw [e]; simp [hs]

/-- The two bytes written for an `int16_t` value are bytes, and read back as
a little-endian two's-complement integer they give the value. -/
theorem decode_low_high (v : Int) (hv : isInt16 v) :
    lowByte v < 256 ∧ highByte v < 256 ∧ decodeInt16LE (lowByte v) (highByte v) = v := by
  unfold isInt16 at hv
  have hs : v >>> (8 : Nat) = v / 256 := by
    rw [Int.shiftRight_eq_div_pow]; norm_num
  unfold lowByte highByte decodeInt16LE wrap16
  rw [hs]
  have h1 : (0 : Int) ≤ v % 256 := Int.emod_nonneg _ (by norm_num)
  have h2 : (0 : Int) ≤ (v / 256) % 256 := Int.emod_nonneg _ (by norm_num)
  have h3 : ((v % 256).toNat : Int) = v % 256 := Int.toNat_of_nonneg h1
  have h4 : (((v / 256) % 256).toNat : Int) = (v / 256) % 256 := Int.toNat_of_nonneg h2
  rw [h3, h4]
  refine ⟨?_, ?_, ?_⟩ <;> omega

/-- C11 (motion report encoding round trip). Whenever `send_command`, called
with `int16_t` axis values in the parameter order `rx, ry, rz, x, y, z`, hands
a report with id 1 to `SendReport`, its payload has 12 bytes, and reading bytes
`2k`, `2k + 1` as a little-endian two's-complement 16-bit integer for
`k = 0 .. 5` gives `x, y, z, rx, ry, rz` in this order. -/
theorem motion_report_round_trip (tb : KeyTables) (h : SpaceMouseHID) (rx ry rz x y z : Int)
    (keys : Nat → Nat) (now nowKeys : Nat) (usb : Int × Int) (r : Report)
    (hrx : isInt16 rx) (hry : isInt16 ry) (hrz : isInt16 rz)
    (hx : isInt16 x) (hy : isInt16 y) (hz : isInt16 z)
    (hrep : (send_command tb h rx ry rz x y z keys now nowKeys usb).report = some r)
    (hid : r.id = 1) :
    h.nextState = States.ST_SENDTRANS ∧
    r.data.length = 12 ∧ (∀ b ∈ r.data, b < 256) ∧
    decodeAxes r.data = [x, y, z, rx, ry, rz] := by
  have hdata : h.nextState = States.ST_SENDTRANS ∧ r.data = transBytes rx ry rz x y z := by
    rw [send_command_eq, send_command_switch_report] at hrep
    split_ifs at hrep with h1 h2
    · simp only [Option.some.injEq] at hrep
      exact ⟨h1.1, by rw [← hrep]⟩
    · simp only [Option.some.injEq] at hrep
      rw [← hrep] at hid
      simp at hid
  obtain ⟨hst, hd⟩ := hdata
  obtain ⟨a1, a2, a3⟩ := decode_low_high x hx
  obtain ⟨b1, b2, b3⟩ := decode_low_high y hy
  obtain ⟨c1, c2, c3⟩ := decode_low_high z hz
  obtain ⟨d1, d2, d3⟩ := decode_low_high rx hrx
  obtain ⟨e1, e2, e3⟩ := decode_low_high ry hry
  obtain ⟨f1, f2, f3⟩ := decode_low_high rz hrz
  rw [hd]
  refine ⟨hst, rfl, ?_, ?_⟩
  · intro b hb
    simp only [transBytes, List.mem_cons, List.mem_singleton, List.not_mem_nil, or_false] at hb
    rcases hb with rfl | rfl | rfl | rfl | rfl | rfl | rfl | rfl | rfl | rfl | rfl | rfl <;>
      assumption
  · simp only [transBytes, decodeAxes, a3, b3, c3, d3, e3, f3]

/-- C11 at a concrete input: a due call in `ST_SENDTRANS` with the axis values
`x = 1, y = -2, z = 300, rx = -32768, ry = 32767, rz = -1`. -/
theorem motion_report_round_trip_witness :
    decodeAxes (transBytes (-32768) 32767 (-1) 1 (-2) 300) = [1, -2, 300, -32768, 32767, -1] :=
  (motion_report_round_trip shippedTables
    { SpaceMouseHID.init with nextState := States.ST_SENDTRANS } (-32768) 32767 (-1) 1 (-2) 300
    (fun _ => 0) 8 8 (1, 12) ⟨1, transBytes (-32768) 32767 (-1) 1 (-2) 300⟩
    (by decide) (by decide) (by decide) (by decide) (by decide) (by decide)
    (by decide) rfl).2.2.2

theorem memcmp4_ne_false_iff (a b : Nat → Nat) :
    memcmp4_ne a b = false ↔ ∀ i, i < 4 → a i = b i := by
  simp only [memcmp4_ne, List.any_eq_false, List.mem_range, decide_eq_true_eq, not_not]

/-- The value returned by `SendReport` has no influence on what the `switch`
does to the object, on the report handed over, or on the returned flag. -/
theorem send_command_switch_usb (h : SpaceMouseHID) (rx ry rz x y z : Int) (now : Nat)
    (usb usb' : Int × Int) :
    (send_command_switch h rx ry rz x y z now usb).hid
      = (send_command_switch h rx ry rz x y z now usb').hid ∧
    (send_command_switch h rx ry rz x y z now usb).report
      = (send_command_switch h rx ry rz x y z now usb').report ∧
    (send_command_switch h rx ry rz x y z now usb).hasSentNewData
      = (send_command_switch h rx ry rz x y z now usb').hasSentNewData := by
  rcases send_command_switch_cases h rx ry rz x y z now usb with
    ⟨hs, e⟩ | ⟨hs, hc, e⟩ | ⟨hs, hc, hm, e⟩ | ⟨hs, hc, hm, e⟩ | ⟨hs, hd, e⟩ | ⟨hs, hd, e⟩ |
    ⟨hs, hd, e⟩ | ⟨⟨raw, hs⟩, e⟩
  · rw [e, switch_init h rx ry rz x y z now usb' hs]
    exact ⟨rfl, rfl, rfl⟩
  · rw [e, switch_start_motion h rx ry rz x y z now usb' hs hc]
    exact ⟨rfl, rfl, rfl⟩
  · rw [e, switch_start_keys h rx ry rz x y z now usb' hs hc hm]
    exact ⟨rfl, rfl, rfl⟩
  · rw [e, switch_start_rest h rx ry rz x y z now usb' hs hc hm]
    exact ⟨rfl, rfl, rfl⟩
  · rw [e, switch_sendtrans_due h rx ry rz x y z now usb' hs hd]
    exact ⟨rfl, rfl, rfl⟩
  · rw [e, switch_sendkeys_due h rx ry rz x y z now usb' hs hd]
    exact ⟨rfl, rfl, rfl⟩
  · rcases hs with hs | hs
    · rw [e, switch_sendtrans_wait h rx ry rz x y z now usb' hs hd]
      exact ⟨rfl, rfl, rfl⟩
    · rw [e, switch_sendkeys_wait h rx ry rz x y z now usb' hs hd]
      exact ⟨rfl, rfl, rfl⟩
  · rw [e, switch_other h rx ry rz x y z now usb' raw hs]
    exact ⟨rfl, rfl, rfl⟩

/-- C12, as stated, fails: a due call in `ST_SENDTRANS` at clock value 108 with
last-sent timestamp 100, in which the first `USB_Send` fails (`SendReport`
returns -1), still advances the timestamp to 108 and leaves `ST_SENDTRANS`. -/
theorem send_failure_counterexample :
    SendReport (-1, 0) < 0 ∧
    (send_command shippedTables
      { SpaceMouseHID.init with nextState := States.ST_SENDTRANS, lastHIDsentRep := 100 }
      0 0 0 5 0 0 (fun _ => 0) 108 108 (-1, 0)).usbResult = some (-1) ∧
    (send_command shippedTables
      { SpaceMouseHID.init with nextState := States.ST_SENDTRANS, lastHIDsentRep := 100 }
      0 0 0 5 0 0 (fun _ => 0) 108 108 (-1, 0)).hid.lastHIDsentRep = 108 ∧
    (send_command shippedTables
      { SpaceMouseHID.init with nextState := States.ST_SENDTRANS, lastHIDsentRep := 100 }
      0 0 0 5 0 0 (fun _ => 0) 108 108 (-1, 0)).hid.nextState = States.ST_START := by
  decide

/-- C12, amended. `send_command` does not look at the value returned by
`SendReport`: the object after the call, the report handed over and the
returned flag are the same for every transport outcome. Whenever a report is
handed to `SendReport`, whatever value `SendReport` returns for it (a negative
one included), the last-sent timestamp advances by one cadence interval
(modulo 2^32) and the scheduler leaves the sending state, exactly as after a
successful send. -/
theorem send_result_not_consulted (tb : KeyTables) (h : SpaceMouseHID) (rx ry rz x y z : Int)
    (keys : Nat → Nat) (now nowKeys : Nat) (usb usb' : Int × Int)
    (hrep : (send_command tb h rx ry rz x y z keys now nowKeys usb).report ≠ none) :
    (send_command tb h rx ry rz x y z keys now nowKeys usb).hid
      = (send_command tb h rx ry rz x y z keys now nowKeys usb').hid ∧
    (send_command tb h rx ry rz x y z keys now nowKeys usb).report
      = (send_command tb h rx ry rz x y z keys now nowKeys usb').report ∧
    (send_command tb h rx ry rz x y z keys now nowKeys usb).hasSentNewData
      = (send_command tb h rx ry rz x y z keys now nowKeys usb').hasSentNewData ∧
    (send_command tb h rx ry rz x y z keys now nowKeys usb).usbResult = some (SendReport usb) ∧
    (send_command tb h rx ry rz x y z keys now nowKeys usb).hid.lastHIDsentRep
      = add32 h.lastHIDsentRep HIDUPDATERATE_MS ∧
    (send_command tb h rx ry rz x y z keys now nowKeys usb).hid.nextState ≠ h.nextState := by
  obtain ⟨u1, u2, u3⟩ := send_command_switch_usb
    { h with keyStatics := (prepareKeyBytes tb h.keyStatics keys h.keyData nowKeys).1
             keyData := (prepareKeyBytes tb h.keyStatics keys h.keyData nowKeys).2 }
    rx ry rz x y z now usb usb'
  refine ⟨u1, u2, u3, ?_⟩
  rw [send_command_eq] at hrep ⊢
  rcases send_command_switch_cases
    { h with keyStatics := (prepareKeyBytes tb h.keyStatics keys h.keyData nowKeys).1
             keyData := (prepareKeyBytes tb h.keyStatics keys h.keyData nowKeys).2 }
    rx ry rz x y z now usb with
    ⟨hs, e⟩ | ⟨hs, hc, e⟩ | ⟨hs, hc, hm, e⟩ | ⟨hs, hc, hm, e⟩ | ⟨hs, hd, e⟩ | ⟨hs, hd, e⟩ |
    ⟨hs, hd, e⟩ | ⟨⟨raw, hs⟩, e⟩
  · rw [e] at hrep; exact absurd rfl hrep
  · rw [e] at hrep; exact absurd rfl hrep
  · rw [e] at hrep; exact absurd rfl hrep
  · rw [e] at hrep; exact absurd rfl hrep
  · rw [e]
    have hs' : h.nextState = States.ST_SENDTRANS := hs
    refine ⟨rfl, rfl, ?_⟩
    rw [hs']
    simp only []
    split_ifs <;> simp
  · rw [e]
    have hs' : h.nextState = States.ST_SENDKEYS := hs
    refine ⟨rfl, rfl, ?_⟩
    rw [hs']
    simp
  · rw [e] at hrep; exact absurd rfl hrep
  · rw [e] at hrep; exact absurd rfl hrep

/-- C12 amended, at a failing transport (the first `USB_Send` returns -1, so `SendReport` stops there)
compared with a succeeding one: `SendReport` returns -1 and the timestamp
advances from 100 to 108 all the same. -/
theorem send_result_not_consulted_witness :
    SendReport (-1, 7) < 0 ∧
    (send_command shippedTables
        { SpaceMouseHID.init with nextState := States.ST_SENDTRANS, lastHIDsentRep := 100 }
        0 0 0 5 0 0 (fun _ => 0) 108 108 (-1, 7)).usbResult = some (SendReport (-1, 7)) ∧
    (send_command shippedTables
        { SpaceMouseHID.init with nextState := States.ST_SENDTRANS, lastHIDsentRep := 100 }
        0 0 0 5 0 0 (fun _ => 0) 108 108 (-1, 7)).hid.lastHIDsentRep
      = add32 100 HIDUPDATERATE_MS :=
  ⟨by decide,
    (send_result_not_consulted shippedTables
      { SpaceMouseHID.init with nextState := States.ST_SENDTRANS, lastHIDsentRep := 100 }
      0 0 0 5 0 0 (fun _ => 0) 108 108 (-1, 7) (1, 12) (by decide)).2.2.2.1,
    (send_result_not_consulted shippedTables
      { SpaceMouseHID.init with nextState := States.ST_SENDTRANS, lastHIDsentRep := 100 }
      0 0 0 5 0 0 (fun _ => 0) 108 108 (-1, 7) (1, 12) (by decide)).2.2.2.2.1⟩

/-- C13, as stated, fails: a due call in `ST_SENDKEYS` in which the second
`USB_Send` fails (`SendReport` returns -5, nothing is transmitted) returns
true. -/
theorem return_value_counterexample :
    SendReport (1, -5) < 0 ∧
    (send_command shippedTables { SpaceMouseHID.init with nextState := States.ST_SENDKEYS }
      0 0 0 0 0 0 (fun _ => 0) 8 8 (1, -5)).usbResult = some (-5) ∧
    (send_command shippedTables { SpaceMouseHID.init with nextState := States.ST_SENDKEYS }
      0 0 0 0 0 0 (fun _ => 0) 8 8 (1, -5)).hasSentNewData = true := by
  decide

/-- C13, amended. For every scheduler state, inputs, clock value and
transport outcome, `send_command` returns true if and only if it handed a
report to `SendReport` in that call, whatever `SendReport` returned: that is,
if and only if the state is `ST_SENDTRANS` or `ST_SENDKEYS` and the cadence
interval has elapsed. It returns false in `ST_INIT`, in `ST_START`, in any
other state, and in the two sending states before the interval has elapsed. -/
theorem return_value_tracks_attempt (tb : KeyTables) (h : SpaceMouseHID)
    (rx ry rz x y z : Int) (keys : Nat → Nat) (now nowKeys : Nat) (usb : Int × Int) :
    ((send_command tb h rx ry rz x y z keys now nowKeys usb).hasSentNewData = true ↔
      (send_command tb h rx ry rz x y z keys now nowKeys usb).report ≠ none) ∧
    ((send_command tb h rx ry rz x y z keys now nowKeys usb).hasSentNewData = true ↔
      (send_command tb h rx ry rz x y z keys now nowKeys usb).usbResult = some (SendReport usb)) ∧
    ((send_command tb h rx ry rz x y z keys now nowKeys usb).hasSentNewData = true ↔
      (h.nextState = States.ST_SENDTRANS ∨ h.nextState = States.ST_SENDKEYS) ∧
        HIDUPDATERATE_MS ≤ sub32 now h.lastHIDsentRep) := by
  have hdue : ∀ b, (IsNewHidReportDue
      { h with keyStatics := (prepareKeyBytes tb h.keyStatics keys h.keyData nowKeys).1
               keyData := (prepareKeyBytes tb h.keyStatics keys h.keyData nowKeys).2 } now = b) →
      (decide (HIDUPDATERATE_MS ≤ sub32 now h.lastHIDsentRep) = b) := fun b hb => hb
  rw [send_command_eq]
  rcases send_command_switch_cases
    { h with keyStatics := (prepareKeyBytes tb h.keyStatics keys h.keyData nowKeys).1
             keyData := (prepareKeyBytes tb h.keyStatics keys h.keyData nowKeys).2 }
    rx ry rz x y z now usb with
    ⟨hs, e⟩ | ⟨hs, hc, e⟩ | ⟨hs, hc, hm, e⟩ | ⟨hs, hc, hm, e⟩ | ⟨hs, hd, e⟩ | ⟨hs, hd, e⟩ |
    ⟨hs, hd, e⟩ | ⟨⟨raw, hs⟩, e⟩
  · have hs' : h.nextState = States.ST_INIT := hs
    rw [e]; simp [hs']
  · have hs' : h.nextState = States.ST_START := hs
    rw [e]; simp [hs']
  · have hs' : h.nextState = States.ST_START := hs
    rw [e]; simp [hs']
  · have hs' : h.nextState = States.ST_START := hs
    rw [e]; simp [hs']
  · have hs' : h.nextState = States.ST_SENDTRANS := hs
    have hd' := hdue _ hd
    simp only [decide_eq_true_eq] at hd'
    rw [e]; simp [hs', hd']
  · have hs' : h.nextState = States.ST_SENDKEYS := hs
    have hd' := hdue _ hd
    simp only [decide_eq_true_eq] at hd'
    rw [e]; simp [hs', hd']
  · have hd' := hdue _ hd
    simp only [decide_eq_false_iff_not] at hd'
    rw [e]; simp [hd']
  · have hs' : h.nextState = States.ST_OTHER raw := hs
    rw [e]; simp [hs']

theorem send_command_afterKeys (tb : KeyTables) (h : SpaceMouseHID) (rx ry rz x y z : Int)
    (keys : Nat → Nat) (now nowKeys : Nat) (usb : Int × Int) :
    send_command tb h rx ry rz x y z keys now nowKeys usb
      = send_command_switch (afterKeys tb h keys nowKeys) rx ry rz x y z now usb := rfl

/-- The returned flag is set exactly when a report was handed to `SendReport`. -/
theorem return_value_flag (tb : KeyTables) (h : SpaceMouseHID)
    (rx ry rz x y z : Int) (keys : Nat → Nat) (now nowKeys : Nat) (usb : Int × Int) :
    (send_command tb h rx ry rz x y z keys now nowKeys usb).hasSentNewData = true ↔
      (send_command tb h rx ry rz x y z keys now nowKeys usb).report ≠ none := by
  rw [send_command_afterKeys]
  rcases send_command_switch_cases (afterKeys tb h keys nowKeys) rx ry rz x y z now usb with
    ⟨-, e⟩ | ⟨-, -, e⟩ | ⟨-, -, -, e⟩ | ⟨-, -, -, e⟩ | ⟨-, -, e⟩ | ⟨-, -, e⟩ |
    ⟨-, -, e⟩ | ⟨-, e⟩ <;> rw [e] <;> simp

/-- C14 (idle phase tracking). The object is in `ST_START` with both
zero-streak counters at 3 or more. The call `c0` has all six axis values zero,
its key mask equals the last-sent mask, and at its clock value the cadence
interval has elapsed: it sets the last-sent timestamp to `now - cadence`
(32-bit unsigned), stays in `ST_START` and sends nothing. If the next call
`c1` has a non-zero axis value it moves to `ST_SENDTRANS` without sending, and
the call `c2` after it, `d` milliseconds after `c0` for any `d` (also 0) on
the wrapping 32-bit clock, hands the motion report of its axis values to
`SendReport`. -/
theorem idle_phase_tracking (tb : KeyTables) (h : SpaceMouseHID) (c0 c1 c2 : Call) (d : Nat)
    (hst : h.nextState = States.ST_START)
    (hct : 3 ≤ h.countTransZeros) (hcr : 3 ≤ h.countRotZeros)
    (hzero : c0.x = 0 ∧ c0.y = 0 ∧ c0.z = 0 ∧ c0.rx = 0 ∧ c0.ry = 0 ∧ c0.rz = 0)
    (hmask : memcmp4_ne (prepareKeyBytes tb h.keyStatics c0.keys h.keyData c0.nowKeys).2
      h.prevKeyData = false)
    (hdue : HIDUPDATERATE_MS ≤ sub32 c0.now h.lastHIDsentRep)
    (hmove : c1.x ≠ 0 ∨ c1.y ≠ 0 ∨ c1.z ≠ 0 ∨ c1.rx ≠ 0 ∨ c1.ry ≠ 0 ∨ c1.rz ≠ 0)
    (hd : d + HIDUPDATERATE_MS < 4294967296) (hnow : c2.now = (c0.now + d) % 4294967296) :
    ∃ r0 r1 r2, sendRun tb h [c0, c1, c2] = [r0, r1, r2] ∧
      r0.report = none ∧ r0.hasSentNewData = false ∧ r0.hid.nextState = States.ST_START ∧
      r0.hid.lastHIDsentRep = sub32 c0.now HIDUPDATERATE_MS ∧
      (HIDUPDATERATE_MS ≤ c0.now → c0.now < 4294967296 →
        r0.hid.lastHIDsentRep = c0.now - HIDUPDATERATE_MS) ∧
      r0.hid.countTransZeros = h.countTransZeros ∧ r0.hid.countRotZeros = h.countRotZeros ∧
      r1.report = none ∧ r1.hid.nextState = States.ST_SENDTRANS ∧
      r2.report = some ⟨1, transBytes c2.rx c2.ry c2.rz c2.x c2.y c2.z⟩ ∧
      r2.hasSentNewData = true := by
  obtain ⟨z1, z2, z3, z4, z5, z6⟩ := hzero
  have hc : ¬ (h.countTransZeros < 3 ∨ h.countRotZeros < 3 ∨
      ((0 : Int) ≠ 0 ∨ (0 : Int) ≠ 0 ∨ (0 : Int) ≠ 0 ∨ (0 : Int) ≠ 0 ∨ (0 : Int) ≠ 0 ∨
        (0 : Int) ≠ 0)) := by
    simp only [ne_eq, not_true_eq_false, or_self, or_false, not_or, not_lt]
    exact ⟨hct, hcr⟩
  have e0 : send_command tb h c0.rx c0.ry c0.rz c0.x c0.y c0.z c0.keys c0.now c0.nowKeys c0.usb
      = ⟨{ afterKeys tb h c0.keys c0.nowKeys with
            lastHIDsentRep := sub32 c0.now HIDUPDATERATE_MS }, none, none, false⟩ := by
    have hdue0 : IsNewHidReportDue (afterKeys tb h c0.keys c0.nowKeys) c0.now = true := by
      simp only [IsNewHidReportDue, decide_eq_true_eq]
      exact hdue
    rw [send_command_afterKeys, z1, z2, z3, z4, z5, z6,
      switch_start_rest (afterKeys tb h c0.keys c0.nowKeys) 0 0 0 0 0 0 c0.now c0.usb hst hc hmask,
      if_pos hdue0]
  generalize hg0 : (⟨{ afterKeys tb h c0.keys c0.nowKeys with
      lastHIDsentRep := sub32 c0.now HIDUPDATERATE_MS }, none, none, false⟩ : SendResult) = r0
    at e0
  have a1 : r0.report = none := by rw [← hg0]
  have a2 : r0.hasSentNewData = false := by rw [← hg0]
  have a3 : r0.hid.nextState = States.ST_START := by rw [← hg0]; exact hst
  have a4 : r0.hid.lastHIDsentRep = sub32 c0.now HIDUPDATERATE_MS := by rw [← hg0]
  have a5 : r0.hid.countTransZeros = h.countTransZeros := by rw [← hg0]; rfl
  have a6 : r0.hid.countRotZeros = h.countRotZeros := by rw [← hg0]; rfl
  have e1 : send_command tb r0.hid c1.rx c1.ry c1.rz c1.x c1.y c1.z c1.keys c1.now c1.nowKeys
      c1.usb
      = ⟨{ afterKeys tb r0.hid c1.keys c1.nowKeys with nextState := States.ST_SENDTRANS },
          none, none, false⟩ := by
    rw [send_command_afterKeys,
      switch_start_motion (afterKeys tb r0.hid c1.keys c1.nowKeys) c1.rx c1.ry c1.rz c1.x c1.y
        c1.z c1.now c1.usb a3 (Or.inr (Or.inr hmove))]
  generalize hg1 : (⟨{ afterKeys tb r0.hid c1.keys c1.nowKeys with
      nextState := States.ST_SENDTRANS }, none, none, false⟩ : SendResult) = r1 at e1
  have b1 : r1.report = none := by rw [← hg1]
  have b2 : r1.hid.nextState = States.ST_SENDTRANS := by rw [← hg1]
  have b3 : r1.hid.lastHIDsentRep = sub32 c0.now HIDUPDATERATE_MS := by rw [← hg1]; exact a4
  have hdue2 : IsNewHidReportDue (afterKeys tb r1.hid c2.keys c2.nowKeys) c2.now = true := by
    have hl : (afterKeys tb r1.hid c2.keys c2.nowKeys).lastHIDsentRep
        = sub32 c0.now HIDUPDATERATE_MS := b3
    simp only [IsNewHidReportDue, decide_eq_true_eq, hl, hnow, sub32_eq]
    unfold HIDUPDATERATE_MS at hd ⊢
    omega
  have hrep2 := send_command_switch_report (afterKeys tb r1.hid c2.keys c2.nowKeys)
      c2.rx c2.ry c2.rz c2.x c2.y c2.z c2.now c2.usb
  rw [if_pos ⟨b2, hdue2⟩] at hrep2
  have hflag2 := (return_value_flag tb r1.hid c2.rx c2.ry c2.rz c2.x c2.y c2.z c2.keys c2.now
    c2.nowKeys c2.usb).mpr (by rw [send_command_afterKeys, hrep2]; exact Option.some_ne_none _)
  refine ⟨r0, r1, send_command tb r1.hid c2.rx c2.ry c2.rz c2.x c2.y c2.z c2.keys c2.now
    c2.nowKeys c2.usb, ?_, a1, a2, a3, a4, ?_, a5, a6, b1, b2, ?_, hflag2⟩
  · simp only [sendRun, e0, e1]
  · intro h8 hlt
    rw [a4, sub32_eq]
    unfold HIDUPDATERATE_MS at h8 ⊢
    omega
  · rw [send_command_afterKeys, hrep2]

/-- C14 at a concrete input: idle since long, an idle call at clock value 200,
motion (`x = 7`) seen at 201, and the next call, still at 201, sends. -/
theorem idle_phase_tracking_witness :
    ∃ r0 r1 r2,
      sendRun shippedTables
        { SpaceMouseHID.init with
          nextState := States.ST_START, countTransZeros := 3, countRotZeros := 3
          lastHIDsentRep := 100 }
        [idleCall (fun _ => 0) 200, ⟨0, 0, 0, 7, 0, 0, fun _ => 0, 201, 201, (1, 12)⟩,
          ⟨0, 0, 0, 7, 0, 0, fun _ => 0, 201, 201, (1, 12)⟩] = [r0, r1, r2] ∧
      r0.report = none ∧ r0.hasSentNewData = false ∧ r0.hid.nextState = States.ST_START ∧
      r0.hid.lastHIDsentRep = sub32 200 HIDUPDATERATE_MS ∧
      (HIDUPDATERATE_MS ≤ 200 → 200 < 4294967296 →
        r0.hid.lastHIDsentRep = 200 - HIDUPDATERATE_MS) ∧
      r0.hid.countTransZeros = 3 ∧ r0.hid.countRotZeros = 3 ∧
      r1.report = none ∧ r1.hid.nextState = States.ST_SENDTRANS ∧
      r2.report = some ⟨1, transBytes 0 0 0 7 0 0⟩ ∧
      r2.hasSentNewData = true :=
  idle_phase_tracking shippedTables
    { SpaceMouseHID.init with
      nextState := States.ST_START, countTransZeros := 3, countRotZeros := 3
      lastHIDsentRep := 100 }
    (idleCall (fun _ => 0) 200) ⟨0, 0, 0, 7, 0, 0, fun _ => 0, 201, 201, (1, 12)⟩
    ⟨0, 0, 0, 7, 0, 0, fun _ => 0, 201, 201, (1, 12)⟩ 1
    rfl (by decide) (by decide) ⟨rfl, rfl, rfl, rfl, rfl, rfl⟩ (by decide) (by decide)
    (Or.inl (by decide)) (by decide) (by decide)

/-- C15 (SendMotion transition). In `ST_SENDTRANS` the elapsed time is the
32-bit unsigned difference `now - lastHIDsentRep`, which is the true elapsed
time `e < 2^32` also when the clock has wrapped in between. If it is below the
cadence interval the call sends nothing and leaves state, timestamp, counters
and last-sent mask as they are. Otherwise it hands one motion report to
`SendReport`, adds one cadence interval to the timestamp (modulo 2^32), sets
each zero-streak counter to its old value plus 1 if its axis triple is all
zero in this call and to 0 otherwise, and goes to `ST_SENDKEYS` if the current
key mask differs from the last-sent mask, else to `ST_START`. The current key
mask is the one `prepareKeyBytes` has computed in this call, from this call's
key array; it differs from the last-sent mask when one of its four bytes
does. -/
theorem sendmotion_transition (tb : KeyTables) (h : SpaceMouseHID) (rx ry rz x y z : Int)
    (keys : Nat → Nat) (now nowKeys : Nat) (usb : Int × Int) (r : SendResult)
    (hr : send_command tb h rx ry rz x y z keys now nowKeys usb = r)
    (hst : h.nextState = States.ST_SENDTRANS) :
    (sub32 now h.lastHIDsentRep < HIDUPDATERATE_MS →
      r.report = none ∧ r.hasSentNewData = false ∧ r.hid.nextState = States.ST_SENDTRANS ∧
      r.hid.lastHIDsentRep = h.lastHIDsentRep ∧ r.hid.countTransZeros = h.countTransZeros ∧
      r.hid.countRotZeros = h.countRotZeros ∧ r.hid.prevKeyData = h.prevKeyData) ∧
    (HIDUPDATERATE_MS ≤ sub32 now h.lastHIDsentRep →
      r.report = some ⟨1, transBytes rx ry rz x y z⟩ ∧ r.hasSentNewData = true ∧
      r.hid.lastHIDsentRep = (h.lastHIDsentRep + HIDUPDATERATE_MS) % 4294967296 ∧
      r.hid.countTransZeros = (if x = 0 ∧ y = 0 ∧ z = 0 then h.countTransZeros + 1 else 0) ∧
      r.hid.countRotZeros = (if rx = 0 ∧ ry = 0 ∧ rz = 0 then h.countRotZeros + 1 else 0) ∧
      r.hid.nextState = (if memcmp4_ne r.hid.keyData h.prevKeyData = true
        then States.ST_SENDKEYS else States.ST_START) ∧
      r.hid.prevKeyData = h.prevKeyData ∧
      r.hid.keyData = (prepareKeyBytes tb h.keyStatics keys h.keyData nowKeys).2 ∧
      ((∃ i, i < 4 ∧
          (prepareKeyBytes tb h.keyStatics keys h.keyData nowKeys).2 i ≠ h.prevKeyData i) →
        r.hid.nextState = States.ST_SENDKEYS) ∧
      ((∀ i, i < 4 →
          (prepareKeyBytes tb h.keyStatics keys h.keyData nowKeys).2 i = h.prevKeyData i) →
        r.hid.nextState = States.ST_START)) ∧
    (∀ t e, e < 4294967296 → h.lastHIDsentRep = t % 4294967296 →
      now = (t + e) % 4294967296 → sub32 now h.lastHIDsentRep = e) := by
  have hcall : send_command tb h rx ry rz x y z keys now nowKeys usb
      = send_command_switch (afterKeys tb h keys nowKeys) rx ry rz x y z now usb := rfl
  have hmask : (afterKeys tb h keys nowKeys).keyData
      = (prepareKeyBytes tb h.keyStatics keys h.keyData nowKeys).2 := rfl
  refine ⟨fun hlt => ?_, fun hge => ?_, fun t e he hl hn => ?_⟩
  · have hd : IsNewHidReportDue (afterKeys tb h keys nowKeys) now = false := by
      simp only [IsNewHidReportDue, decide_eq_false_iff_not, not_le]
      exact hlt
    rw [← hr, hcall,
      switch_sendtrans_wait (afterKeys tb h keys nowKeys) rx ry rz x y z now usb hst hd]
    exact ⟨rfl, rfl, hst, rfl, rfl, rfl, rfl⟩
  · have hd : IsNewHidReportDue (afterKeys tb h keys nowKeys) now = true := by
      simp only [IsNewHidReportDue, decide_eq_true_eq]
      exact hge
    rw [← hr, hcall,
      switch_sendtrans_due (afterKeys tb h keys nowKeys) rx ry rz x y z now usb hst hd]
    refine ⟨rfl, rfl, rfl, rfl, rfl, rfl, rfl, hmask, fun hex => ?_, fun hall => ?_⟩
    · obtain ⟨i, hi, hne⟩ := hex
      have hm : memcmp4_ne (afterKeys tb h keys nowKeys).keyData
          (afterKeys tb h keys nowKeys).prevKeyData = true := by
        rw [hmask]
        simp only [memcmp4_ne, List.any_eq_true, List.mem_range, decide_eq_true_eq]
        exact ⟨i, hi, hne⟩
      show (if memcmp4_ne (afterKeys tb h keys nowKeys).keyData
          (afterKeys tb h keys nowKeys).prevKeyData = true
        then States.ST_SENDKEYS else States.ST_START) = States.ST_SENDKEYS
      rw [if_pos hm]
    · have hm : memcmp4_ne (afterKeys tb h keys nowKeys).keyData
          (afterKeys tb h keys nowKeys).prevKeyData = false := by
        rw [hmask]
        simp only [memcmp4_ne, List.any_eq_false, List.mem_range, decide_eq_true_eq, not_not]
        exact hall
      show (if memcmp4_ne (afterKeys tb h keys nowKeys).keyData
          (afterKeys tb h keys nowKeys).prevKeyData = true
        then States.ST_SENDKEYS else States.ST_START) = States.ST_START
      rw [hm]
      rfl
  · rw [hl, hn]
    exact sub32_elapsed t e he

/-- C15 at concrete inputs: last report 6 ms before the clock wraps, call 4 ms
after the wrap with `x = 5` and no key down (report sent, timestamp 2, back to
`ST_START`); and the same call with key 0 resolved to Base, so that byte 1 of
the mask is 32 while the last-sent mask is zero (on to `ST_SENDKEYS`). -/
theorem sendmotion_transition_witness :
    (send_command shippedTables
      { SpaceMouseHID.init with
        nextState := States.ST_SENDTRANS, lastHIDsentRep := 4294967290, countRotZeros := 2 }
      0 0 0 5 0 0 (fun _ => 0) 4 4 (1, 12)).report = some ⟨1, transBytes 0 0 0 5 0 0⟩ ∧
    (send_command shippedTables
      { SpaceMouseHID.init with
        nextState := States.ST_SENDTRANS, lastHIDsentRep := 4294967290, countRotZeros := 2 }
      0 0 0 5 0 0 (fun _ => 0) 4 4 (1, 12)).hid.lastHIDsentRep = 2 ∧
    (send_command shippedTables
      { SpaceMouseHID.init with
        nextState := States.ST_SENDTRANS, lastHIDsentRep := 4294967290, countRotZeros := 2 }
      0 0 0 5 0 0 (fun _ => 0) 4 4 (1, 12)).hid.nextState = States.ST_START ∧
    (send_command shippedTables
      { SpaceMouseHID.init with
        nextState := States.ST_SENDTRANS
        keyStatics := (prepareKeyBytes shippedTables KeyState.init (keysOf [1]) (fun _ => 0) 0).1 }
      0 0 0 5 0 0 (keysOf [1]) 200 200 (1, 12)).hid.nextState = States.ST_SENDKEYS :=
  ⟨((sendmotion_transition shippedTables
      { SpaceMouseHID.init with
        nextState := States.ST_SENDTRANS, lastHIDsentRep := 4294967290, countRotZeros := 2 }
      0 0 0 5 0 0 (fun _ => 0) 4 4 (1, 12) _ rfl rfl).2.1 (by decide)).1,
    by decide,
    ((sendmotion_transition shippedTables
      { SpaceMouseHID.init with
        nextState := States.ST_SENDTRANS, lastHIDsentRep := 4294967290, countRotZeros := 2 }
      0 0 0 5 0 0 (fun _ => 0) 4 4 (1, 12) _ rfl rfl).2.1 (by decide)).2.2.2.2.2.2.2.2.2
      (by decide),
    ((sendmotion_transition shippedTables
      { SpaceMouseHID.init with
        nextState := States.ST_SENDTRANS
        keyStatics := (prepareKeyBytes shippedTables KeyState.init (keysOf [1]) (fun _ => 0) 0).1 }
      0 0 0 5 0 0 (keysOf [1]) 200 200 (1, 12) _ rfl rfl).2.1 (by decide)).2.2.2.2.2.2.2.2.1
      ⟨1, by decide, by decide⟩⟩

/-- A call in `ST_START` whose key mask equals the last-sent mask sends nothing
and does not go to `ST_SENDKEYS`. -/
theorem start_same_mask (tb : KeyTables) (g : SpaceMouseHID) (rx ry rz x y z : Int)
    (keys : Nat → Nat) (now nowKeys : Nat) (usb : Int × Int)
    (hst : g.nextState = States.ST_START)
    (hsame : ∀ i, i < 4 →
      (prepareKeyBytes tb g.keyStatics keys g.keyData nowKeys).2 i = g.prevKeyData i) :
    (send_command tb g rx ry rz x y z keys now nowKeys usb).report = none ∧
    (send_command tb g rx ry rz x y z keys now nowKeys usb).hid.nextState
      ≠ States.ST_SENDKEYS := by
  have hst' : (afterKeys tb g keys nowKeys).nextState = States.ST_START := hst
  have hm' : memcmp4_ne (afterKeys tb g keys nowKeys).keyData
      (afterKeys tb g keys nowKeys).prevKeyData = false :=
    (memcmp4_ne_false_iff _ _).mpr hsame
  rw [send_command_afterKeys]
  rcases send_command_switch_cases (afterKeys tb g keys nowKeys) rx ry rz x y z now usb with
    ⟨hs, e⟩ | ⟨hs, hc, e⟩ | ⟨hs, hc, hm, e⟩ | ⟨hs, hc, hm, e⟩ | ⟨hs, hd, e⟩ | ⟨hs, hd, e⟩ |
    ⟨hs, hd, e⟩ | ⟨⟨raw, hs⟩, e⟩
  · rw [hst'] at hs; cases hs
  · rw [e]; exact ⟨rfl, by simp⟩
  · rw [hm'] at hm; cases hm
  · rw [e]
    refine ⟨rfl, ?_⟩
    generalize sub32 now HIDUPDATERATE_MS = L
    split_ifs
    · show ¬ (afterKeys tb g keys nowKeys).nextState = States.ST_SENDKEYS
      rw [hst']; simp
    · rw [hst']; simp
  · rw [hst'] at hs; cases hs
  · rw [hst'] at hs; cases hs
  · rw [hst'] at hs; rcases hs with hs | hs <;> cases hs
  · rw [hst'] at hs; cases hs

/-- C16 (SendKeys transition). In `ST_SENDKEYS`, if the elapsed time (32-bit
unsigned difference) is below the cadence interval the call sends nothing and
leaves state, timestamp, counters and last-sent mask as they are. Otherwise it
hands one report with id 3 to `SendReport` whose four payload bytes are the
current key mask, adds one cadence interval to the timestamp (modulo 2^32),
stores the sent mask as last-sent mask and returns to `ST_START`; a following
call that computes the same mask does not go to `ST_SENDKEYS`. -/
theorem sendkeys_transition (tb : KeyTables) (h : SpaceMouseHID) (rx ry rz x y z : Int)
    (keys : Nat → Nat) (now nowKeys : Nat) (usb : Int × Int) (r : SendResult)
    (hr : send_command tb h rx ry rz x y z keys now nowKeys usb = r)
    (hst : h.nextState = States.ST_SENDKEYS) :
    (sub32 now h.lastHIDsentRep < HIDUPDATERATE_MS →
      r.report = none ∧ r.hasSentNewData = false ∧ r.hid.nextState = States.ST_SENDKEYS ∧
      r.hid.lastHIDsentRep = h.lastHIDsentRep ∧ r.hid.countTransZeros = h.countTransZeros ∧
      r.hid.countRotZeros = h.countRotZeros ∧ r.hid.prevKeyData = h.prevKeyData) ∧
    (HIDUPDATERATE_MS ≤ sub32 now h.lastHIDsentRep →
      r.report = some ⟨3, [r.hid.keyData 0, r.hid.keyData 1, r.hid.keyData 2, r.hid.keyData 3]⟩ ∧
      r.hid.keyData = (prepareKeyBytes tb h.keyStatics keys h.keyData nowKeys).2 ∧
      r.hasSentNewData = true ∧
      r.hid.lastHIDsentRep = (h.lastHIDsentRep + HIDUPDATERATE_MS) % 4294967296 ∧
      (∀ i, i < 4 → r.hid.prevKeyData i = r.hid.keyData i) ∧
      r.hid.nextState = States.ST_START ∧
      r.hid.countTransZeros = h.countTransZeros ∧ r.hid.countRotZeros = h.countRotZeros ∧
      (∀ (rx2 ry2 rz2 x2 y2 z2 : Int) (keys2 : Nat → Nat) (now2 nowKeys2 : Nat) (usb2 : Int × Int),
        (∀ i, i < 4 →
          (prepareKeyBytes tb r.hid.keyStatics keys2 r.hid.keyData nowKeys2).2 i = r.hid.keyData i) →
        (send_command tb r.hid rx2 ry2 rz2 x2 y2 z2 keys2 now2 nowKeys2 usb2).report = none ∧
        (send_command tb r.hid rx2 ry2 rz2 x2 y2 z2 keys2 now2 nowKeys2 usb2).hid.nextState
          ≠ States.ST_SENDKEYS)) := by
  refine ⟨fun hlt => ?_, fun hge => ?_⟩
  · have hd : IsNewHidReportDue (afterKeys tb h keys nowKeys) now = false := by
      simp only [IsNewHidReportDue, decide_eq_false_iff_not, not_le]
      exact hlt
    rw [← hr, send_command_afterKeys,
      switch_sendkeys_wait (afterKeys tb h keys nowKeys) rx ry rz x y z now usb hst hd]
    exact ⟨rfl, rfl, hst, rfl, rfl, rfl, rfl⟩
  · have hd : IsNewHidReportDue (afterKeys tb h keys nowKeys) now = true := by
      simp only [IsNewHidReportDue, decide_eq_true_eq]
      exact hge
    rw [← hr, send_command_afterKeys,
      switch_sendkeys_due (afterKeys tb h keys nowKeys) rx ry rz x y z now usb hst hd]
    refine ⟨rfl, rfl, rfl, rfl, ?_, rfl, rfl, rfl, ?_⟩
    · intro i hi
      simp only [memcpy4, hi, if_true]
    · intro rx2 ry2 rz2 x2 y2 z2 keys2 now2 nowKeys2 usb2 hsame
      refine start_same_mask tb _ rx2 ry2 rz2 x2 y2 z2 keys2 now2 nowKeys2 usb2 rfl ?_
      intro i hi
      rw [hsame i hi]
      simp only [memcpy4, hi, if_true]

/-- C16 at a concrete input: key 0 resolved to Base (usage code 13), the key
report is due. -/
theorem sendkeys_transition_witness :
    (send_command shippedTables
      { SpaceMouseHID.init with
        nextState := States.ST_SENDKEYS
        keyStatics := (prepareKeyBytes shippedTables KeyState.init (keysOf [1]) (fun _ => 0) 0).1 }
      0 0 0 0 0 0 (keysOf [1]) 200 200 (1, 4)).report = some ⟨3, [0, 32, 0, 0]⟩ :=
  ((sendkeys_transition shippedTables
      { SpaceMouseHID.init with
        nextState := States.ST_SENDKEYS
        keyStatics := (prepareKeyBytes shippedTables KeyState.init (keysOf [1]) (fun _ => 0) 0).1 }
      0 0 0 0 0 0 (keysOf [1]) 200 200 (1, 4) _ rfl rfl).2 (by decide)).1.trans (by decide)


/-! ## Theorems: report scheduler, timestamps -/

/-- One call keeps the last-sent timestamp out of the future: on an object
that is in `ST_INIT` or whose timestamp is not after the clock value, the
timestamp after the call is not after the clock value, and the object has
left `ST_INIT`; a report handed over costs one full cadence interval. -/
theorem send_command_last_le (tb : KeyTables) (h : SpaceMouseHID) (rx ry rz x y z : Int)
    (keys : Nat → Nat) (now nowKeys : Nat) (usb : Int × Int) (hnow : now < 4294967296)
    (hpre : h.nextState = States.ST_INIT ∨ h.lastHIDsentRep ≤ now) :
    (send_command tb h rx ry rz x y z keys now nowKeys usb).hid.lastHIDsentRep ≤ now ∧
    (send_command tb h rx ry rz x y z keys now nowKeys usb).hid.nextState ≠ States.ST_INIT ∧
    ((send_command tb h rx ry rz x y z keys now nowKeys usb).report ≠ none →
      (send_command tb h rx ry rz x y z keys now nowKeys usb).hid.lastHIDsentRep
        = h.lastHIDsentRep + HIDUPDATERATE_MS) := by
  have hl : (afterKeys tb h keys nowKeys).lastHIDsentRep = h.lastHIDsentRep := rfl
  have hn : (afterKeys tb h keys nowKeys).nextState = h.nextState := rfl
  rw [send_command_afterKeys]
  rcases send_command_switch_cases (afterKeys tb h keys nowKeys) rx ry rz x y z now usb with
    ⟨hs, e⟩ | ⟨hs, hc, e⟩ | ⟨hs, hc, hm, e⟩ | ⟨hs, hc, hm, e⟩ | ⟨hs, hd, e⟩ | ⟨hs, hd, e⟩ |
    ⟨hs, hd, e⟩ | ⟨⟨raw, hs⟩, e⟩
  · rw [e]
    exact ⟨le_refl _, by simp, fun hne => absurd rfl hne⟩
  · rw [e]
    rw [hn] at hs
    have hle : h.lastHIDsentRep ≤ now := by
      rcases hpre with hp | hp
      · rw [hs] at hp; cases hp
      · exact hp
    exact ⟨hle, by simp, fun hne => absurd rfl hne⟩
  · rw [e]
    rw [hn] at hs
    have hle : h.lastHIDsentRep ≤ now := by
      rcases hpre with hp | hp
      · rw [hs] at hp; cases hp
      · exact hp
    exact ⟨hle, by simp, fun hne => absurd rfl hne⟩
  · rw [e]
    have hs' := hs
    rw [hn] at hs
    have hle : h.lastHIDsentRep ≤ now := by
      rcases hpre with hp | hp
      · rw [hs] at hp; cases hp
      · exact hp
    by_cases hd : IsNewHidReportDue (afterKeys tb h keys nowKeys) now = true
    · rw [if_pos hd]
      simp only [IsNewHidReportDue, decide_eq_true_eq, hl, sub32_eq, HIDUPDATERATE_MS] at hd
      have hsub : sub32 now HIDUPDATERATE_MS ≤ now := by
        rw [sub32_eq]
        unfold HIDUPDATERATE_MS
        omega
      generalize sub32 now HIDUPDATERATE_MS = L at hsub
      refine ⟨hsub, ?_, fun hne => absurd rfl hne⟩
      show ¬ (afterKeys tb h keys nowKeys).nextState = States.ST_INIT
      rw [hs']; simp
    · rw [if_neg hd]
      refine ⟨hle, ?_, fun hne => absurd rfl hne⟩
      rw [hs']; simp
  · rw [e]
    rw [hn] at hs
    have hle : h.lastHIDsentRep ≤ now := by
      rcases hpre with hp | hp
      · rw [hs] at hp; cases hp
      · exact hp
    simp only [IsNewHidReportDue, decide_eq_true_eq, hl, sub32_eq, HIDUPDATERATE_MS] at hd
    have hadd : add32 h.lastHIDsentRep HIDUPDATERATE_MS = h.lastHIDsentRep + HIDUPDATERATE_MS ∧
        add32 h.lastHIDsentRep HIDUPDATERATE_MS ≤ now := by
      unfold add32 HIDUPDATERATE_MS
      omega
    refine ⟨hadd.2, ?_, fun _ => hadd.1⟩
    simp only []
    split_ifs <;> simp
  · rw [e]
    rw [hn] at hs
    have hle : h.lastHIDsentRep ≤ now := by
      rcases hpre with hp | hp
      · rw [hs] at hp; cases hp
      · exact hp
    simp only [IsNewHidReportDue, decide_eq_true_eq, hl, sub32_eq, HIDUPDATERATE_MS] at hd
    have hadd : add32 h.lastHIDsentRep HIDUPDATERATE_MS = h.lastHIDsentRep + HIDUPDATERATE_MS ∧
        add32 h.lastHIDsentRep HIDUPDATERATE_MS ≤ now := by
      unfold add32 HIDUPDATERATE_MS
      omega
    exact ⟨hadd.2, by simp, fun _ => hadd.1⟩
  · rw [e]
    rw [hn] at hs
    have hle : h.lastHIDsentRep ≤ now := by
      rcases hpre with hp | hp
      · rcases hs with hs | hs <;> (rw [hs] at hp; cases hp)
      · exact hp
    refine ⟨hle, ?_, fun hne => absurd rfl hne⟩
    rw [hn]
    rcases hs with hs | hs <;> (rw [hs]; simp)
  · rw [e]
    rw [hn] at hs
    have hle : h.lastHIDsentRep ≤ now := by
      rcases hpre with hp | hp
      · rw [hs] at hp; cases hp
      · exact hp
    exact ⟨hle, by simp, fun hne => absurd rfl hne⟩

/-- Along a run with a non-decreasing clock that stays below 2^32, started in
`ST_INIT` or with a timestamp not after the first clock value, the timestamp
after each call is not after the clock value of that call. -/
theorem sendRun_last_le (tb : KeyTables) (calls : List Call) :
    ∀ (h : SpaceMouseHID),
      (h.nextState = States.ST_INIT ∨ ∀ c ∈ calls.head?, h.lastHIDsentRep ≤ c.now) →
      List.Chain' (fun a b : Call => a.now ≤ b.now) calls →
      (∀ c ∈ calls, c.now < 4294967296) →
      ∀ p ∈ List.zip calls (sendRun tb h calls),
        p.2.hid.lastHIDsentRep ≤ p.1.now ∧ p.2.hid.nextState ≠ States.ST_INIT := by
  induction calls with
  | nil => intro h _ _ _ p hp; simp [sendRun] at hp
  | cons c cs ih =>
    intro h hpre hmono hlt p hp
    have hstep := send_command_last_le tb h c.rx c.ry c.rz c.x c.y c.z c.keys c.now c.nowKeys
      c.usb (hlt c (List.mem_cons_self _ _))
      (hpre.imp id (fun hh => hh c (by simp)))
    simp only [sendRun, List.zip_cons_cons, List.mem_cons] at hp
    rcases hp with rfl | hp
    · exact ⟨hstep.1, hstep.2.1⟩
    · refine ih _ (Or.inr ?_) (List.Chain'.tail hmono)
        (fun q hq => hlt q (List.mem_cons_of_mem _ hq)) p hp
      intro c' hc'
      cases cs with
      | nil => simp at hc'
      | cons c2 cs2 =>
        simp only [List.head?_cons, Option.mem_def, Option.some.injEq] at hc'
        subst hc'
        have h12 : c.now ≤ c2.now := (List.chain'_cons.mp hmono).1
        exact le_trans hstep.1 h12

/-- C24 (the last-sent timestamp never lies in the future). For every run of
`send_command` calls that starts in `ST_INIT`, with a non-decreasing clock
that stays below 2^32: after the first call (the Init call) and after every
later call the last-sent timestamp is at most the clock value of that call and
the object is no longer in `ST_INIT`. In every such state, at every clock
value `now` from then on, the unsigned difference of `IsNewHidReportDue` is
the true elapsed time `now - lastHIDsentRep`, and a call that hands a report
to `SendReport` moves the timestamp forward by exactly one cadence interval,
without wrapping and not beyond `now`. -/
theorem last_sent_not_in_future (tb : KeyTables) (h : SpaceMouseHID) (calls : List Call)
    (hinit : h.nextState = States.ST_INIT)
    (hmono : List.Chain' (fun a b : Call => a.now ≤ b.now) calls)
    (hlt : ∀ c ∈ calls, c.now < 4294967296) :
    (∀ p ∈ List.zip calls (sendRun tb h calls),
      p.2.hid.lastHIDsentRep ≤ p.1.now ∧ p.2.hid.nextState ≠ States.ST_INIT) ∧
    (∀ (g : SpaceMouseHID) (rx ry rz x y z : Int) (keys : Nat → Nat) (now nowKeys : Nat)
        (usb : Int × Int), g.lastHIDsentRep ≤ now → now < 4294967296 →
      sub32 now g.lastHIDsentRep = now - g.lastHIDsentRep ∧
      (IsNewHidReportDue g now = true ↔ g.lastHIDsentRep + HIDUPDATERATE_MS ≤ now) ∧
      (send_command tb g rx ry rz x y z keys now nowKeys usb).hid.lastHIDsentRep ≤ now ∧
      ((send_command tb g rx ry rz x y z keys now nowKeys usb).report ≠ none →
        (send_command tb g rx ry rz x y z keys now nowKeys usb).hid.lastHIDsentRep
          = g.lastHIDsentRep + HIDUPDATERATE_MS)) := by
  refine ⟨sendRun_last_le tb calls h (Or.inl hinit) hmono hlt, ?_⟩
  intro g rx ry rz x y z keys now nowKeys usb hle hnow
  have hstep := send_command_last_le tb g rx ry rz x y z keys now nowKeys usb hnow (Or.inr hle)
  have hsub : sub32 now g.lastHIDsentRep = now - g.lastHIDsentRep := by
    rw [sub32_eq]; omega
  refine ⟨hsub, ?_, hstep.1, hstep.2.2⟩
  simp only [IsNewHidReportDue, decide_eq_true_eq, hsub]
  omega

/-- C24 at a concrete run: a fresh object and calls at clock values 5, 5 and 20
with motion on the x axis; after the third call (the one that sends) the
timestamp is not after 20. -/
theorem last_sent_not_in_future_witness :
    (send_command shippedTables
      (send_command shippedTables
        (send_command shippedTables SpaceMouseHID.init 0 0 0 7 0 0 (fun _ => 0) 5 5 (1, 12)).hid
        0 0 0 7 0 0 (fun _ => 0) 5 5 (1, 12)).hid
      0 0 0 7 0 0 (fun _ => 0) 20 20 (1, 12)).hid.lastHIDsentRep ≤ 20 :=
  ((last_sent_not_in_future shippedTables SpaceMouseHID.init
    [⟨0, 0, 0, 7, 0, 0, fun _ => 0, 5, 5, (1, 12)⟩,
      ⟨0, 0, 0, 7, 0, 0, fun _ => 0, 5, 5, (1, 12)⟩,
      ⟨0, 0, 0, 7, 0, 0, fun _ => 0, 20, 20, (1, 12)⟩]
    rfl
    (List.Chain'.cons (by decide) (List.Chain'.cons (by decide) (List.chain'_singleton _)))
    (by
      intro c hc
      simp only [List.mem_cons, List.mem_singleton, List.not_mem_nil, or_false] at hc
      rcases hc with rfl | rfl | rfl <;> decide)).1
    (⟨0, 0, 0, 7, 0, 0, fun _ => 0, 20, 20, (1, 12)⟩,
      send_command shippedTables
        (send_command shippedTables
          (send_command shippedTables SpaceMouseHID.init 0 0 0 7 0 0 (fun _ => 0) 5 5 (1, 12)).hid
          0 0 0 7 0 0 (fun _ => 0) 5 5 (1, 12)).hid
        0 0 0 7 0 0 (fun _ => 0) 20 20 (1, 12))
    (List.mem_cons_of_mem _ (List.mem_cons_of_mem _ (List.mem_cons_self _ _)))).1

/-! ## Theorems: LED feedback -/

/-- C19, as stated, fails: with the bytes `4, 2` waiting and the indicator off,
`updateLEDState` consumes both bytes and leaves the indicator off, although
the second byte is non-zero; with the indicator on it switches it off. -/
theorem led_decoding_counterexample :
    updateLEDState false [4, 2] = (false, false, []) ∧
    updateLEDState true [4, 2] = (false, false, []) := by
  decide

/-- C19, amended. With fewer than 2 bytes waiting, `updateLEDState` leaves the
indicator as it is and consumes nothing. With at least 2 bytes waiting it
consumes exactly the first two; if the first is 4 the indicator becomes true
exactly when the second byte equals 1 (false for 0 and for every other
value), and if the first is not 4 the indicator is unchanged. The returned
value and `getLEDState` equal the resulting indicator. The count of waiting
bytes is a `uint8_t`, so fewer than 256 bytes are waiting. -/
theorem led_decoding (ledState : Bool) (rx : List Nat) (hlen : rx.length < 256) :
    (rx.length < 2 → updateLEDState ledState rx = (ledState, ledState, rx)) ∧
    (∀ b0 b1 rest, rx = b0 :: b1 :: rest →
      updateLEDState ledState rx
        = (if b0 = 4 then decide (b1 = 1) else ledState,
           if b0 = 4 then decide (b1 = 1) else ledState, rest)) ∧
    getLEDState (updateLEDState ledState rx).2.1 = (updateLEDState ledState rx).1 := by
  have hav : USB_Available rx = rx.length := by
    unfold USB_Available; omega
  refine ⟨fun h2 => ?_, fun b0 b1 rest hrx => ?_, ?_⟩
  · have : ¬ (rx.length ≥ 2) := by omega
    simp only [updateLEDState, hav, this, if_false]
  · subst hrx
    have : (b0 :: b1 :: rest).length ≥ 2 := by simp
    simp only [updateLEDState, hav, this, if_true, USB_Recv2, List.getD_cons_zero,
      List.getD_cons_succ, List.drop_succ_cons, List.drop_zero]
    by_cases h4 : b0 = 4 <;> by_cases h1 : b1 = 1 <;> simp [h4, h1]
  · unfold getLEDState updateLEDState
    simp only []
    split_ifs <;> rfl

/-- C19 amended, at concrete inputs: `4, 1` switches the indicator on, `4, 0`
switches it off, `7, 1` leaves it, a single byte is not consumed. -/
theorem led_decoding_witness :
    updateLEDState false [4, 1, 9] = (true, true, [9]) ∧
    updateLEDState true [4, 0] = (false, false, []) ∧
    updateLEDState true [7, 1] = (true, true, []) ∧
    updateLEDState true [4] = (true, true, [4]) :=
  ⟨((led_decoding false [4, 1, 9] (by decide)).2.1 4 1 [9] rfl).trans (by decide),
    ((led_decoding true [4, 0] (by decide)).2.1 4 0 [] rfl).trans (by decide),
    ((led_decoding true [7, 1] (by decide)).2.1 7 1 [] rfl).trans (by decide),
    (led_decoding true [4] (by decide)).1 (by decide)⟩

end SpaceMouse
